import Mathlib

/-!
VTK-m `ArrayHandle<T, StorageTagBasic>`: control/execution synchronisation

A shallow embedding of `vtkm/cont/internal/ArrayHandleBasicImpl.hxx`.

* `vtkm::Id` is a signed integer and is embedded as `Int`.
* A typed pointer `T*` is embedded as a natural-number address counted in
  elements, so `end - begin` is an element count and `begin + n` advances by
  `n` elements, as in C++ pointer arithmetic. The null pointer is address `0`.
* The shared block (`InternalStruct`) is passed explicitly; every member
  function takes the block and gives back a `Result` holding the block as the
  call left it, whether the call returned or threw.
* Dereferencing a null `ExecutionInterface` and a failing `VTKM_ASSERT` are
  modelled as the errors `NullDereference` and `AssertionFailure`.
* The byte count `sizeof(ValueType) * numVals` of `PrepareForOutput`, whose
  factor `numVals` comes from the caller, is a product of `vtkm::Id` values
  and wraps modulo `2^64` (`wrapId`). The byte count of a buffer that exists
  is computed without wrapping: a buffer of `n` values only exists when the
  product fits the address space. Running out of memory is not modelled.
* The destination of `CopyInto` has a value type of its own, which need not be
  `ValueType` (`Destination`).
-/

namespace vtkm
namespace cont

/-- The identifier of a device adapter (`vtkm::cont::DeviceAdapterId`). -/
abbrev DeviceAdapterId := Nat

/-- The two messages with which `ErrorBadValue` is thrown in the file. -/
inductive BadValue where
  | NoDataToCopy
  | ShrinkCannotGrow
  deriving DecidableEq, Repr

/-- Ways in which a member function can fail to return. -/
inductive Error where
  /-- `ErrorInternal("ArrayHandle::SyncControlArray did not make control array valid.")` -/
  | ErrorInternal
  /-- `ErrorBadValue(...)` -/
  | ErrorBadValue (what : BadValue)
  /-- A member call through `ExecutionInterface` while that pointer is null. -/
  | NullDereference
  /-- A `VTKM_ASSERT` whose condition is false. -/
  | AssertionFailure
  deriving DecidableEq, Repr

/-- Outcome of a member function on a block of type `σ`: it returns `value`, or
it throws `error`; in both cases `state` is the block as the call left it. -/
inductive Result (σ α : Type) where
  | ok (value : α) (state : σ)
  | throw (error : Error) (state : σ)
  deriving DecidableEq, Repr

/-- The outcome with the returned value, if any, passed through `f`. -/
def Result.map {σ α β : Type} (f : α → β) : Result σ α → Result σ β
  | .ok a s => .ok (f a) s
  | .throw e s => .throw e s

/-- The block a call leaves behind. -/
def Result.state {σ α : Type} : Result σ α → σ
  | .ok _ s => s
  | .throw _ s => s

/-- The error a call throws, when it throws. -/
def Result.error? {σ α : Type} : Result σ α → Option Error
  | .ok _ _ => none
  | .throw e _ => some e

/-- What the code takes from its platform: `sizeof(ValueType)`, which is
positive, the (arbitrary) contents of freshly allocated host and device
memory, and the address at which a device allocation is placed. -/
structure Platform (T : Type) where
  SizeofValueType : Int
  sizeof_pos : 0 < SizeofValueType
  HostGarbage : Nat → T
  DeviceGarbage : Nat → T
  DeviceBase : Nat

/-- Modelled from the spec: `Storage<T, StorageTagBasic>`, whose definition is
not among the sources; "host-resident growable value sequence; owns its
storage". `Array` lists the `GetNumberOfValues()` elements at `GetArray()`. -/
structure StorageBasic (T : Type) where
  Array : List T
  deriving DecidableEq, Repr

namespace StorageBasic

variable {T : Type}

/-- Modelled from the spec: `Storage::GetNumberOfValues()`. -/
def GetNumberOfValues (st : StorageBasic T) : Int := (st.Array.length : Int)

/-- Modelled from the spec: `Storage::Allocate(n)`, "reallocates the control
buffer to exactly `n` elements with unspecified/garbage content". -/
def Allocate (P : Platform T) (_st : StorageBasic T) (numberOfValues : Int) : StorageBasic T :=
  ⟨(List.range numberOfValues.toNat).map P.HostGarbage⟩

/-- Modelled from the spec: `Storage::Shrink(n)`, "control: physically shrink
... preserving the first `n` elements". -/
def Shrink (st : StorageBasic T) (numberOfValues : Int) : StorageBasic T :=
  ⟨st.Array.take numberOfValues.toNat⟩

/-- Modelled from the spec: `Storage::ReleaseResources()`, "frees the control
buffer". -/
def ReleaseResources (_st : StorageBasic T) : StorageBasic T := ⟨[]⟩

end StorageBasic

/-- The shared state block `ArrayHandle<T, StorageTagBasic>::InternalStruct`.
`ExecutionInterface` is the nullable adapter pointer; an adapter is identified
by the device it is bound to. `DeviceMemory` is modelled from the spec (the
adapter classes are not among the sources): it lists the elements of the
adapter-owned device buffer, the element at address `ExecutionArray + i` being
`DeviceMemory[i]`. -/
structure InternalStruct (T : Type) where
  ControlArray : StorageBasic T
  ControlArrayValid : Bool
  ExecutionInterface : Option DeviceAdapterId
  ExecutionArrayValid : Bool
  ExecutionArray : Nat
  ExecutionArrayEnd : Nat
  ExecutionArrayCapacity : Nat
  DeviceMemory : List T
  deriving DecidableEq, Repr

/-- A portal created by `PortalFactory::CreatePortal(begin, end)` (or
`CreatePortalConst`): the range of device addresses it views. -/
structure ExecutionPortal where
  Begin : Nat
  End : Nat
  deriving DecidableEq, Repr

/-- The value `GetNumberOfValues()` of an execution portal. -/
def ExecutionPortal.GetNumberOfValues (p : ExecutionPortal) : Int := (p.End : Int) - (p.Begin : Int)

namespace ExecutionArrayInterfaceBasic

variable {T : Type}

/-- Modelled from the spec: adapter `Allocate(bufferDescriptor, numBytes)`; the
three pointers of the descriptor are set to a buffer of `numBytes` bytes, that
is `numBytes / sizeof(T)` elements, of unspecified content. -/
def Allocate (P : Platform T) (s : InternalStruct T) (numBytes : Int) : InternalStruct T :=
  let n := (numBytes / P.SizeofValueType).toNat
  { s with
    ExecutionArray := P.DeviceBase
    ExecutionArrayEnd := P.DeviceBase + n
    ExecutionArrayCapacity := P.DeviceBase + n
    DeviceMemory := (List.range n).map P.DeviceGarbage }

/-- Modelled from the spec: adapter `Free(bufferDescriptor)`; the device buffer
is released and the three pointers of the descriptor become null. -/
def Free (s : InternalStruct T) : InternalStruct T :=
  { s with
    ExecutionArray := 0
    ExecutionArrayEnd := 0
    ExecutionArrayCapacity := 0
    DeviceMemory := [] }

/-- Modelled from the spec: the byte copy behind `CopyFromControl(src, dst,
numBytes)` and `CopyToControl(src, dst, numBytes)`: the first
`numBytes / sizeof(T)` elements at `dst` are overwritten by those at `src`. -/
def CopyBytes (P : Platform T) (src dst : List T) (numBytes : Int) : List T :=
  let k := (numBytes / P.SizeofValueType).toNat
  src.take k ++ dst.drop k

end ExecutionArrayInterfaceBasic

namespace ArrayHandle

open ExecutionArrayInterfaceBasic

variable {T : Type}

/-- The block made by `ArrayHandle()`: `new InternalStruct`. -/
def InternalStruct.default : InternalStruct T :=
  { ControlArray := ⟨[]⟩
    ControlArrayValid := false
    ExecutionInterface := none
    ExecutionArrayValid := false
    ExecutionArray := 0
    ExecutionArrayEnd := 0
    ExecutionArrayCapacity := 0
    DeviceMemory := [] }

/-- The block made by `ArrayHandle(const StorageType& storage)`:
`new InternalStruct(storage)`. -/
def InternalStruct.ofStorage (storage : StorageBasic T) : InternalStruct T :=
  { ControlArray := storage
    ControlArrayValid := true
    ExecutionInterface := none
    ExecutionArrayValid := false
    ExecutionArray := 0
    ExecutionArrayEnd := 0
    ExecutionArrayCapacity := 0
    DeviceMemory := [] }

/-- `ArrayHandle::GetNumberOfValues`. -/
def GetNumberOfValues (s : InternalStruct T) : Int :=
  if s.ControlArrayValid then
    s.ControlArray.GetNumberOfValues
  else if s.ExecutionArrayValid then
    (s.ExecutionArrayEnd : Int) - (s.ExecutionArray : Int)
  else
    0

/-- `ArrayHandle::SyncControlArray`. -/
def SyncControlArray (P : Platform T) (s : InternalStruct T) : Result (InternalStruct T) Unit :=
  if !s.ControlArrayValid then
    if s.ExecutionArrayValid then
      let numValues : Int := (s.ExecutionArrayEnd : Int) - (s.ExecutionArray : Int)
      let numBytes : Int := P.SizeofValueType * numValues
      let s1 := { s with ControlArray := s.ControlArray.Allocate P numValues }
      match s1.ExecutionInterface with
      | none => .throw .NullDereference s1
      | some _ =>
        let s2 := { s1 with
          ControlArray := ⟨CopyBytes P s1.DeviceMemory s1.ControlArray.Array numBytes⟩ }
        .ok () { s2 with ControlArrayValid := true }
    else
      .ok () { s with ControlArray := s.ControlArray.Allocate P 0, ControlArrayValid := true }
  else
    .ok () s

/-- `ArrayHandle::ReleaseResourcesExecutionInternal`. -/
def ReleaseResourcesExecutionInternal (s : InternalStruct T) : Result (InternalStruct T) Unit :=
  if s.ExecutionArrayValid then
    match s.ExecutionInterface with
    | none => .throw .NullDereference s
    | some _ => .ok () { Free s with ExecutionArrayValid := false }
  else
    .ok () s

/-- `ArrayHandle::GetStorage`; the value is the storage the returned
reference designates. -/
def GetStorage (P : Platform T) (s : InternalStruct T) :
    Result (InternalStruct T) (StorageBasic T) :=
  match SyncControlArray P s with
  | .throw e s1 => .throw e s1
  | .ok _ s1 =>
    if s1.ControlArrayValid then .ok s1.ControlArray s1
    else .throw .ErrorInternal s1

/-- `ArrayHandle::GetPortalControl`; the value is the element sequence the
returned portal reads (`ControlArray.GetPortal()`). -/
def GetPortalControl (P : Platform T) (s : InternalStruct T) :
    Result (InternalStruct T) (List T) :=
  match SyncControlArray P s with
  | .throw e s1 => .throw e s1
  | .ok _ s1 =>
    if s1.ControlArrayValid then
      match ReleaseResourcesExecutionInternal s1 with
      | .throw e s2 => .throw e s2
      | .ok _ s2 => .ok s2.ControlArray.Array s2
    else .throw .ErrorInternal s1

/-- `ArrayHandle::GetPortalConstControl`; the value is the element sequence
the returned portal reads (`ControlArray.GetPortalConst()`). -/
def GetPortalConstControl (P : Platform T) (s : InternalStruct T) :
    Result (InternalStruct T) (List T) :=
  match SyncControlArray P s with
  | .throw e s1 => .throw e s1
  | .ok _ s1 =>
    if s1.ControlArrayValid then .ok s1.ControlArray.Array s1
    else .throw .ErrorInternal s1

/-- The argument `dest` of `CopyInto`, an iterator of type `IteratorType`
whose `value_type` is embedded as `U`; the only demand the code makes on it is
that `value_type` is not `const`, so `U` need not be `ValueType`.
`IsPointer` is `std::is_pointer<IteratorType>::value`. The C++ object model is
taken as two parameters: `Assign v` is the `value_type` object that
`*dest = v` stores for an element `v` of the array (the conversion made by
`std::copy`), and `Reinterpret vs` lists the `value_type` objects found at
`dest` once the bytes of the elements `vs` have been copied there. -/
structure Destination (T U : Type) where
  IsPointer : Bool
  Assign : T → U
  Reinterpret : List T → List U

/-- A destination whose `value_type` is `ValueType`, a raw pointer
`ValueType*` when `isPointer` is true and another iterator over `ValueType`
otherwise: assigning an element stores it, and the copied bytes of elements are
these elements. -/
def Destination.ofValueType (isPointer : Bool) : Destination T T :=
  { IsPointer := isPointer
    Assign := fun v => v
    Reinterpret := fun vs => vs }

/-- `ArrayHandle::CopyInto(dest, DeviceAdapterTag)`. `devId` is the id of the
device tag; the value is the sequence of `value_type` objects `dest` holds after
the call, from `dest` on, as far as the call wrote. -/
def CopyInto {U : Type} (P : Platform T) (s : InternalStruct T) (dest : Destination T U)
    (devId : DeviceAdapterId) : Result (InternalStruct T) (List U) :=
  if !s.ControlArrayValid && !s.ExecutionArrayValid then
    .throw (.ErrorBadValue .NoDataToCopy) s
  else if !s.ControlArrayValid && dest.IsPointer && s.ExecutionInterface.isSome &&
      decide (s.ExecutionInterface = some devId) then
    let numBytes : Int := P.SizeofValueType * GetNumberOfValues s
    .ok (dest.Reinterpret (CopyBytes P s.DeviceMemory [] numBytes)) s
  else
    match GetPortalConstControl P s with
    | .throw e s1 => .throw e s1
    | .ok portal s1 => .ok (portal.map dest.Assign) s1

/-- `ArrayHandle::Allocate`. -/
def Allocate (P : Platform T) (s : InternalStruct T) (numberOfValues : Int) :
    Result (InternalStruct T) Unit :=
  match ReleaseResourcesExecutionInternal s with
  | .throw e s1 => .throw e s1
  | .ok _ s1 =>
    .ok () { s1 with
      ControlArray := s1.ControlArray.Allocate P numberOfValues
      ControlArrayValid := true }

/-- The body of the `numberOfValues > 0` branch of `ArrayHandle::Shrink`, up
to the closing assertion. -/
def ShrinkPositive (s : InternalStruct T) (numberOfValues : Int) : Result (InternalStruct T) Unit :=
  let originalNumberOfValues := GetNumberOfValues s
  if numberOfValues < originalNumberOfValues then
    let s1 := if s.ControlArrayValid then
        { s with ControlArray := s.ControlArray.Shrink numberOfValues }
      else s
    let s2 := if s1.ExecutionArrayValid then
        { s1 with ExecutionArrayEnd := s1.ExecutionArray + numberOfValues.toNat }
      else s1
    .ok () s2
  else if numberOfValues = originalNumberOfValues then
    .ok () s
  else
    .throw (.ErrorBadValue .ShrinkCannotGrow) s

/-- `ArrayHandle::Shrink`. -/
def Shrink (P : Platform T) (s : InternalStruct T) (numberOfValues : Int) :
    Result (InternalStruct T) Unit :=
  if numberOfValues < 0 then
    .throw .AssertionFailure s
  else if numberOfValues > 0 then
    match ShrinkPositive s numberOfValues with
    | .throw e s1 => .throw e s1
    | .ok _ s1 =>
      if GetNumberOfValues s1 = numberOfValues then .ok () s1
      else .throw .AssertionFailure s1
  else
    Allocate P s 0

/-- `ArrayHandle::ReleaseResourcesExecution`. -/
def ReleaseResourcesExecution (P : Platform T) (s : InternalStruct T) :
    Result (InternalStruct T) Unit :=
  match SyncControlArray P s with
  | .throw e s1 => .throw e s1
  | .ok _ s1 => ReleaseResourcesExecutionInternal s1

/-- `ArrayHandle::ReleaseResources`. -/
def ReleaseResources (s : InternalStruct T) : Result (InternalStruct T) Unit :=
  match ReleaseResourcesExecutionInternal s with
  | .throw e s1 => .throw e s1
  | .ok _ s1 =>
    if s1.ControlArrayValid then
      .ok () { s1 with
        ControlArray := s1.ControlArray.ReleaseResources
        ControlArrayValid := false }
    else
      .ok () s1

/-- The tail of `ArrayHandle::PrepareForDevice`: the two assertions and the
construction of the adapter for the requested device. -/
def AttachInterface (s : InternalStruct T) (devId : DeviceAdapterId) :
    Result (InternalStruct T) Unit :=
  if s.ExecutionInterface.isSome then
    .throw .AssertionFailure s
  else if s.ExecutionArrayValid then
    .throw .AssertionFailure s
  else
    .ok () { s with ExecutionInterface := some devId }

/-- `ArrayHandle::PrepareForDevice`; `devId` is the id of the device tag. -/
def PrepareForDevice (P : Platform T) (s : InternalStruct T) (devId : DeviceAdapterId) :
    Result (InternalStruct T) Unit :=
  match s.ExecutionInterface with
  | some current =>
    if current = devId then
      .ok () s
    else
      match SyncControlArray P s with
      | .throw e s1 => .throw e s1
      | .ok _ s1 =>
        match s1.ExecutionInterface with
        | none => .throw .NullDereference s1
        | some _ =>
          AttachInterface
            { Free s1 with ExecutionInterface := none, ExecutionArrayValid := false } devId
  | none => AttachInterface s devId

/-- The body of `if (!ExecutionArrayValid)` shared, statement for statement, by
`PrepareForInput` and `PrepareForInPlace`: make the control array valid,
allocate the execution array of the control length and copy into it. -/
def UploadControlArray (P : Platform T) (s : InternalStruct T) : Result (InternalStruct T) Unit :=
  let s1 := if !s.ControlArrayValid then
      { s with ControlArray := s.ControlArray.Allocate P 0, ControlArrayValid := true }
    else s
  match GetStorage P s1 with
  | .throw e s2 => .throw e s2
  | .ok storage s2 =>
    let numBytes : Int := P.SizeofValueType * storage.GetNumberOfValues
    match s2.ExecutionInterface with
    | none => .throw .NullDereference s2
    | some _ =>
      let s3 := ExecutionArrayInterfaceBasic.Allocate P s2 numBytes
      let s4 := { s3 with DeviceMemory := CopyBytes P s3.ControlArray.Array s3.DeviceMemory numBytes }
      .ok () { s4 with ExecutionArrayValid := true }

/-- `ArrayHandle::PrepareForInput`. -/
def PrepareForInput (P : Platform T) (s : InternalStruct T) (device : DeviceAdapterId) :
    Result (InternalStruct T) ExecutionPortal :=
  match PrepareForDevice P s device with
  | .throw e s1 => .throw e s1
  | .ok _ s1 =>
    if !s1.ExecutionArrayValid then
      match UploadControlArray P s1 with
      | .throw e s2 => .throw e s2
      | .ok _ s2 => .ok ⟨s2.ExecutionArray, s2.ExecutionArrayEnd⟩ s2
    else
      .ok ⟨s1.ExecutionArray, s1.ExecutionArrayEnd⟩ s1

/-- The value of type `vtkm::Id`, a 64-bit two's complement integer, that an
arithmetic operation with the exact result `x` gives: `x` modulo `2^64`, taken
in `[-2^63, 2^63)`. -/
def wrapId (x : Int) : Int :=
  (x + 9223372036854775808) % 18446744073709551616 - 9223372036854775808

/-- The number of elements of the buffer that `PrepareForOutput(numVals, device)`
asks the adapter for: the adapter is passed
`static_cast<vtkm::Id>(sizeof(ValueType)) * numVals` bytes. -/
def PrepareForOutputLength (P : Platform T) (numVals : Int) : Nat :=
  (wrapId (P.SizeofValueType * numVals) / P.SizeofValueType).toNat

/-- `ArrayHandle::PrepareForOutput`. The byte count is a product of `vtkm::Id`
values. -/
def PrepareForOutput (P : Platform T) (s : InternalStruct T) (numVals : Int)
    (device : DeviceAdapterId) : Result (InternalStruct T) ExecutionPortal :=
  match PrepareForDevice P s device with
  | .throw e s1 => .throw e s1
  | .ok _ s1 =>
    let s2 := { s1 with ControlArrayValid := false }
    match s2.ExecutionInterface with
    | none => .throw .NullDereference s2
    | some _ =>
      let s3 := ExecutionArrayInterfaceBasic.Allocate P s2 (wrapId (P.SizeofValueType * numVals))
      let s4 := { s3 with ExecutionArrayValid := true }
      .ok ⟨s4.ExecutionArray, s4.ExecutionArrayEnd⟩ s4

/-- `ArrayHandle::PrepareForInPlace`. -/
def PrepareForInPlace (P : Platform T) (s : InternalStruct T) (device : DeviceAdapterId) :
    Result (InternalStruct T) ExecutionPortal :=
  match PrepareForDevice P s device with
  | .throw e s1 => .throw e s1
  | .ok _ s1 =>
    let r := if !s1.ExecutionArrayValid then UploadControlArray P s1 else .ok () s1
    match r with
    | .throw e s2 => .throw e s2
    | .ok _ s2 =>
      let s3 := { s2 with ControlArrayValid := false }
      .ok ⟨s3.ExecutionArray, s3.ExecutionArrayEnd⟩ s3

/-- The element sequence an execution portal over
`[ExecutionArray, ExecutionArrayEnd)` reads from the device buffer. -/
def ExecutionValues (s : InternalStruct T) : List T :=
  s.DeviceMemory.take (s.ExecutionArrayEnd - s.ExecutionArray)

/-- The logical contents of the array, resolved with the priority of
`GetNumberOfValues`: the control array when it is valid, else the execution
array when it is valid, else the empty sequence. -/
def LogicalContents (s : InternalStruct T) : List T :=
  if s.ControlArrayValid then s.ControlArray.Array
  else if s.ExecutionArrayValid then ExecutionValues s
  else []

/-- Modelled from the spec: a caller storing `values` with `Set` through a
portal over `[ExecutionArray, ExecutionArrayEnd)` ("Portal: an
index-addressable accessor (get/set, length)"; the portal classes are not
among the sources). -/
def WriteExecution (s : InternalStruct T) (values : List T) : InternalStruct T :=
  { s with DeviceMemory := values ++ s.DeviceMemory.drop values.length }

/-- Modelled from the spec: a caller storing `values` with `Set` through the
portal returned by `GetPortalControl`. -/
def WriteControl (s : InternalStruct T) (values : List T) : InternalStruct T :=
  { s with ControlArray := ⟨values ++ s.ControlArray.Array.drop values.length⟩ }

/-- The blocks a program can produce: it starts from one of the two
constructors and then calls public member functions (`n ≥ 0` where a count is
passed), writing only through a writable portal of the side that alone is
valid (the portal handed out by the latest `GetPortalControl`,
`PrepareForOutput` or `PrepareForInPlace`), all values of the portal at once. -/
inductive Reachable (P : Platform T) : InternalStruct T → Prop
  | default : Reachable P InternalStruct.default
  | ofStorage (storage : StorageBasic T) : Reachable P (InternalStruct.ofStorage storage)
  | getStorage {s : InternalStruct T} : Reachable P s → Reachable P (GetStorage P s).state
  | getPortalControl {s : InternalStruct T} :
      Reachable P s → Reachable P (GetPortalControl P s).state
  | getPortalConstControl {s : InternalStruct T} :
      Reachable P s → Reachable P (GetPortalConstControl P s).state
  | copyInto {s : InternalStruct T} {U : Type} (dest : Destination T U)
      (devId : DeviceAdapterId) :
      Reachable P s → Reachable P (CopyInto P s dest devId).state
  | allocate {s : InternalStruct T} (n : Int) :
      Reachable P s → 0 ≤ n → Reachable P (Allocate P s n).state
  | shrink {s : InternalStruct T} (n : Int) :
      Reachable P s → 0 ≤ n → Reachable P (Shrink P s n).state
  | releaseResourcesExecution {s : InternalStruct T} :
      Reachable P s → Reachable P (ReleaseResourcesExecution P s).state
  | releaseResources {s : InternalStruct T} :
      Reachable P s → Reachable P (ReleaseResources s).state
  | prepareForInput {s : InternalStruct T} (device : DeviceAdapterId) :
      Reachable P s → Reachable P (PrepareForInput P s device).state
  | prepareForOutput {s : InternalStruct T} (n : Int) (device : DeviceAdapterId) :
      Reachable P s → 0 ≤ n → Reachable P (PrepareForOutput P s n device).state
  | prepareForInPlace {s : InternalStruct T} (device : DeviceAdapterId) :
      Reachable P s → Reachable P (PrepareForInPlace P s device).state
  | writeControl {s : InternalStruct T} (values : List T) :
      Reachable P s → s.ControlArrayValid = true → s.ExecutionArrayValid = false →
      values.length = s.ControlArray.Array.length → Reachable P (WriteControl s values)
  | writeExecution {s : InternalStruct T} (values : List T) :
      Reachable P s → s.ControlArrayValid = false → s.ExecutionArrayValid = true →
      (values.length : Int) = GetNumberOfValues s → Reachable P (WriteExecution s values)

/-- What holds of every block a program can produce: a valid execution array
has an adapter and lies inside the device buffer, and two valid sides hold the
same elements. -/
structure Invariant (s : InternalStruct T) : Prop where
  adapter : s.ExecutionArrayValid = true → s.ExecutionInterface.isSome = true
  bounds : s.ExecutionArrayValid = true →
    s.ExecutionArray ≤ s.ExecutionArrayEnd ∧
      s.ExecutionArrayEnd - s.ExecutionArray ≤ s.DeviceMemory.length
  coherent : s.ControlArrayValid = true → s.ExecutionArrayValid = true →
    s.ControlArray.Array = ExecutionValues s

/-- A concrete platform over `Nat` elements: 4-byte values, fresh host memory
reads `700, 701, ...`, fresh device memory `900, 901, ...`, device buffers are
placed at address 64. -/
def samplePlatform : Platform Nat :=
  { SizeofValueType := 4
    sizeof_pos := by decide
    HostGarbage := fun i => 700 + i
    DeviceGarbage := fun i => 900 + i
    DeviceBase := 64 }

/-- A block that holds `[9, 9, 9, 9, 9]` only in the execution buffer of
device 1: `PrepareForOutput(5, 1)` on a default-constructed handle, then the
five values written through the returned portal. -/
def sampleExecutionOnly : InternalStruct Nat :=
  WriteExecution (PrepareForOutput samplePlatform InternalStruct.default 5 1).state
    [9, 9, 9, 9, 9]

/-- A control-only block: `Allocate(3)` on a default-constructed handle. -/
def sampleControlOnly : InternalStruct Nat :=
  (Allocate samplePlatform InternalStruct.default 3).state

/-- A block whose two sides are valid and hold `[1, 2, 3, 4, 5]`: a handle
constructed from that storage, then `PrepareForInput(1)`. -/
def sampleBothValid : InternalStruct Nat :=
  (PrepareForInput samplePlatform (InternalStruct.ofStorage ⟨[1, 2, 3, 4, 5]⟩) 1).state

/-- One step of a program using the block: a call of a public member function,
or the values stored through a writable portal. -/
inductive Operation (T : Type) : Type 1 where
  | getStorage
  | getPortalControl
  | getPortalConstControl
  | copyInto {U : Type} (dest : Destination T U) (devId : DeviceAdapterId)
  | allocate (n : Int)
  | shrink (n : Int)
  | releaseResourcesExecution
  | releaseResources
  | prepareForInput (device : DeviceAdapterId)
  | prepareForOutput (n : Int) (device : DeviceAdapterId)
  | prepareForInPlace (device : DeviceAdapterId)
  | writeControl (values : List T)
  | writeExecution (values : List T)

/-- The block a step leaves behind. -/
def Operation.apply (P : Platform T) (s : InternalStruct T) : Operation T → InternalStruct T
  | .getStorage => (GetStorage P s).state
  | .getPortalControl => (GetPortalControl P s).state
  | .getPortalConstControl => (GetPortalConstControl P s).state
  | .copyInto dest devId => (CopyInto P s dest devId).state
  | .allocate n => (Allocate P s n).state
  | .shrink n => (Shrink P s n).state
  | .releaseResourcesExecution => (ReleaseResourcesExecution P s).state
  | .releaseResources => (ReleaseResources s).state
  | .prepareForInput device => (PrepareForInput P s device).state
  | .prepareForOutput n device => (PrepareForOutput P s n device).state
  | .prepareForInPlace device => (PrepareForInPlace P s device).state
  | .writeControl values => WriteControl s values
  | .writeExecution values => WriteExecution s values

/-- When a step may be taken on block `s`: a count is not negative, and values
are stored only through a writable portal of the side that alone is valid, one
value for each element of the portal (the premises of `Reachable`). -/
def Operation.Admissible (s : InternalStruct T) : Operation T → Prop
  | .allocate n => 0 ≤ n
  | .shrink n => 0 ≤ n
  | .prepareForOutput n _ => 0 ≤ n
  | .writeControl values =>
    s.ControlArrayValid = true ∧ s.ExecutionArrayValid = false ∧
      values.length = s.ControlArray.Array.length
  | .writeExecution values =>
    s.ControlArrayValid = false ∧ s.ExecutionArrayValid = true ∧
      (values.length : Int) = GetNumberOfValues s
  | _ => True

/-- The device requested by a step, when the step is a `Prepare*` call. -/
def Operation.device? : Operation T → Option DeviceAdapterId
  | .prepareForInput device => some device
  | .prepareForOutput _ device => some device
  | .prepareForInPlace device => some device
  | _ => none

/-- The device of the most recent `Prepare*` call of a program, whose steps are
listed in the order they are made; `none` when there is no such call. -/
def lastPrepareDevice : List (Operation T) → Option DeviceAdapterId
  | [] => none
  | op :: ops =>
    match lastPrepareDevice ops with
    | some d => some d
    | none => op.device?

/-- `Runs P ops s`: the program `ops`, started on a block made by one of the
two constructors, leaves the block `s`. -/
inductive Runs (P : Platform T) : List (Operation T) → InternalStruct T → Prop
  | default : Runs P [] InternalStruct.default
  | ofStorage (storage : StorageBasic T) : Runs P [] (InternalStruct.ofStorage storage)
  | step {ops : List (Operation T)} {s : InternalStruct T} (op : Operation T) :
      Runs P ops s → op.Admissible s → Runs P (ops ++ [op]) (op.apply P s)

/-- The block left by the steps `ops`, made in order on the block `s`. -/
def runProgram (P : Platform T) (s : InternalStruct T) (ops : List (Operation T)) :
    InternalStruct T :=
  ops.foldl (fun s op => op.apply P s) s

/-- A program on a default-constructed handle: `PrepareForOutput(5, 1)`, five
values written, `PrepareForInput(2)`, `Allocate(3)`. -/
def sampleProgram : List (Operation Nat) :=
  [.prepareForOutput 5 1, .writeExecution [9, 9, 9, 9, 9], .prepareForInput 2, .allocate 3]

/-- The free store holding the shared blocks. A
`std::shared_ptr<InternalStruct>` is embedded as the index of the block it
points to, so two pointers are equal exactly when they designate one block. -/
abbrev Heap (T : Type) := List (InternalStruct T)

/-- The front end `ArrayHandle<T, StorageTagBasic>`: its one data member is the
shared pointer `Internals`. -/
structure Handle where
  Internals : Nat
  deriving DecidableEq, Repr

/-- `ArrayHandle()`: `Internals(new InternalStruct)`. -/
def Handle.construct (heap : Heap T) : Handle × Heap T :=
  (⟨heap.length⟩, heap ++ [InternalStruct.default])

/-- `ArrayHandle(const Thisclass& src)`: `Internals(src.Internals)`. -/
def Handle.copyConstruct (src : Handle) : Handle :=
  ⟨src.Internals⟩

/-- `operator=(const Thisclass& src)`: `this->Internals = src.Internals`; the
value is `*this` after the assignment. -/
def Handle.assign (_this src : Handle) : Handle :=
  ⟨src.Internals⟩

/-- `operator==`: `this->Internals == rhs.Internals`. -/
def Handle.equals (this rhs : Handle) : Bool :=
  this.Internals == rhs.Internals

/-- `operator!=`: `this->Internals != rhs.Internals`. -/
def Handle.notEquals (this rhs : Handle) : Bool :=
  this.Internals != rhs.Internals

/-- A member function called on a handle: it works on the block
`*this->Internals`, which it may modify in place. -/
def Handle.call {α : Type} (heap : Heap T) (this : Handle)
    (f : InternalStruct T → Result (InternalStruct T) α) : Result (Heap T) α :=
  match heap[this.Internals]? with
  | none => .throw .NullDereference heap
  | some s =>
    match f s with
    | .ok a s' => .ok a (heap.set this.Internals s')
    | .throw e s' => .throw e (heap.set this.Internals s')

/-- `handle.Allocate(numberOfValues)`. -/
def Handle.Allocate (P : Platform T) (heap : Heap T) (this : Handle) (numberOfValues : Int) :
    Result (Heap T) Unit :=
  this.call heap (fun s => ArrayHandle.Allocate P s numberOfValues)

/-- `handle.GetNumberOfValues()`. -/
def Handle.GetNumberOfValues (heap : Heap T) (this : Handle) : Result (Heap T) Int :=
  this.call heap (fun s => .ok (ArrayHandle.GetNumberOfValues s) s)

/-- The test in `CopyInto` that selects the copy straight from the execution
array: `!ControlArrayValid && std::is_pointer<IteratorType>::value &&
ExecutionInterface && ExecutionInterface->GetDeviceId() == devId`. -/
def CopyIntoIsDirect (s : InternalStruct T) (isPointer : Bool) (devId : DeviceAdapterId) : Bool :=
  !s.ControlArrayValid && isPointer && s.ExecutionInterface.isSome &&
    decide (s.ExecutionInterface = some devId)

/-- A block whose control buffer is allocated but stale: `Allocate(5)` on a
default-constructed handle, then `PrepareForOutput(3, 1)`. -/
def sampleStaleControl : InternalStruct Nat :=
  (PrepareForOutput samplePlatform (Allocate samplePlatform InternalStruct.default 5).state
    3 1).state

/-- A raw pointer to 16-bit unsigned values, as a destination for an array of
32-bit unsigned values (the 4-byte elements of `samplePlatform`) on a
little-endian host: assigning an element converts it modulo `2^16`, and the
four copied bytes of an element are two 16-bit values, its low half and its
high half. -/
def sampleUInt16Pointer : Destination Nat (Fin 65536) :=
  { IsPointer := true
    Assign := fun v => ⟨v % 65536, Nat.mod_lt v (by decide)⟩
    Reinterpret := fun vs =>
      vs.flatMap fun v =>
        [⟨v % 65536, Nat.mod_lt v (by decide)⟩,
          ⟨v / 65536 % 65536, Nat.mod_lt (v / 65536) (by decide)⟩] }

/-- `ArrayHandle(const Thisclass&& src)`: `Internals(std::move(src.Internals))`. -/
def Handle.moveConstruct (src : Handle) : Handle :=
  ⟨src.Internals⟩

end ArrayHandle

namespace internal

/-- A C++ type as run-time type identification tells it apart from others: a
value type `T` or a storage tag `S`. -/
abbrev TypeTag := Nat

/-- Modelled from the spec: the storage descriptor `StorageVirtual` (its
definition is not among the sources), which carries "the storage descriptor's
own type tag". A descriptor is a `StorageAny<T, S>`, holding an
`ArrayHandle<T, S>`, or an object of another subclass. -/
inductive StorageVirtual where
  | StorageAny (VT ST : TypeTag) (handle : ArrayHandle.Handle)
  | Other (tag : TypeTag)
  deriving DecidableEq, Repr

/-- Modelled from the spec: `storage->IsType<StorageAny<VT, ST>>()`, "checked
via the storage descriptor's own type tag, not pointer identity". -/
def StorageVirtual.IsTypeStorageAny (storage : StorageVirtual) (VT ST : TypeTag) : Bool :=
  match storage with
  | .StorageAny vt st _ => vt == VT && st == ST
  | .Other _ => false

/-- `VariantArrayHandleContainer<T>`, seen through its base class: the value
type `T` of the container and the storage descriptor of its member `Array`,
which `GetStorage()` returns. -/
structure VariantArrayHandleContainer where
  ValueType : TypeTag
  Storage : StorageVirtual
  deriving DecidableEq, Repr

/-- `VariantArrayHandleContainer::GetStorage`. -/
def VariantArrayHandleContainer.GetStorage (container : VariantArrayHandleContainer) :
    StorageVirtual :=
  container.Storage

/-- The two arguments with which `throwFailedDynamicCast` is called, kept as
written: `vtkm::cont::TypeName(container)` and
`vtkm::cont::TypeName<ArrayHandle<T, S>>()` (`TypeName` is not among the
sources, so the strings themselves are not modelled). -/
inductive TypeName where
  | ofContainer (container : Option VariantArrayHandleContainer)
  | ofArrayHandle (VT ST : TypeTag)
  deriving DecidableEq, Repr

/-- Ways in which `Caster` fails to return. -/
inductive CastError where
  /-- The error thrown by `throwFailedDynamicCast(baseType, derivedType)`. -/
  | FailedDynamicCast (baseType derivedType : TypeName)
  /-- A `static_cast` of the storage descriptor to a class it is not. -/
  | InvalidStaticCast
  deriving DecidableEq, Repr

namespace variant

/-- `variant::IsType<ArrayHandle<VT, ST>>(container)`; the container pointer
may be null. -/
def IsType (VT ST : TypeTag) (container : Option VariantArrayHandleContainer) : Bool :=
  match container with
  | none => false
  | some c => c.GetStorage.IsTypeStorageAny VT ST

/-- `variant::Caster<T, S>::operator()` for a storage tag `S` other than
`StorageTagVirtual`. -/
def Caster (T S : TypeTag) (container : Option VariantArrayHandleContainer) :
    Except CastError ArrayHandle.Handle :=
  if !IsType T S container then
    .error (.FailedDynamicCast (.ofContainer container) (.ofArrayHandle T S))
  else
    match container with
    | none => .error .InvalidStaticCast
    | some c =>
      match c.GetStorage with
      | .StorageAny _ _ handle => .ok (ArrayHandle.Handle.copyConstruct handle)
      | .Other _ => .error .InvalidStaticCast

/-- `variant::Cast<ArrayHandle<T, S>>(container)`:
`ArrayHandleType(std::move(ret))` of what the caster returns. -/
def Cast (T S : TypeTag) (container : Option VariantArrayHandleContainer) :
    Except CastError ArrayHandle.Handle :=
  match Caster T S container with
  | .error e => .error e
  | .ok ret => .ok (ArrayHandle.Handle.moveConstruct ret)

end variant

/-- The value type tags used in the examples: `vtkm::Float32` and `vtkm::Int32`,
and the storage tag `StorageTagBasic`. -/
def sampleFloat32 : TypeTag := 1

/-- See `sampleFloat32`. -/
def sampleInt32 : TypeTag := 2

/-- See `sampleFloat32`. -/
def sampleStorageTagBasic : TypeTag := 10

/-- A container wrapping an `ArrayHandle<vtkm::Float32, StorageTagBasic>` whose
shared pointer is block 0. -/
def sampleFloatContainer : VariantArrayHandleContainer :=
  { ValueType := sampleFloat32
    Storage := .StorageAny sampleFloat32 sampleStorageTagBasic ⟨0⟩ }

end internal

end cont

namespace worklet
namespace zfp

/-- `vtkm::Id3`: three `vtkm::Id` components, `[0]`, `[1]` and `[2]`. -/
structure Id3 where
  c0 : Int
  c1 : Int
  c2 : Int
  deriving DecidableEq, Repr

/-- The variables the scatter loops update: the calls `scalars.Set(index,
value)` made so far, in order, the running `offset`, and the pointer `q` as
its distance, in elements, from the start of the block. -/
structure ScatterState (Scalar : Type) where
  Sets : List (Int × Scalar)
  offset : Int
  q : Int

/-- `ScatterPartial3(q, scalars, dims, offset, nx, ny, nz)`: the calls
`scalars.Set(index, value)` it makes, in order. `fblock i` is the scalar `q[i]`
at the pointer passed in. A loop `for (x = 0; x < nx; x++)` runs `nx` times,
none when `nx ≤ 0`. -/
def ScatterPartial3 {Scalar : Type} (fblock : Int → Scalar) (dims : Id3) (offset : Int)
    (nx ny nz : Int) : List (Int × Scalar) :=
  let forX := fun (st : ScatterState Scalar) =>
    (List.range nx.toNat).foldl
      (fun st _ =>
        { Sets := st.Sets ++ [(st.offset, fblock st.q)]
          offset := st.offset + 1
          q := st.q + 1 })
      st
  let forY := fun (st : ScatterState Scalar) =>
    (List.range ny.toNat).foldl
      (fun st _ =>
        let st := forX st
        { st with offset := st.offset + (dims.c0 - nx), q := st.q + (4 - nx) })
      st
  let forZ := fun (st : ScatterState Scalar) =>
    (List.range nz.toNat).foldl
      (fun st _ =>
        let st := forY st
        { st with
          offset := st.offset + (dims.c0 * dims.c1 - ny * dims.c0)
          q := st.q + 4 * (4 - ny) })
      st
  (forZ { Sets := [], offset := offset, q := 0 }).Sets

/-- `Scatter3(q, scalars, dims, offset)`: the calls `scalars.Set(index,
value)` it makes, in order. -/
def Scatter3 {Scalar : Type} (fblock : Int → Scalar) (dims : Id3) (offset : Int) :
    List (Int × Scalar) :=
  let forX := fun (st : ScatterState Scalar) =>
    (List.range 4).foldl
      (fun st _ =>
        { Sets := st.Sets ++ [(st.offset, fblock st.q)]
          offset := st.offset + 1
          q := st.q + 1 })
      st
  let forY := fun (st : ScatterState Scalar) =>
    (List.range 4).foldl
      (fun st _ =>
        let st := forX st
        { st with offset := st.offset + (dims.c0 - 4) })
      st
  let forZ := fun (st : ScatterState Scalar) =>
    (List.range 4).foldl
      (fun st _ =>
        let st := forY st
        { st with offset := st.offset + (dims.c0 * dims.c1 - 4 * dims.c0) })
      st
  (forZ { Sets := [], offset := offset, q := 0 }).Sets

/-- The scatter as the claims describe it: for `z < nz`, `y < ny`, `x < nx`, in
that nesting, one call
`Set(offset + x + dims[0]*y + dims[0]*dims[1]*z, q[x + 4*y + 16*z])`. -/
def ScatterSpec {Scalar : Type} (fblock : Int → Scalar) (dims : Id3) (offset : Int)
    (nx ny nz : Nat) : List (Int × Scalar) :=
  (List.range nz).flatMap fun (z : Nat) =>
    (List.range ny).flatMap fun (y : Nat) =>
      (List.range nx).map fun (x : Nat) =>
        (offset + (x : Int) + dims.c0 * (y : Int) + dims.c0 * dims.c1 * (z : Int),
          fblock ((x : Int) + 4 * (y : Int) + 16 * (z : Int)))

/-- The worklet `Decode3`: its data members. -/
structure Decode3 where
  Dims : Id3
  PaddedDims : Id3
  ZFPDims : Id3
  MaxBits : Nat
  deriving DecidableEq, Repr

/-- The constructor `Decode3(dims, paddedDims, maxbits)`. Division of `vtkm::Id`
values truncates, as in C++. -/
def Decode3.new (dims paddedDims : Id3) (maxbits : Nat) : Decode3 :=
  { Dims := dims
    PaddedDims := paddedDims
    MaxBits := maxbits
    ZFPDims := ⟨paddedDims.c0.tdiv 4, paddedDims.c1.tdiv 4, paddedDims.c2.tdiv 4⟩ }

/-- `Decode3::operator()(blockIdx, scalars, stream)`: the calls
`scalars.Set(index, value)` it makes, in order. `zfp_decode` is not among the
sources and is a parameter: `zfp_decode maxbits b i` is `fblock[i]` after the
call `zfp_decode<64>(fblock, maxbits, b, stream)`, where `b` is the block index
converted to `vtkm::UInt32`. `/` and `%` on `vtkm::Id` truncate, as in C++;
the products and the conversions to `vtkm::Int32` are taken without
wrapping. -/
def Decode3.call {Scalar : Type} (this : Decode3) (zfp_decode : Nat → Nat → Int → Scalar)
    (blockIdx : Int) : List (Int × Scalar) :=
  let fblock := zfp_decode this.MaxBits (blockIdx % 4294967296).toNat
  let zfpBlock : Id3 :=
    ⟨blockIdx.tmod this.ZFPDims.c0,
      (blockIdx.tdiv this.ZFPDims.c0).tmod this.ZFPDims.c1,
      blockIdx.tdiv (this.ZFPDims.c0 * this.ZFPDims.c1)⟩
  let logicalStart : Id3 := ⟨zfpBlock.c0 * 4, zfpBlock.c1 * 4, zfpBlock.c2 * 4⟩
  let offset : Int :=
    (logicalStart.c2 * this.Dims.c1 + logicalStart.c1) * this.Dims.c0 + logicalStart.c0
  let partialBlock : Bool :=
    decide (logicalStart.c0 + 4 > this.Dims.c0) || decide (logicalStart.c1 + 4 > this.Dims.c1) ||
      decide (logicalStart.c2 + 4 > this.Dims.c2)
  if partialBlock then
    let nx : Int :=
      if logicalStart.c0 + 4 > this.Dims.c0 then this.Dims.c0 - logicalStart.c0 else 4
    let ny : Int :=
      if logicalStart.c1 + 4 > this.Dims.c1 then this.Dims.c1 - logicalStart.c1 else 4
    let nz : Int :=
      if logicalStart.c2 + 4 > this.Dims.c2 then this.Dims.c2 - logicalStart.c2 else 4
    ScatterPartial3 fblock this.Dims offset nx ny nz
  else
    Scatter3 fblock this.Dims offset

/-- The calls `Set` made by running the worklet once for every block index
in `[0, ZFPDims[0] * ZFPDims[1] * ZFPDims[2])`, block after block. -/
def Decode3.run {Scalar : Type} (this : Decode3) (zfp_decode : Nat → Nat → Int → Scalar) :
    List (Int × Scalar) :=
  (List.range (this.ZFPDims.c0 * this.ZFPDims.c1 * this.ZFPDims.c2).toNat).flatMap
    fun b => this.call zfp_decode b

/-- The flat index `(z * Dims[1] + y) * Dims[0] + x` of the field position
`(x, y, z)`. -/
def flatIndex (d0 d1 x y z : Nat) : Nat :=
  (z * d1 + y) * d0 + x

/-- The partition as the claim describes it, for a field of `d0` by `d1` by
`d2` values: the flat indices of the positions `(4*b0 + i, 4*b1 + j, 4*b2 + k)`
of block `(b0, b1, b2)` that lie in the field, `i, j, k < 4`, listed with `i`
running fastest. -/
def blockIndices (d0 d1 d2 b0 b1 b2 : Nat) : List Nat :=
  (List.range (min 4 (d2 - 4 * b2))).flatMap fun k =>
    (List.range (min 4 (d1 - 4 * b1))).flatMap fun j =>
      (List.range (min 4 (d0 - 4 * b0))).map fun i =>
        flatIndex d0 d1 (4 * b0 + i) (4 * b1 + j) (4 * b2 + k)

/-- The indices of `blockIndices` for the blocks `b` from 0 to the number of
blocks, block `b` being `(b mod z0, (b / z0) mod z1, b / (z0 * z1))` where
`zi` is the number of blocks along axis `i`. -/
def runIndices (d0 d1 d2 : Nat) : List Nat :=
  (List.range (((d0 + 3) / 4) * ((d1 + 3) / 4) * ((d2 + 3) / 4))).flatMap fun b =>
    blockIndices d0 d1 d2 (b % ((d0 + 3) / 4)) (b / ((d0 + 3) / 4) % ((d1 + 3) / 4))
      (b / (((d0 + 3) / 4) * ((d1 + 3) / 4)))

/-- A field of 5 by 3 by 2 values, padded to 8 by 4 by 4. -/
def sampleDecode3 : Decode3 :=
  Decode3.new ⟨5, 3, 2⟩ ⟨8, 4, 4⟩ 16

/-- A decoder for the examples: element `i` of block `b` is `1000 * b + i`. -/
def sampleDecode (_maxbits b : Nat) (i : Int) : Int :=
  1000 * b + i

end zfp
end worklet

namespace filter

/-- Modelled from the spec: the call `inputPortal.Get(index)` on a read-only
portal over the value sequence `portal` ("Portal: an index-addressable
accessor (get/set, length)"); `none` is a read outside `[0, length)`. -/
def ArrayPortalGet {T : Type} (portal : List T) (index : Int) : Option T :=
  if 0 ≤ index then portal[index.toNat]? else none

/-- Modelled from the spec: `inputPortal.GetNumberOfValues()`. -/
def ArrayPortalGetNumberOfValues {T : Type} (portal : List T) : Int :=
  (portal.length : Int)

/-- `MapPermutationWorklet<T>`: its one member. -/
structure MapPermutationWorklet (T : Type) where
  InvalidValue : T

/-- `MapPermutationWorklet<T>::operator()`; the value is what is stored in
`output`, and `none` stands for a read of the input portal out of range. -/
def MapPermutationWorklet.call {T : Type} (this : MapPermutationWorklet T)
    (permutationIndex : Int) (inputPortal : List T) : Option T :=
  if decide (permutationIndex ≥ 0) &&
      decide (permutationIndex < ArrayPortalGetNumberOfValues inputPortal) then
    ArrayPortalGet inputPortal permutationIndex
  else
    some this.InvalidValue

end filter

namespace cont
namespace ArrayHandle

open ExecutionArrayInterfaceBasic

variable {T : Type}

/-! ## Helper lemmas: adapter arithmetic, the effect of each call, the invariant -/

theorem sampleExecutionOnly_reachable : Reachable samplePlatform sampleExecutionOnly :=
  Reachable.writeExecution [9, 9, 9, 9, 9]
    (Reachable.prepareForOutput 5 1 Reachable.default (by decide)) rfl rfl (by decide)

theorem sizeof_mul_ediv (P : Platform T) (n : Int) :
    P.SizeofValueType * n / P.SizeofValueType = n :=
  Int.mul_ediv_cancel_left n (ne_of_gt P.sizeof_pos)

theorem CopyBytes_sizeof_mul (P : Platform T) (src dst : List T) (n : Int) :
    CopyBytes P src dst (P.SizeofValueType * n) = src.take n.toNat ++ dst.drop n.toNat := by
  simp [CopyBytes, sizeof_mul_ediv]

theorem wrapId_of_fits (x : Int) (hlo : -9223372036854775808 ≤ x)
    (hhi : x < 9223372036854775808) : wrapId x = x := by
  unfold wrapId
  omega

/-- A count whose byte count fits `vtkm::Id` is the length `PrepareForOutput`
asks for. -/
theorem PrepareForOutputLength_of_fits (P : Platform T) (n : Int) (hn : 0 ≤ n)
    (hfit : P.SizeofValueType * n < 9223372036854775808) :
    PrepareForOutputLength P n = n.toNat := by
  have h0 : 0 ≤ P.SizeofValueType * n := Int.mul_nonneg (le_of_lt P.sizeof_pos) hn
  unfold PrepareForOutputLength
  rw [wrapId_of_fits _ (by omega) hfit, sizeof_mul_ediv]

theorem Allocate_eq (P : Platform T) (s : InternalStruct T) (numBytes : Int) :
    ExecutionArrayInterfaceBasic.Allocate P s numBytes =
      { s with
        ExecutionArray := P.DeviceBase
        ExecutionArrayEnd := P.DeviceBase + (numBytes / P.SizeofValueType).toNat
        ExecutionArrayCapacity := P.DeviceBase + (numBytes / P.SizeofValueType).toNat
        DeviceMemory :=
          (List.range (numBytes / P.SizeofValueType).toNat).map P.DeviceGarbage } := by
  simp [ExecutionArrayInterfaceBasic.Allocate]

theorem pointer_diff_toNat (e b : Nat) : ((e : Int) - (b : Int)).toNat = e - b := by
  omega

theorem SyncControlArray_eq (P : Platform T) (s : InternalStruct T)
    (h : s.ExecutionArrayValid = true → s.ExecutionInterface.isSome = true) :
    SyncControlArray P s =
      .ok () { s with ControlArray := ⟨LogicalContents s⟩, ControlArrayValid := true } := by
  obtain ⟨ca, cv, ei, ev, b, e, c, dm⟩ := s
  cases cv <;> cases ev <;> cases ei <;>
    simp_all [SyncControlArray, LogicalContents, ExecutionValues, StorageBasic.Allocate,
      CopyBytes_sizeof_mul, pointer_diff_toNat]

theorem PrepareForDevice_same (P : Platform T) (s : InternalStruct T) (d : DeviceAdapterId)
    (h : s.ExecutionInterface = some d) : PrepareForDevice P s d = .ok () s := by
  simp [PrepareForDevice, h]

theorem PrepareForDevice_none (P : Platform T) (s : InternalStruct T) (d : DeviceAdapterId)
    (h : s.ExecutionInterface = none) (hev : s.ExecutionArrayValid = false) :
    PrepareForDevice P s d = .ok () { s with ExecutionInterface := some d } := by
  simp [PrepareForDevice, AttachInterface, h, hev]

theorem PrepareForDevice_other (P : Platform T) (s : InternalStruct T) (c d : DeviceAdapterId)
    (h : s.ExecutionInterface = some c) (hne : c ≠ d) :
    PrepareForDevice P s d = .ok ()
      { Free { s with ControlArray := ⟨LogicalContents s⟩, ControlArrayValid := true } with
        ExecutionInterface := some d, ExecutionArrayValid := false } := by
  have hs := SyncControlArray_eq P s (by simp [h])
  simp [PrepareForDevice, AttachInterface, h, hne, hs, Free]

theorem UploadControlArray_eq (P : Platform T) (s : InternalStruct T) (d : DeviceAdapterId)
    (h : s.ExecutionInterface = some d) (hev : s.ExecutionArrayValid = false) :
    UploadControlArray P s = .ok ()
      { s with
        ControlArray := ⟨LogicalContents s⟩
        ControlArrayValid := true
        ExecutionArrayValid := true
        ExecutionArray := P.DeviceBase
        ExecutionArrayEnd := P.DeviceBase + (LogicalContents s).length
        ExecutionArrayCapacity := P.DeviceBase + (LogicalContents s).length
        DeviceMemory := LogicalContents s } := by
  obtain ⟨ca, cv, ei, ev, b, e, c, dm⟩ := s
  cases cv <;>
    simp_all [UploadControlArray, GetStorage, SyncControlArray, LogicalContents, StorageBasic.Allocate,
      CopyBytes, ExecutionArrayInterfaceBasic.Allocate, sizeof_mul_ediv,
      StorageBasic.GetNumberOfValues]


theorem Invariant_default : Invariant (InternalStruct.default : InternalStruct T) := by
  constructor <;> simp [InternalStruct.default]

theorem Invariant_ofStorage (storage : StorageBasic T) :
    Invariant (InternalStruct.ofStorage storage) := by
  constructor <;> simp [InternalStruct.ofStorage]

theorem Invariant_SyncControlArray (P : Platform T) (s : InternalStruct T) (h : Invariant s) :
    Invariant (SyncControlArray P s).state := by
  rw [SyncControlArray_eq P s h.adapter]
  obtain ⟨h1, h2, h3⟩ := h
  obtain ⟨ca, cv, ei, ev, b, e, c, dm⟩ := s
  constructor <;> cases cv <;> cases ev <;>
    simp_all [Result.state, LogicalContents, ExecutionValues]

theorem ReleaseResourcesExecutionInternal_eq (s : InternalStruct T)
    (h : s.ExecutionArrayValid = true → s.ExecutionInterface.isSome = true) :
    ReleaseResourcesExecutionInternal s =
      .ok () (if s.ExecutionArrayValid then { Free s with ExecutionArrayValid := false } else s) := by
  obtain ⟨ca, cv, ei, ev, b, e, c, dm⟩ := s
  cases ev <;> cases ei <;> simp_all [ReleaseResourcesExecutionInternal]

theorem Invariant_ReleaseResourcesExecutionInternal (s : InternalStruct T) (h : Invariant s) :
    Invariant (ReleaseResourcesExecutionInternal s).state := by
  rw [ReleaseResourcesExecutionInternal_eq s h.adapter]
  obtain ⟨h1, h2, h3⟩ := h
  obtain ⟨ca, cv, ei, ev, b, e, c, dm⟩ := s
  constructor <;> cases cv <;> cases ev <;>
    simp_all [Result.state, Free]

theorem Invariant_PrepareForDevice (P : Platform T) (s : InternalStruct T) (d : DeviceAdapterId)
    (h : Invariant s) : Invariant (PrepareForDevice P s d).state := by
  rcases hi : s.ExecutionInterface with _ | c
  · have hev : s.ExecutionArrayValid = false := by
      have := h.adapter
      cases hv : s.ExecutionArrayValid <;> simp_all
    rw [PrepareForDevice_none P s d hi hev]
    obtain ⟨h1, h2, h3⟩ := h
    constructor <;> simp_all [Result.state]
  · by_cases hc : c = d
    · subst hc
      rw [PrepareForDevice_same P s c hi]
      exact h
    · rw [PrepareForDevice_other P s c d hi hc]
      constructor <;> simp [Result.state, Free]


theorem GetStorage_eq (P : Platform T) (s : InternalStruct T)
    (h : s.ExecutionArrayValid = true → s.ExecutionInterface.isSome = true) :
    GetStorage P s = .ok ⟨LogicalContents s⟩
      { s with ControlArray := ⟨LogicalContents s⟩, ControlArrayValid := true } := by
  simp [GetStorage, SyncControlArray_eq P s h]

theorem GetPortalConstControl_eq (P : Platform T) (s : InternalStruct T)
    (h : s.ExecutionArrayValid = true → s.ExecutionInterface.isSome = true) :
    GetPortalConstControl P s = .ok (LogicalContents s)
      { s with ControlArray := ⟨LogicalContents s⟩, ControlArrayValid := true } := by
  simp [GetPortalConstControl, SyncControlArray_eq P s h]

theorem GetPortalControl_state (P : Platform T) (s : InternalStruct T)
    (h : s.ExecutionArrayValid = true → s.ExecutionInterface.isSome = true) :
    (GetPortalControl P s).state =
      (ReleaseResourcesExecutionInternal (SyncControlArray P s).state).state := by
  rw [SyncControlArray_eq P s h]
  simp only [GetPortalControl, SyncControlArray_eq P s h, Result.state]
  simp only [if_true]
  cases ReleaseResourcesExecutionInternal
    { s with ControlArray := ⟨LogicalContents s⟩, ControlArrayValid := true } <;> rfl

theorem Invariant_GetStorage (P : Platform T) (s : InternalStruct T) (h : Invariant s) :
    Invariant (GetStorage P s).state := by
  have h1 := Invariant_SyncControlArray P s h
  rw [SyncControlArray_eq P s h.adapter] at h1
  rw [GetStorage_eq P s h.adapter]
  exact h1

theorem Invariant_GetPortalConstControl (P : Platform T) (s : InternalStruct T)
    (h : Invariant s) : Invariant (GetPortalConstControl P s).state := by
  have h1 := Invariant_SyncControlArray P s h
  rw [SyncControlArray_eq P s h.adapter] at h1
  rw [GetPortalConstControl_eq P s h.adapter]
  exact h1

theorem Invariant_GetPortalControl (P : Platform T) (s : InternalStruct T)
    (h : Invariant s) : Invariant (GetPortalControl P s).state := by
  rw [GetPortalControl_state P s h.adapter]
  exact Invariant_ReleaseResourcesExecutionInternal _ (Invariant_SyncControlArray P s h)

theorem Invariant_ReleaseResourcesExecution (P : Platform T) (s : InternalStruct T)
    (h : Invariant s) : Invariant (ReleaseResourcesExecution P s).state := by
  have h1 := Invariant_SyncControlArray P s h
  rw [SyncControlArray_eq P s h.adapter] at h1
  simp only [ReleaseResourcesExecution, SyncControlArray_eq P s h.adapter]
  exact Invariant_ReleaseResourcesExecutionInternal _ h1

theorem Invariant_CopyInto {U : Type} (P : Platform T) (s : InternalStruct T)
    (dest : Destination T U) (d : DeviceAdapterId) (h : Invariant s) :
    Invariant (CopyInto P s dest d).state := by
  have h1 := Invariant_GetPortalConstControl P s h
  rw [GetPortalConstControl_eq P s h.adapter] at h1
  unfold CopyInto
  rw [GetPortalConstControl_eq P s h.adapter]
  split
  · exact h
  · split
    · exact h
    · exact h1

theorem Invariant_Allocate (P : Platform T) (s : InternalStruct T) (n : Int) (h : Invariant s) :
    Invariant (Allocate P s n).state := by
  simp only [Allocate, ReleaseResourcesExecutionInternal_eq s h.adapter]
  obtain ⟨ca, cv, ei, ev, b, e, c, dm⟩ := s
  constructor <;> cases ev <;> simp [Result.state, Free]

theorem Invariant_ReleaseResources (s : InternalStruct T) (h : Invariant s) :
    Invariant (ReleaseResources s).state := by
  have h1 := Invariant_ReleaseResourcesExecutionInternal s h
  simp only [ReleaseResources]
  rw [ReleaseResourcesExecutionInternal_eq s h.adapter] at h1 ⊢
  obtain ⟨a, b, c⟩ := h1
  obtain ⟨ca, cv, ei, ev, b, e, c, dm⟩ := s
  constructor <;> cases cv <;> cases ev <;> simp_all [Result.state, Free]

theorem Shrink_state_of_pos (P : Platform T) (s : InternalStruct T) (n : Int) (hn : 0 < n) :
    (Shrink P s n).state = (ShrinkPositive s n).state := by
  unfold Shrink
  rw [if_neg (not_lt.mpr (le_of_lt hn)), if_pos hn]
  cases ShrinkPositive s n with
  | throw e s1 => rfl
  | ok v s1 =>
    by_cases hg : GetNumberOfValues s1 = n <;> simp [Result.state, hg]

theorem Invariant_ShrinkPositive (s : InternalStruct T) (n : Int) (hn : 0 < n)
    (h : Invariant s) : Invariant (ShrinkPositive s n).state := by
  unfold ShrinkPositive
  simp only
  split
  · rename_i hlt
    obtain ⟨h1, h2, h3⟩ := h
    obtain ⟨ca, cv, ei, ev, b, e, c, dm⟩ := s
    cases cv <;> cases ev <;>
      simp_all [GetNumberOfValues, StorageBasic.GetNumberOfValues] <;>
      constructor <;>
      simp_all [StorageBasic.Shrink, Result.state, ExecutionValues, List.take_take] <;>
      omega
  · split
    · exact h
    · exact h

theorem Invariant_Shrink (P : Platform T) (s : InternalStruct T) (n : Int) (h : Invariant s) :
    Invariant (Shrink P s n).state := by
  rcases lt_trichotomy n 0 with hn | hn | hn
  · simp only [Shrink, if_pos hn]
    exact h
  · subst hn
    simp only [Shrink, lt_irrefl, if_false, gt_iff_lt]
    exact Invariant_Allocate P s 0 h
  · rw [Shrink_state_of_pos P s n hn]
    exact Invariant_ShrinkPositive s n hn h

theorem Invariant_of_execution_invalid (s : InternalStruct T)
    (h : s.ExecutionArrayValid = false) : Invariant s := by
  constructor <;> simp [h]

theorem GetNumberOfValues_eq_length (s : InternalStruct T) (h : Invariant s) :
    GetNumberOfValues s = ((LogicalContents s).length : Int) := by
  obtain ⟨h1, h2, h3⟩ := h
  obtain ⟨ca, cv, ei, ev, b, e, c, dm⟩ := s
  cases cv <;> cases ev <;>
    simp_all [GetNumberOfValues, LogicalContents, ExecutionValues,
      StorageBasic.GetNumberOfValues]

theorem ExecutionValues_length (s : InternalStruct T) (h : Invariant s)
    (hev : s.ExecutionArrayValid = true) :
    (ExecutionValues s).length = s.ExecutionArrayEnd - s.ExecutionArray := by
  have hb := (h.bounds hev).2
  simp [ExecutionValues, hb]

/-- The device transition under the invariant: it returns, the adapter is the
requested one, the logical contents are kept, nothing changes when the device
is the same, and the execution array is invalid after a real switch. -/
theorem PrepareForDevice_spec (P : Platform T) (s : InternalStruct T) (d : DeviceAdapterId)
    (h : Invariant s) :
    ∃ s1, PrepareForDevice P s d = .ok () s1 ∧ s1.ExecutionInterface = some d ∧
      Invariant s1 ∧ LogicalContents s1 = LogicalContents s ∧
      (s.ExecutionInterface = some d → s1 = s) ∧
      (s.ExecutionInterface ≠ some d → s1.ExecutionArrayValid = false) := by
  have hinv := Invariant_PrepareForDevice P s d h
  rcases hi : s.ExecutionInterface with _ | c
  · have hev : s.ExecutionArrayValid = false := by
      have := h.adapter
      cases hv : s.ExecutionArrayValid <;> simp_all
    rw [PrepareForDevice_none P s d hi hev] at hinv ⊢
    refine ⟨_, rfl, rfl, hinv, ?_, ?_, ?_⟩
    · simp [LogicalContents, ExecutionValues]
    · intro hc; cases hc
    · intro _; exact hev
  · by_cases hc : c = d
    · subst hc
      rw [PrepareForDevice_same P s c hi]
      exact ⟨s, rfl, hi, h, rfl, fun _ => rfl, fun hne => absurd rfl hne⟩
    · rw [PrepareForDevice_other P s c d hi hc] at hinv ⊢
      refine ⟨_, rfl, rfl, hinv, ?_, ?_, ?_⟩
      · simp [LogicalContents, Free]
      · intro hcd
        exact absurd (Option.some.inj hcd) hc
      · intro _; rfl

/-- `PrepareForInput` under the invariant. -/
theorem PrepareForInput_spec (P : Platform T) (s : InternalStruct T) (d : DeviceAdapterId)
    (h : Invariant s) :
    ∃ portal s', PrepareForInput P s d = .ok portal s' ∧
      portal = ⟨s'.ExecutionArray, s'.ExecutionArrayEnd⟩ ∧
      s'.ExecutionArrayValid = true ∧ s'.ExecutionInterface = some d ∧
      ExecutionValues s' = LogicalContents s ∧ LogicalContents s' = LogicalContents s ∧
      Invariant s' ∧
      ((s.ExecutionArrayValid = true ∧ s.ExecutionInterface = some d) → s' = s) ∧
      (¬(s.ExecutionArrayValid = true ∧ s.ExecutionInterface = some d) →
        s'.ControlArrayValid = true ∧ s'.ControlArray.Array = LogicalContents s) := by
  obtain ⟨s1, hd, hi1, hinv1, hl1, hsame, hother⟩ := PrepareForDevice_spec P s d h
  simp only [PrepareForInput, hd]
  cases hev1 : s1.ExecutionArrayValid
  · -- the execution array is made from the control array
    rw [UploadControlArray_eq P s1 d hi1 hev1]
    refine ⟨_, _, rfl, rfl, rfl, hi1, ?_, ?_, ?_, ?_, ?_⟩
    · simp [ExecutionValues, hl1]
    · rw [← hl1]
      simp [LogicalContents]
    · constructor <;> simp [ExecutionValues, hi1]
    · rintro ⟨hev, hi⟩
      rw [hsame hi] at hev1
      rw [hev] at hev1
      cases hev1
    · intro _
      exact ⟨rfl, by simp [hl1]⟩
  · -- the execution array is already valid: nothing is copied
    have hi : s.ExecutionInterface = some d := by
      by_contra hne
      rw [hother hne] at hev1
      cases hev1
    have hs : s1 = s := hsame hi
    subst hs
    refine ⟨_, _, rfl, rfl, hev1, hi1, ?_, rfl, hinv1, fun _ => rfl, ?_⟩
    · obtain ⟨h1, h2, h3⟩ := h
      cases hcv : s1.ControlArrayValid
      · simp [LogicalContents, hcv, hev1]
      · simp [LogicalContents, hcv, h3 hcv hev1]
    · intro hn
      exact absurd ⟨hev1, hi⟩ hn

/-- `PrepareForOutput` under the invariant. -/
theorem PrepareForOutput_spec (P : Platform T) (s : InternalStruct T) (n : Int)
    (d : DeviceAdapterId) (h : Invariant s) :
    ∃ portal s', PrepareForOutput P s n d = .ok portal s' ∧
      portal = ⟨s'.ExecutionArray, s'.ExecutionArrayEnd⟩ ∧
      s'.ControlArrayValid = false ∧ s'.ExecutionArrayValid = true ∧
      s'.ExecutionInterface = some d ∧
      s'.ExecutionArray = P.DeviceBase ∧
      s'.ExecutionArrayEnd = P.DeviceBase + PrepareForOutputLength P n ∧
      s'.DeviceMemory = (List.range (PrepareForOutputLength P n)).map P.DeviceGarbage ∧
      Invariant s' := by
  obtain ⟨s1, hd, hi1, -, -, -, -⟩ := PrepareForDevice_spec P s d h
  simp only [PrepareForOutput, hd, hi1, Allocate_eq, PrepareForOutputLength]
  refine ⟨_, _, rfl, rfl, rfl, rfl, rfl, rfl, rfl, rfl, ?_⟩
  constructor <;> simp

/-- `PrepareForInPlace` under the invariant. -/
theorem PrepareForInPlace_spec (P : Platform T) (s : InternalStruct T) (d : DeviceAdapterId)
    (h : Invariant s) :
    ∃ portal s', PrepareForInPlace P s d = .ok portal s' ∧
      portal = ⟨s'.ExecutionArray, s'.ExecutionArrayEnd⟩ ∧
      s'.ControlArrayValid = false ∧ s'.ExecutionArrayValid = true ∧
      s'.ExecutionInterface = some d ∧
      ExecutionValues s' = LogicalContents s ∧ Invariant s' := by
  obtain ⟨s1, hd, hi1, hinv1, hl1, hsame, hother⟩ := PrepareForDevice_spec P s d h
  simp only [PrepareForInPlace, hd]
  cases hev1 : s1.ExecutionArrayValid
  · simp only [Bool.not_false, if_true]
    rw [UploadControlArray_eq P s1 d hi1 hev1]
    refine ⟨_, _, rfl, rfl, rfl, rfl, hi1, ?_, ?_⟩
    · simp [ExecutionValues, hl1]
    · constructor <;> simp [hi1]
  · have hi : s.ExecutionInterface = some d := by
      by_contra hne
      rw [hother hne] at hev1
      cases hev1
    have hs : s1 = s := hsame hi
    subst hs
    simp only [Bool.not_true, Bool.false_eq_true, if_false]
    refine ⟨_, _, rfl, rfl, rfl, hev1, hi1, ?_, ?_⟩
    · obtain ⟨h1, h2, h3⟩ := h
      cases hcv : s1.ControlArrayValid
      · simp [LogicalContents, ExecutionValues, hcv, hev1]
      · rw [show LogicalContents s1 = s1.ControlArray.Array by simp [LogicalContents, hcv]]
        rw [h3 hcv hev1]
        rfl
    · obtain ⟨h1, h2, h3⟩ := hinv1
      constructor
      · exact h1
      · exact h2
      · intro hc; cases hc

theorem Invariant_PrepareForInput (P : Platform T) (s : InternalStruct T) (d : DeviceAdapterId)
    (h : Invariant s) : Invariant (PrepareForInput P s d).state := by
  obtain ⟨portal, s', he, -, -, -, -, -, hinv, -⟩ := PrepareForInput_spec P s d h
  rw [he]
  exact hinv

theorem Invariant_PrepareForOutput (P : Platform T) (s : InternalStruct T) (n : Int)
    (d : DeviceAdapterId) (h : Invariant s) : Invariant (PrepareForOutput P s n d).state := by
  obtain ⟨portal, s', he, -, -, -, -, -, -, -, hinv⟩ := PrepareForOutput_spec P s n d h
  rw [he]
  exact hinv

theorem Invariant_PrepareForInPlace (P : Platform T) (s : InternalStruct T)
    (d : DeviceAdapterId) (h : Invariant s) : Invariant (PrepareForInPlace P s d).state := by
  obtain ⟨portal, s', he, -, -, -, -, -, hinv⟩ := PrepareForInPlace_spec P s d h
  rw [he]
  exact hinv

theorem Invariant_WriteControl (s : InternalStruct T) (values : List T)
    (hev : s.ExecutionArrayValid = false) : Invariant (WriteControl s values) := by
  apply Invariant_of_execution_invalid
  exact hev

theorem Invariant_WriteExecution (s : InternalStruct T) (values : List T) (h : Invariant s)
    (hcv : s.ControlArrayValid = false)
    (hlen : (values.length : Int) = GetNumberOfValues s) :
    Invariant (WriteExecution s values) := by
  obtain ⟨h1, h2, h3⟩ := h
  obtain ⟨ca, cv, ei, ev, b, e, c, dm⟩ := s
  cases ev <;> simp_all [GetNumberOfValues]
  · apply Invariant_of_execution_invalid
    rfl
  · constructor <;> simp_all [WriteExecution]
    omega

/-- Every block a program can produce satisfies the invariant. -/
theorem Reachable.invariant {P : Platform T} {s : InternalStruct T} (h : Reachable P s) :
    Invariant s := by
  induction h with
  | default => exact Invariant_default
  | ofStorage storage => exact Invariant_ofStorage storage
  | getStorage _ ih => exact Invariant_GetStorage P _ ih
  | getPortalControl _ ih => exact Invariant_GetPortalControl P _ ih
  | getPortalConstControl _ ih => exact Invariant_GetPortalConstControl P _ ih
  | copyInto dest devId _ ih => exact Invariant_CopyInto P _ dest devId ih
  | allocate n _ _ ih => exact Invariant_Allocate P _ n ih
  | shrink n _ _ ih => exact Invariant_Shrink P _ n ih
  | releaseResourcesExecution _ ih => exact Invariant_ReleaseResourcesExecution P _ ih
  | releaseResources _ ih => exact Invariant_ReleaseResources _ ih
  | prepareForInput device _ ih => exact Invariant_PrepareForInput P _ device ih
  | prepareForOutput n device _ _ ih => exact Invariant_PrepareForOutput P _ n device ih
  | prepareForInPlace device _ ih => exact Invariant_PrepareForInPlace P _ device ih
  | writeControl values _ _ hev _ _ => exact Invariant_WriteControl _ values hev
  | writeExecution values _ hcv _ hlen ih => exact Invariant_WriteExecution _ values ih hcv hlen

theorem sampleBothValid_reachable : Reachable samplePlatform sampleBothValid :=
  Reachable.prepareForInput 1 (Reachable.ofStorage ⟨[1, 2, 3, 4, 5]⟩)

theorem GetNumberOfValues_nonneg (s : InternalStruct T) (h : Invariant s) :
    0 ≤ GetNumberOfValues s := by
  rw [GetNumberOfValues_eq_length s h]
  exact Int.natCast_nonneg _

/-- `Shrink(n)` with `0 < n < GetNumberOfValues()` under the invariant: the
valid sides are truncated and the closing assertion holds. -/
theorem Shrink_lt_eq (P : Platform T) (s : InternalStruct T) (n : Int) (h : Invariant s)
    (h0 : 0 < n) (hL : n < GetNumberOfValues s) :
    Shrink P s n = .ok ()
      { s with
        ControlArray :=
          if s.ControlArrayValid then s.ControlArray.Shrink n else s.ControlArray
        ExecutionArrayEnd :=
          if s.ExecutionArrayValid then s.ExecutionArray + n.toNat
          else s.ExecutionArrayEnd } := by
  obtain ⟨h1, h2, h3⟩ := h
  obtain ⟨ca, cv, ei, ev, b, e, c, dm⟩ := s
  cases cv <;> cases ev <;>
    simp_all [Shrink, ShrinkPositive, GetNumberOfValues, StorageBasic.GetNumberOfValues,
      StorageBasic.Shrink, not_lt.mpr (le_of_lt h0)] <;>
    omega

theorem Runs.reachable {P : Platform T} {ops : List (Operation T)} {s : InternalStruct T}
    (h : Runs P ops s) : Reachable P s := by
  induction h with
  | default => exact Reachable.default
  | ofStorage storage => exact Reachable.ofStorage storage
  | step op _ hadm ih =>
    cases op with
    | getStorage => exact Reachable.getStorage ih
    | getPortalControl => exact Reachable.getPortalControl ih
    | getPortalConstControl => exact Reachable.getPortalConstControl ih
    | copyInto dest devId => exact Reachable.copyInto dest devId ih
    | allocate n => exact Reachable.allocate n ih hadm
    | shrink n => exact Reachable.shrink n ih hadm
    | releaseResourcesExecution => exact Reachable.releaseResourcesExecution ih
    | releaseResources => exact Reachable.releaseResources ih
    | prepareForInput device => exact Reachable.prepareForInput device ih
    | prepareForOutput n device => exact Reachable.prepareForOutput n device ih hadm
    | prepareForInPlace device => exact Reachable.prepareForInPlace device ih
    | writeControl values => exact Reachable.writeControl values ih hadm.1 hadm.2.1 hadm.2.2
    | writeExecution values =>
      exact Reachable.writeExecution values ih hadm.1 hadm.2.1 hadm.2.2

theorem lastPrepareDevice_append (ops : List (Operation T)) (op : Operation T) :
    lastPrepareDevice (ops ++ [op]) =
      match op.device? with
      | some d => some d
      | none => lastPrepareDevice ops := by
  induction ops with
  | nil => cases h : op.device? <;> simp [lastPrepareDevice, h]
  | cons a ops ih =>
    show (match lastPrepareDevice (ops ++ [op]) with
      | some d => some d
      | none => a.device?) = _
    rw [ih]
    cases h : op.device? <;> simp [lastPrepareDevice]

theorem SyncControlArray_interface (P : Platform T) (s : InternalStruct T) :
    (SyncControlArray P s).state.ExecutionInterface = s.ExecutionInterface := by
  obtain ⟨ca, cv, ei, ev, b, e, c, dm⟩ := s
  cases cv <;> cases ev <;> cases ei <;> simp [SyncControlArray, Result.state]

theorem ReleaseResourcesExecutionInternal_interface (s : InternalStruct T) :
    (ReleaseResourcesExecutionInternal s).state.ExecutionInterface = s.ExecutionInterface := by
  obtain ⟨ca, cv, ei, ev, b, e, c, dm⟩ := s
  cases ev <;> cases ei <;> simp [ReleaseResourcesExecutionInternal, Result.state, Free]

theorem GetStorage_interface (P : Platform T) (s : InternalStruct T) :
    (GetStorage P s).state.ExecutionInterface = s.ExecutionInterface := by
  have h := SyncControlArray_interface P s
  unfold GetStorage
  cases hr : SyncControlArray P s with
  | throw e s1 => rw [hr] at h; exact h
  | ok v s1 =>
    rw [hr] at h
    simp only [Result.state] at h
    by_cases hc : s1.ControlArrayValid = true <;> simp [hc, Result.state, h]

theorem GetPortalConstControl_interface (P : Platform T) (s : InternalStruct T) :
    (GetPortalConstControl P s).state.ExecutionInterface = s.ExecutionInterface := by
  have h := SyncControlArray_interface P s
  unfold GetPortalConstControl
  cases hr : SyncControlArray P s with
  | throw e s1 => rw [hr] at h; exact h
  | ok v s1 =>
    rw [hr] at h
    simp only [Result.state] at h
    by_cases hc : s1.ControlArrayValid = true <;> simp [hc, Result.state, h]

theorem GetPortalControl_interface (P : Platform T) (s : InternalStruct T) :
    (GetPortalControl P s).state.ExecutionInterface = s.ExecutionInterface := by
  have h := SyncControlArray_interface P s
  unfold GetPortalControl
  cases hr : SyncControlArray P s with
  | throw e s1 => rw [hr] at h; exact h
  | ok v s1 =>
    rw [hr] at h
    simp only [Result.state] at h
    have h2 := ReleaseResourcesExecutionInternal_interface s1
    by_cases hc : s1.ControlArrayValid = true
    · simp only [hc, if_true]
      cases hq : ReleaseResourcesExecutionInternal s1 with
      | throw e s2 => rw [hq] at h2; exact h2.trans h
      | ok v s2 => rw [hq] at h2; exact h2.trans h
    · simp [hc, Result.state, h]

theorem CopyInto_interface {U : Type} (P : Platform T) (s : InternalStruct T)
    (dest : Destination T U) (d : DeviceAdapterId) :
    (CopyInto P s dest d).state.ExecutionInterface = s.ExecutionInterface := by
  have h := GetPortalConstControl_interface P s
  unfold CopyInto
  split
  · rfl
  · split
    · rfl
    · cases hr : GetPortalConstControl P s with
      | throw e s1 => rw [hr] at h; exact h
      | ok v s1 => rw [hr] at h; exact h

theorem Allocate_interface (P : Platform T) (s : InternalStruct T) (n : Int) :
    (Allocate P s n).state.ExecutionInterface = s.ExecutionInterface := by
  have h := ReleaseResourcesExecutionInternal_interface s
  unfold Allocate
  cases hr : ReleaseResourcesExecutionInternal s with
  | throw e s1 => rw [hr] at h; exact h
  | ok v s1 => rw [hr] at h; exact h

theorem ShrinkPositive_interface (s : InternalStruct T) (n : Int) :
    (ShrinkPositive s n).state.ExecutionInterface = s.ExecutionInterface := by
  obtain ⟨ca, cv, ei, ev, b, e, c, dm⟩ := s
  unfold ShrinkPositive
  cases cv <;> cases ev <;> simp only [] <;> split_ifs <;> rfl

theorem Shrink_interface (P : Platform T) (s : InternalStruct T) (n : Int) :
    (Shrink P s n).state.ExecutionInterface = s.ExecutionInterface := by
  rcases lt_trichotomy n 0 with hn | hn | hn
  · simp [Shrink, hn, Result.state]
  · subst hn
    simp only [Shrink, lt_irrefl, if_false, gt_iff_lt]
    exact Allocate_interface P s 0
  · rw [Shrink_state_of_pos P s n hn]
    exact ShrinkPositive_interface s n

theorem ReleaseResourcesExecution_interface (P : Platform T) (s : InternalStruct T) :
    (ReleaseResourcesExecution P s).state.ExecutionInterface = s.ExecutionInterface := by
  have h := SyncControlArray_interface P s
  unfold ReleaseResourcesExecution
  cases hr : SyncControlArray P s with
  | throw e s1 => rw [hr] at h; exact h
  | ok v s1 =>
    rw [hr] at h
    exact (ReleaseResourcesExecutionInternal_interface s1).trans h

theorem ReleaseResources_interface (s : InternalStruct T) :
    (ReleaseResources s).state.ExecutionInterface = s.ExecutionInterface := by
  have h := ReleaseResourcesExecutionInternal_interface s
  unfold ReleaseResources
  cases hr : ReleaseResourcesExecutionInternal s with
  | throw e s1 => rw [hr] at h; exact h
  | ok v s1 =>
    rw [hr] at h
    simp only [Result.state] at h
    by_cases hc : s1.ControlArrayValid = true <;> simp [hc, Result.state, h]

/-- A step that is not a `Prepare*` call keeps the adapter pointer, whatever
the block and whether the call returns or throws. -/
theorem Operation.apply_ExecutionInterface (P : Platform T) (s : InternalStruct T)
    (op : Operation T) (hop : op.device? = none) :
    (op.apply P s).ExecutionInterface = s.ExecutionInterface := by
  cases op with
  | getStorage => exact GetStorage_interface P s
  | getPortalControl => exact GetPortalControl_interface P s
  | getPortalConstControl => exact GetPortalConstControl_interface P s
  | copyInto dest devId => exact CopyInto_interface P s dest devId
  | allocate n => exact Allocate_interface P s n
  | shrink n => exact Shrink_interface P s n
  | releaseResourcesExecution => exact ReleaseResourcesExecution_interface P s
  | releaseResources => exact ReleaseResources_interface s
  | prepareForInput device => simp [Operation.device?] at hop
  | prepareForOutput n device => simp [Operation.device?] at hop
  | prepareForInPlace device => simp [Operation.device?] at hop
  | writeControl values => rfl
  | writeExecution values => rfl

/-- A `Prepare*` step on a block satisfying the invariant leaves the adapter of
the requested device. -/
theorem Operation.apply_prepare (P : Platform T) (s : InternalStruct T) (op : Operation T)
    (d : DeviceAdapterId) (h : Invariant s) (hop : op.device? = some d) :
    (op.apply P s).ExecutionInterface = some d := by
  cases op with
  | prepareForInput device =>
    obtain ⟨portal, s', he, -, -, hi, -⟩ := PrepareForInput_spec P s device h
    simp only [Operation.device?, Option.some.injEq] at hop
    subst hop
    simp only [Operation.apply, he, Result.state, hi]
  | prepareForOutput n device =>
    obtain ⟨portal, s', he, -, -, -, hi, -⟩ := PrepareForOutput_spec P s n device h
    simp only [Operation.device?, Option.some.injEq] at hop
    subst hop
    simp only [Operation.apply, he, Result.state, hi]
  | prepareForInPlace device =>
    obtain ⟨portal, s', he, -, -, -, hi, -⟩ := PrepareForInPlace_spec P s device h
    simp only [Operation.device?, Option.some.injEq] at hop
    subst hop
    simp only [Operation.apply, he, Result.state, hi]
  | _ => simp [Operation.device?] at hop

theorem Runs.interface {P : Platform T} {ops : List (Operation T)} {s : InternalStruct T}
    (h : Runs P ops s) : s.ExecutionInterface = lastPrepareDevice ops := by
  induction h with
  | default => rfl
  | ofStorage storage => rfl
  | @step ops s op hr _ ih =>
    rw [lastPrepareDevice_append]
    cases hd : op.device? with
    | none => exact (Operation.apply_ExecutionInterface P s op hd).trans ih
    | some d => exact Operation.apply_prepare P s op d hr.reachable.invariant hd

theorem sampleProgram_runs :
    Runs samplePlatform sampleProgram
      (runProgram samplePlatform InternalStruct.default sampleProgram) :=
  Runs.step (.allocate 3)
    (Runs.step (.prepareForInput 2)
      (Runs.step (.writeExecution [9, 9, 9, 9, 9])
        (Runs.step (.prepareForOutput 5 1) Runs.default (by decide : (0 : Int) ≤ 5))
        ⟨rfl, rfl, by decide⟩)
      trivial)
    (by decide : (0 : Int) ≤ 3)

theorem Runs.eq_runProgram {P : Platform T} {ops : List (Operation T)} {s : InternalStruct T}
    (h : Runs P ops s) :
    s = runProgram P InternalStruct.default ops ∨
      ∃ storage, s = runProgram P (InternalStruct.ofStorage storage) ops := by
  induction h with
  | default => exact Or.inl rfl
  | ofStorage storage => exact Or.inr ⟨storage, rfl⟩
  | step op _ _ ih =>
    rcases ih with ih | ⟨storage, ih⟩
    · left
      simp [runProgram, List.foldl_append, ih]
    · right
      exact ⟨storage, by simp [runProgram, List.foldl_append, ih]⟩

/-- A member function called through one handle is seen through every handle
holding the same pointer: the block read through `handle2` afterwards is the
block the call left. -/
theorem Handle.call_visible {α : Type} (heap : Heap T) (handle1 handle2 : Handle)
    (s : InternalStruct T) (f : InternalStruct T → Result (InternalStruct T) α)
    (hp : handle2.Internals = handle1.Internals)
    (hblock : heap[handle1.Internals]? = some s) :
    (Handle.call heap handle1 f).state[handle2.Internals]? = some (f s).state := by
  obtain ⟨hlt, -⟩ := List.getElem?_eq_some.mp hblock
  rw [hp]
  simp only [Handle.call, hblock]
  cases f s <;> simp [Result.state, hlt]

/-- `Allocate(n)` under the invariant, for `n ≥ 0`. -/
theorem Allocate_spec (P : Platform T) (s : InternalStruct T) (n : Int) (h : Invariant s)
    (hn : 0 ≤ n) :
    ∃ s', Allocate P s n = .ok () s' ∧
      s'.ControlArrayValid = true ∧ s'.ExecutionArrayValid = false ∧
      GetNumberOfValues s' = n := by
  simp only [Allocate, ReleaseResourcesExecutionInternal_eq s h.adapter]
  refine ⟨_, rfl, rfl, ?_, ?_⟩
  · cases hev : s.ExecutionArrayValid <;> simp [hev]
  · simp [GetNumberOfValues, StorageBasic.GetNumberOfValues, StorageBasic.Allocate,
      Int.toNat_of_nonneg hn]

theorem sampleStaleControl_reachable : Reachable samplePlatform sampleStaleControl :=
  Reachable.prepareForOutput 3 1
    (Reachable.allocate 5 Reachable.default (by decide)) (by decide)

/-- When the test for the direct copy succeeds on a block with data, `CopyInto`
copies `sizeof(ValueType) * GetNumberOfValues()` bytes from the execution array
and leaves the block alone. -/
theorem CopyInto_direct {U : Type} (P : Platform T) (s : InternalStruct T)
    (dest : Destination T U) (d : DeviceAdapterId)
    (hdata : s.ControlArrayValid = true ∨ s.ExecutionArrayValid = true)
    (hdirect : CopyIntoIsDirect s dest.IsPointer d = true) :
    CopyInto P s dest d =
      .ok (dest.Reinterpret
        (CopyBytes P s.DeviceMemory [] (P.SizeofValueType * GetNumberOfValues s))) s := by
  have h1 : (!s.ControlArrayValid && !s.ExecutionArrayValid) = false := by
    rcases hdata with h | h <;> simp [h]
  unfold CopyIntoIsDirect at hdirect
  simp only [CopyInto, h1, hdirect, if_true, Bool.false_eq_true, if_false]

/-- When the test for the direct copy fails on a block with data, `CopyInto`
assigns to `dest`, one by one, what the portal of `GetPortalConstControl`
reads. -/
theorem CopyInto_portal {U : Type} (P : Platform T) (s : InternalStruct T)
    (dest : Destination T U) (d : DeviceAdapterId)
    (hdata : s.ControlArrayValid = true ∨ s.ExecutionArrayValid = true)
    (hdirect : CopyIntoIsDirect s dest.IsPointer d = false) :
    CopyInto P s dest d = (GetPortalConstControl P s).map (List.map dest.Assign) := by
  have h1 : (!s.ControlArrayValid && !s.ExecutionArrayValid) = false := by
    rcases hdata with h | h <;> simp [h]
  unfold CopyIntoIsDirect at hdirect
  simp only [CopyInto, h1, hdirect, Bool.false_eq_true, if_false]
  cases GetPortalConstControl P s <;> rfl

/-- The copy through the control portal assigns the logical contents to `dest`,
element by element. -/
theorem CopyInto_portal_contents {U : Type} (P : Platform T) (s : InternalStruct T)
    (dest : Destination T U) (d : DeviceAdapterId) (h : Invariant s)
    (hdata : s.ControlArrayValid = true ∨ s.ExecutionArrayValid = true)
    (hdirect : CopyIntoIsDirect s dest.IsPointer d = false) :
    CopyInto P s dest d = .ok ((LogicalContents s).map dest.Assign)
      { s with ControlArray := ⟨LogicalContents s⟩, ControlArrayValid := true } := by
  rw [CopyInto_portal P s dest d hdata hdirect, GetPortalConstControl_eq P s h.adapter]
  rfl

/-- `ReleaseResourcesExecution` under the invariant: it returns, the execution
array is invalid afterwards, and a buffer that was valid has been freed. -/
theorem ReleaseResourcesExecution_spec (P : Platform T) (s : InternalStruct T)
    (h : Invariant s) :
    ∃ s', ReleaseResourcesExecution P s = .ok () s' ∧
      s'.ControlArrayValid = true ∧ s'.ExecutionArrayValid = false ∧
      (s.ExecutionArrayValid = true →
        s'.ExecutionArray = 0 ∧ s'.ExecutionArrayEnd = 0 ∧ s'.ExecutionArrayCapacity = 0 ∧
        s'.DeviceMemory = []) := by
  have hs1 := Invariant_SyncControlArray P s h
  rw [SyncControlArray_eq P s h.adapter] at hs1
  simp only [Result.state] at hs1
  simp only [ReleaseResourcesExecution, SyncControlArray_eq P s h.adapter,
    ReleaseResourcesExecutionInternal_eq _ hs1.adapter]
  refine ⟨_, rfl, ?_, ?_, ?_⟩
  · cases hev : s.ExecutionArrayValid <;> simp [hev, Free]
  · cases hev : s.ExecutionArrayValid <;> simp [hev]
  · intro hev
    simp [hev, Free]

/-! ## The claims -/

/-- Claim C1. For every state of the shared block, `GetNumberOfValues()` is the
length of the control buffer when `ControlArrayValid` holds (whatever
`ExecutionArrayValid` is); otherwise, when `ExecutionArrayValid` holds, it is
`ExecutionArrayEnd - ExecutionArray` counted in elements; otherwise it is 0. -/
theorem GetNumberOfValues_priority (s : InternalStruct T) :
    (s.ControlArrayValid = true →
      GetNumberOfValues s = (s.ControlArray.Array.length : Int)) ∧
    (s.ControlArrayValid = false → s.ExecutionArrayValid = true →
      GetNumberOfValues s = (s.ExecutionArrayEnd : Int) - (s.ExecutionArray : Int)) ∧
    (s.ControlArrayValid = false → s.ExecutionArrayValid = false →
      GetNumberOfValues s = 0) := by
  refine ⟨fun h => ?_, fun h1 h2 => ?_, fun h1 h2 => ?_⟩
  · simp [GetNumberOfValues, StorageBasic.GetNumberOfValues, h]
  · simp [GetNumberOfValues, h1, h2]
  · simp [GetNumberOfValues, h1, h2]

/-- Claim C2. From every reachable block and for every `n ≥ 0`, `Allocate(n)`
returns and leaves the block control-only (`ControlArrayValid` true,
`ExecutionArrayValid` false) with a control buffer of exactly `n` elements and
`GetNumberOfValues() = n`. -/
theorem Allocate_control_only (P : Platform T) (s : InternalStruct T) (n : Int)
    (hs : Reachable P s) (hn : 0 ≤ n) :
    ∃ s', Allocate P s n = .ok () s' ∧
      s'.ControlArrayValid = true ∧ s'.ExecutionArrayValid = false ∧
      (s'.ControlArray.Array.length : Int) = n ∧ GetNumberOfValues s' = n := by
  have h := hs.invariant
  simp only [Allocate, ReleaseResourcesExecutionInternal_eq s h.adapter]
  refine ⟨_, rfl, rfl, ?_, ?_, ?_⟩
  · cases hev : s.ExecutionArrayValid <;> simp [hev]
  · simp [StorageBasic.Allocate, Int.toNat_of_nonneg hn]
  · simp [GetNumberOfValues, StorageBasic.GetNumberOfValues, StorageBasic.Allocate,
      Int.toNat_of_nonneg hn]

theorem Allocate_control_only_witness :
    Reachable samplePlatform sampleExecutionOnly ∧ (0 : Int) ≤ 3 ∧
    ∃ s', Allocate samplePlatform sampleExecutionOnly 3 = .ok () s' ∧
      s'.ControlArrayValid = true ∧ s'.ExecutionArrayValid = false ∧
      (s'.ControlArray.Array.length : Int) = 3 ∧ GetNumberOfValues s' = 3 :=
  ⟨sampleExecutionOnly_reachable, by decide,
    Allocate_control_only samplePlatform sampleExecutionOnly 3
      sampleExecutionOnly_reachable (by decide)⟩

/-- Claim C3. From every reachable block `SyncControlArray()` returns with
`ControlArrayValid` true; hence `GetStorage`, `GetPortalControl` and
`GetPortalConstControl` return, and none of them takes the branch throwing
`ErrorInternal` ("SyncControlArray did not make control array valid"). -/
theorem SyncControlArray_control_valid (P : Platform T) (s : InternalStruct T)
    (hs : Reachable P s) :
    (∃ s', SyncControlArray P s = .ok () s' ∧ s'.ControlArrayValid = true) ∧
    (GetStorage P s).error? = none ∧
    (GetPortalControl P s).error? = none ∧
    (GetPortalConstControl P s).error? = none := by
  have h := hs.invariant
  have hs1 := Invariant_SyncControlArray P s h
  rw [SyncControlArray_eq P s h.adapter] at hs1
  simp only [Result.state] at hs1
  refine ⟨⟨_, SyncControlArray_eq P s h.adapter, rfl⟩, ?_, ?_, ?_⟩
  · rw [GetStorage_eq P s h.adapter]
    rfl
  · simp only [GetPortalControl, SyncControlArray_eq P s h.adapter, if_true]
    rw [ReleaseResourcesExecutionInternal_eq _ hs1.adapter]
    rfl
  · rw [GetPortalConstControl_eq P s h.adapter]
    rfl

theorem SyncControlArray_control_valid_witness :
    Reachable samplePlatform sampleExecutionOnly ∧
    ((∃ s', SyncControlArray samplePlatform sampleExecutionOnly = .ok () s' ∧
        s'.ControlArrayValid = true) ∧
      (GetStorage samplePlatform sampleExecutionOnly).error? = none ∧
      (GetPortalControl samplePlatform sampleExecutionOnly).error? = none ∧
      (GetPortalConstControl samplePlatform sampleExecutionOnly).error? = none) :=
  ⟨sampleExecutionOnly_reachable,
    SyncControlArray_control_valid samplePlatform sampleExecutionOnly
      sampleExecutionOnly_reachable⟩

/-- Claim C4. `SyncControlArray()` keeps the logical contents. On a reachable
block it returns; if `ControlArrayValid` was true the block is unchanged; if only
`ExecutionArrayValid` was true, the control buffer afterwards has the length of
the execution buffer and holds its element sequence, while
`ExecutionArrayValid`, the adapter and the execution buffer are unchanged; if
neither flag was true the control buffer afterwards has length 0. -/
theorem SyncControlArray_preserves_contents (P : Platform T) (s : InternalStruct T)
    (hs : Reachable P s) :
    ∃ s', SyncControlArray P s = .ok () s' ∧
      LogicalContents s' = LogicalContents s ∧
      (s.ControlArrayValid = true → s' = s) ∧
      (s.ControlArrayValid = false → s.ExecutionArrayValid = true →
        (s'.ControlArray.Array.length : Int) =
            (s.ExecutionArrayEnd : Int) - (s.ExecutionArray : Int) ∧
          s'.ControlArray.Array = ExecutionValues s ∧
          s'.ExecutionArrayValid = true ∧
          s'.ExecutionInterface = s.ExecutionInterface ∧
          s'.ExecutionArray = s.ExecutionArray ∧
          s'.ExecutionArrayEnd = s.ExecutionArrayEnd ∧
          s'.ExecutionArrayCapacity = s.ExecutionArrayCapacity ∧
          s'.DeviceMemory = s.DeviceMemory) ∧
      (s.ControlArrayValid = false → s.ExecutionArrayValid = false →
        s'.ControlArray.Array.length = 0) := by
  have h := hs.invariant
  refine ⟨_, SyncControlArray_eq P s h.adapter, ?_, ?_, ?_, ?_⟩
  · simp [LogicalContents]
  · intro hcv
    obtain ⟨ca, cv, ei, ev, b, e, c, dm⟩ := s
    simp_all [LogicalContents]
  · intro hcv hev
    have hlen := ExecutionValues_length s h hev
    have hb := (h.bounds hev).1
    refine ⟨?_, ?_, hev, rfl, rfl, rfl, rfl, rfl⟩
    · simp only [LogicalContents, hcv, hev, Bool.false_eq_true, if_false, if_true, hlen]
      omega
    · simp [LogicalContents, hcv, hev]
  · intro hcv hev
    simp [LogicalContents, hcv, hev]

theorem SyncControlArray_preserves_contents_witness :
    Reachable samplePlatform sampleExecutionOnly ∧
    ∃ s', SyncControlArray samplePlatform sampleExecutionOnly = .ok () s' ∧
      s'.ControlArray.Array = [9, 9, 9, 9, 9] ∧ s'.ExecutionArrayValid = true ∧
      s'.DeviceMemory = [9, 9, 9, 9, 9] := by
  refine ⟨sampleExecutionOnly_reachable, ?_⟩
  obtain ⟨s', he, -, -, h, -⟩ :=
    SyncControlArray_preserves_contents samplePlatform sampleExecutionOnly
      sampleExecutionOnly_reachable
  obtain ⟨-, hc, hev, -, -, -, -, hm⟩ := h rfl rfl
  exact ⟨s', he, hc, hev, hm⟩

/-- Claim C5. For every device `d`, `PrepareForInput(d)` called on a block
whose execution array is not valid (the null state or the control-only state)
returns with both flags true; the execution buffer holds the same element
sequence as the control buffer, which is empty when the call started from the
null state and is the previous control contents otherwise; the returned portal
ranges over that execution buffer. -/
theorem PrepareForInput_from_null_or_control (P : Platform T) (s : InternalStruct T)
    (d : DeviceAdapterId) (hev : s.ExecutionArrayValid = false) :
    ∃ portal s', PrepareForInput P s d = .ok portal s' ∧
      s'.ControlArrayValid = true ∧ s'.ExecutionArrayValid = true ∧
      ExecutionValues s' = s'.ControlArray.Array ∧
      (s.ControlArrayValid = false → s'.ControlArray.Array = []) ∧
      (s.ControlArrayValid = true → s'.ControlArray.Array = s.ControlArray.Array) ∧
      portal.Begin = s'.ExecutionArray ∧ portal.End = s'.ExecutionArrayEnd ∧
      portal.GetNumberOfValues = (s'.ControlArray.Array.length : Int) := by
  have h := Invariant_of_execution_invalid s hev
  obtain ⟨portal, s', he, hp, hev', -, hx, -, hinv, -, hn⟩ := PrepareForInput_spec P s d h
  obtain ⟨hcv', hc⟩ := hn (by simp [hev])
  have hlen := ExecutionValues_length s' hinv hev'
  have hb := (hinv.bounds hev').1
  refine ⟨portal, s', he, hcv', hev', by rw [hx, hc], ?_, ?_, ?_, ?_, ?_⟩
  · intro hcv
    simp [hc, LogicalContents, hcv, hev]
  · intro hcv
    simp [hc, LogicalContents, hcv]
  · rw [hp]
  · rw [hp]
  · rw [hp, hc, ← hx, hlen]
    simp only [ExecutionPortal.GetNumberOfValues]
    omega

theorem PrepareForInput_from_null_or_control_witness :
    sampleControlOnly.ExecutionArrayValid = false ∧
    ∃ portal s', PrepareForInput samplePlatform sampleControlOnly 1 = .ok portal s' ∧
      s'.ControlArrayValid = true ∧ s'.ExecutionArrayValid = true ∧
      ExecutionValues s' = s'.ControlArray.Array ∧
      (sampleControlOnly.ControlArrayValid = false → s'.ControlArray.Array = []) ∧
      (sampleControlOnly.ControlArrayValid = true →
        s'.ControlArray.Array = sampleControlOnly.ControlArray.Array) ∧
      portal.Begin = s'.ExecutionArray ∧ portal.End = s'.ExecutionArrayEnd ∧
      portal.GetNumberOfValues = (s'.ControlArray.Array.length : Int) :=
  ⟨rfl, PrepareForInput_from_null_or_control samplePlatform sampleControlOnly 1 rfl⟩

/-- Claim C6, as stated, fails: with 4-byte values `PrepareForOutput(2^62, 1)`
on a default-constructed handle asks the adapter for `4 * 2^62` bytes, which is
0 as a `vtkm::Id`; it returns a portal of 0 elements, and `GetNumberOfValues()`
is 0, not `2^62`. -/
theorem PrepareForOutput_execution_only_counterexample :
    Reachable samplePlatform (InternalStruct.default : InternalStruct Nat) ∧
    (0 : Int) ≤ 4611686018427387904 ∧
    ∃ portal s',
      PrepareForOutput samplePlatform InternalStruct.default 4611686018427387904 1 =
        .ok portal s' ∧
      s'.ControlArrayValid = false ∧ s'.ExecutionArrayValid = true ∧
      GetNumberOfValues s' = 0 ∧ portal.GetNumberOfValues = 0 ∧
      GetNumberOfValues s' ≠ 4611686018427387904 :=
  ⟨Reachable.default, by decide, _, _, rfl, rfl, rfl, by decide, by decide, by decide⟩

/-- Claim C6, amended. For every device `d` and every `n ≥ 0` whose byte count
`sizeof(ValueType) * n` fits `vtkm::Id` (is below `2^63`), from every reachable
block `PrepareForOutput(n, d)` returns with `ControlArrayValid` false,
`ExecutionArrayValid` true, the adapter bound to `d` and
`GetNumberOfValues() = n`; the returned portal ranges over the execution buffer
and has `n` elements. -/
theorem PrepareForOutput_execution_only (P : Platform T) (s : InternalStruct T) (n : Int)
    (d : DeviceAdapterId) (hs : Reachable P s) (hn : 0 ≤ n)
    (hfit : P.SizeofValueType * n < 9223372036854775808) :
    ∃ portal s', PrepareForOutput P s n d = .ok portal s' ∧
      s'.ControlArrayValid = false ∧ s'.ExecutionArrayValid = true ∧
      s'.ExecutionInterface = some d ∧ GetNumberOfValues s' = n ∧
      portal.Begin = s'.ExecutionArray ∧ portal.End = s'.ExecutionArrayEnd ∧
      portal.GetNumberOfValues = n ∧ ((ExecutionValues s').length : Int) = n := by
  obtain ⟨portal, s', he, hp, hcv, hev, hi, hb, hend, hmem, -⟩ :=
    PrepareForOutput_spec P s n d hs.invariant
  rw [PrepareForOutputLength_of_fits P n hn hfit] at hend hmem
  refine ⟨portal, s', he, hcv, hev, hi, ?_, by rw [hp], by rw [hp], ?_, ?_⟩
  · simp only [GetNumberOfValues, hcv, hev, hb, hend, Bool.false_eq_true, if_false, if_true]
    omega
  · simp only [ExecutionPortal.GetNumberOfValues, hp, hb, hend]
    omega
  · simp only [ExecutionValues, hb, hend, hmem, List.length_take, List.length_map,
      List.length_range]
    omega

theorem PrepareForOutput_execution_only_witness :
    Reachable samplePlatform sampleExecutionOnly ∧ (0 : Int) ≤ 3 ∧
    samplePlatform.SizeofValueType * 3 < 9223372036854775808 ∧
    ∃ portal s', PrepareForOutput samplePlatform sampleExecutionOnly 3 2 = .ok portal s' ∧
      s'.ControlArrayValid = false ∧ s'.ExecutionArrayValid = true ∧
      s'.ExecutionInterface = some 2 ∧ GetNumberOfValues s' = 3 ∧
      portal.Begin = s'.ExecutionArray ∧ portal.End = s'.ExecutionArrayEnd ∧
      portal.GetNumberOfValues = 3 ∧ ((ExecutionValues s').length : Int) = 3 :=
  ⟨sampleExecutionOnly_reachable, by decide, by decide,
    PrepareForOutput_execution_only samplePlatform sampleExecutionOnly 3 2
      sampleExecutionOnly_reachable (by decide) (by decide)⟩

/-- Claim C7. For every device `d`, from every reachable block
`PrepareForInPlace(d)` returns with `ExecutionArrayValid` true and
`ControlArrayValid` false; the execution buffer, over which the returned portal
ranges, holds the logical contents the array had before the call, and
`GetNumberOfValues()` is unchanged. -/
theorem PrepareForInPlace_keeps_contents (P : Platform T) (s : InternalStruct T)
    (d : DeviceAdapterId) (hs : Reachable P s) :
    ∃ portal s', PrepareForInPlace P s d = .ok portal s' ∧
      s'.ExecutionArrayValid = true ∧ s'.ControlArrayValid = false ∧
      ExecutionValues s' = LogicalContents s ∧
      portal.Begin = s'.ExecutionArray ∧ portal.End = s'.ExecutionArrayEnd ∧
      GetNumberOfValues s' = GetNumberOfValues s := by
  obtain ⟨portal, s', he, hp, hcv, hev, -, hx, hinv⟩ :=
    PrepareForInPlace_spec P s d hs.invariant
  refine ⟨portal, s', he, hev, hcv, hx, by rw [hp], by rw [hp], ?_⟩
  rw [GetNumberOfValues_eq_length s' hinv, GetNumberOfValues_eq_length s hs.invariant, ← hx]
  simp [LogicalContents, hcv, hev]

theorem PrepareForInPlace_keeps_contents_witness :
    Reachable samplePlatform sampleExecutionOnly ∧
    ∃ portal s', PrepareForInPlace samplePlatform sampleExecutionOnly 2 = .ok portal s' ∧
      s'.ExecutionArrayValid = true ∧ s'.ControlArrayValid = false ∧
      ExecutionValues s' = LogicalContents sampleExecutionOnly ∧
      portal.Begin = s'.ExecutionArray ∧ portal.End = s'.ExecutionArrayEnd ∧
      GetNumberOfValues s' = GetNumberOfValues sampleExecutionOnly :=
  ⟨sampleExecutionOnly_reachable,
    PrepareForInPlace_keeps_contents samplePlatform sampleExecutionOnly 2
      sampleExecutionOnly_reachable⟩

/-- Claim C8. Device-switch flush. Let `A ≠ B` be devices and let a reachable
block hold the sequence `v` only in the execution buffer of `A`
(`ControlArrayValid` false, `ExecutionArrayValid` true, adapter bound to `A`).
Then `PrepareForInput(B)` returns, the adapter is bound to `B`, the execution
buffer holds `v`, the control buffer has been made valid and holds `v` (the
flush), the logical contents are `v`, `GetNumberOfValues() = |v|`,
and the portal of `GetPortalConstControl()` reads `v` after the switch as it
does before it. -/
theorem PrepareForInput_device_switch (P : Platform T) (s : InternalStruct T)
    (A B : DeviceAdapterId) (v : List T) (hs : Reachable P s) (hAB : A ≠ B)
    (hcv : s.ControlArrayValid = false) (hev : s.ExecutionArrayValid = true)
    (hA : s.ExecutionInterface = some A) (hv : ExecutionValues s = v) :
    ∃ portal s', PrepareForInput P s B = .ok portal s' ∧
      s'.ExecutionInterface = some B ∧ s'.ExecutionArrayValid = true ∧
      s'.ControlArrayValid = true ∧ s'.ControlArray.Array = v ∧
      ExecutionValues s' = v ∧ LogicalContents s' = v ∧
      GetNumberOfValues s' = (v.length : Int) ∧
      portal.Begin = s'.ExecutionArray ∧ portal.End = s'.ExecutionArrayEnd ∧
      (∃ s'', GetPortalConstControl P s' = .ok v s'') ∧
      (∃ s'', GetPortalConstControl P s = .ok v s'') := by
  have h := hs.invariant
  have hl : LogicalContents s = v := by simp [LogicalContents, hcv, hev, hv]
  obtain ⟨portal, s', he, hp, hev', hi', hx, hl', hinv, -, hsw⟩ := PrepareForInput_spec P s B h
  have hne : ¬(s.ExecutionArrayValid = true ∧ s.ExecutionInterface = some B) := by
    rintro ⟨-, hB⟩
    rw [hA] at hB
    exact hAB (Option.some.inj hB)
  obtain ⟨hcv', hc'⟩ := hsw hne
  refine ⟨portal, s', he, hi', hev', hcv', by rw [hc', hl], by rw [hx, hl], by rw [hl', hl],
    ?_, by rw [hp], by rw [hp], ?_, ?_⟩
  · rw [GetNumberOfValues_eq_length s' hinv, hl', hl]
  · rw [GetPortalConstControl_eq P s' hinv.adapter, hl', hl]
    exact ⟨_, rfl⟩
  · rw [GetPortalConstControl_eq P s h.adapter, hl]
    exact ⟨_, rfl⟩

theorem PrepareForInput_device_switch_witness :
    Reachable samplePlatform sampleExecutionOnly ∧ (1 : DeviceAdapterId) ≠ 2 ∧
    sampleExecutionOnly.ControlArrayValid = false ∧
    sampleExecutionOnly.ExecutionArrayValid = true ∧
    sampleExecutionOnly.ExecutionInterface = some 1 ∧
    ExecutionValues sampleExecutionOnly = [9, 9, 9, 9, 9] ∧
    ∃ portal s', PrepareForInput samplePlatform sampleExecutionOnly 2 = .ok portal s' ∧
      s'.ExecutionInterface = some 2 ∧ s'.ExecutionArrayValid = true ∧
      s'.ControlArrayValid = true ∧ s'.ControlArray.Array = [9, 9, 9, 9, 9] ∧
      ExecutionValues s' = [9, 9, 9, 9, 9] ∧ LogicalContents s' = [9, 9, 9, 9, 9] ∧
      GetNumberOfValues s' = 5 ∧
      portal.Begin = s'.ExecutionArray ∧ portal.End = s'.ExecutionArrayEnd ∧
      (∃ s'', GetPortalConstControl samplePlatform s' = .ok [9, 9, 9, 9, 9] s'') ∧
      (∃ s'', GetPortalConstControl samplePlatform sampleExecutionOnly =
        .ok [9, 9, 9, 9, 9] s'') :=
  ⟨sampleExecutionOnly_reachable, by decide, rfl, rfl, rfl, rfl,
    PrepareForInput_device_switch samplePlatform sampleExecutionOnly 1 2 [9, 9, 9, 9, 9]
      sampleExecutionOnly_reachable (by decide) rfl rfl rfl rfl⟩

/-- Claim C9, as stated, fails, in two ways. With 4-byte values and `dest` a
raw pointer to 16-bit values, after `PrepareForOutput(5, 1)` on a
default-constructed handle and `[9, 9, 9, 9, 9]` written through the portal,
`CopyInto(dest, 1)` copies the 20 bytes of the execution buffer: `dest` holds
the ten values `9, 0, 9, 0, ...`, not the five values 9 that the copy through
the control portal assigns. And `PrepareForOutput(2^62, 1)` returns a portal of
0 elements, after which `CopyInto` writes no value at all. -/
theorem CopyInto_round_trip_counterexample :
    (∃ portal s1,
      PrepareForOutput samplePlatform InternalStruct.default 5 1 = .ok portal s1 ∧
      portal.GetNumberOfValues = 5 ∧
      CopyInto samplePlatform (WriteExecution s1 [9, 9, 9, 9, 9]) sampleUInt16Pointer 1 =
        .ok [9, 0, 9, 0, 9, 0, 9, 0, 9, 0] (WriteExecution s1 [9, 9, 9, 9, 9]) ∧
      ([9, 9, 9, 9, 9] : List Nat).map sampleUInt16Pointer.Assign = [9, 9, 9, 9, 9] ∧
      ([9, 0, 9, 0, 9, 0, 9, 0, 9, 0] : List (Fin 65536)) ≠ [9, 9, 9, 9, 9]) ∧
    (∃ portal s1,
      PrepareForOutput samplePlatform InternalStruct.default 4611686018427387904 1 =
        .ok portal s1 ∧
      portal.GetNumberOfValues = 0 ∧
      CopyInto samplePlatform s1 (Destination.ofValueType true) 1 = .ok [] s1 ∧
      CopyInto samplePlatform s1 (Destination.ofValueType false) 1 =
        .ok [] { s1 with ControlArrayValid := true }) :=
  ⟨⟨_, _, rfl, by decide, by decide, by decide, by decide⟩,
    ⟨_, _, rfl, by decide, by decide, by decide⟩⟩

/-- Claim C9, amended. Round trip. For every device `A`, every `n ≥ 0` whose
byte count `sizeof(ValueType) * n` fits `vtkm::Id` and every sequence `v` of `n`
values, from every reachable block: `PrepareForOutput(n, A)` returns a portal of
`n` elements, and after `v` is written through it `CopyInto(dest, A)` returns
and writes exactly `v` to `dest`, both when `dest` is a raw pointer to
`ValueType` and when it is another kind of iterator; an iterator over another
value type receives the elements of `v` as assignment converts them. -/
theorem CopyInto_round_trip (P : Platform T) (s : InternalStruct T) (A : DeviceAdapterId)
    (n : Int) (v : List T) (hs : Reachable P s) (hn : 0 ≤ n)
    (hfit : P.SizeofValueType * n < 9223372036854775808) (hv : (v.length : Int) = n) :
    ∃ portal s1, PrepareForOutput P s n A = .ok portal s1 ∧
      portal.GetNumberOfValues = n ∧
      (∀ isPointer : Bool, ∃ s2,
        CopyInto P (WriteExecution s1 v) (Destination.ofValueType isPointer) A = .ok v s2) ∧
      (∀ (U : Type) (dest : Destination T U), dest.IsPointer = false →
        ∃ s2, CopyInto P (WriteExecution s1 v) dest A = .ok (v.map dest.Assign) s2) := by
  obtain ⟨portal, s1, he, hp, hcv, hev, hi, hb, hend, hmem, hinv⟩ :=
    PrepareForOutput_spec P s n A hs.invariant
  rw [PrepareForOutputLength_of_fits P n hn hfit] at hend hmem
  have hlen : n.toNat = v.length := by omega
  have hcount : GetNumberOfValues s1 = n := by
    simp only [GetNumberOfValues, hcv, hev, hb, hend, Bool.false_eq_true, if_false, if_true]
    omega
  have hw : Invariant (WriteExecution s1 v) :=
    Invariant_WriteExecution s1 v hinv hcv (by rw [hcount, hv])
  have hmem' : (WriteExecution s1 v).DeviceMemory = v := by
    simp [WriteExecution, hmem, hlen]
  have hvals : ExecutionValues (WriteExecution s1 v) = v := by
    simp only [ExecutionValues, hmem']
    simp [WriteExecution, hb, hend, hlen]
  refine ⟨portal, s1, he, ?_, ?_⟩
  · simp only [ExecutionPortal.GetNumberOfValues, hp, hb, hend]
    omega
  · have hcvw : (WriteExecution s1 v).ControlArrayValid = false := hcv
    have hevw : (WriteExecution s1 v).ExecutionArrayValid = true := hev
    have hiw : (WriteExecution s1 v).ExecutionInterface = some A := hi
    have hc : GetNumberOfValues (WriteExecution s1 v) = n := hcount
    have hl : LogicalContents (WriteExecution s1 v) = v := by
      simp [LogicalContents, hcvw, hevw, hvals]
    refine ⟨fun isPointer => ?_, fun U dest hdp => ?_⟩
    · cases isPointer
      · simp [CopyInto, Destination.ofValueType, GetPortalConstControl_eq P _ hw.adapter, hcvw,
          hevw, hl]
      · simp [CopyInto, Destination.ofValueType, hc, CopyBytes_sizeof_mul, hmem', hcvw, hevw,
          hiw, hlen]
    · rw [CopyInto_portal_contents P _ dest A hw (Or.inr hevw) (by simp [CopyIntoIsDirect, hdp]),
        hl]
      exact ⟨_, rfl⟩

theorem CopyInto_round_trip_witness :
    Reachable samplePlatform (InternalStruct.default : InternalStruct Nat) ∧ (0 : Int) ≤ 5 ∧
    samplePlatform.SizeofValueType * 5 < 9223372036854775808 ∧
    (([9, 9, 9, 9, 9] : List Nat).length : Int) = 5 ∧
    ∃ portal s1, PrepareForOutput samplePlatform InternalStruct.default 5 1 = .ok portal s1 ∧
      portal.GetNumberOfValues = 5 ∧
      (∀ isPointer : Bool, ∃ s2,
        CopyInto samplePlatform (WriteExecution s1 [9, 9, 9, 9, 9])
          (Destination.ofValueType isPointer) 1 = .ok [9, 9, 9, 9, 9] s2) ∧
      (∀ (U : Type) (dest : Destination Nat U), dest.IsPointer = false →
        ∃ s2, CopyInto samplePlatform (WriteExecution s1 [9, 9, 9, 9, 9]) dest 1 =
          .ok (([9, 9, 9, 9, 9] : List Nat).map dest.Assign) s2) :=
  ⟨Reachable.default, by decide, by decide, rfl,
    CopyInto_round_trip samplePlatform InternalStruct.default 1 5 [9, 9, 9, 9, 9]
      Reachable.default (by decide) (by decide) rfl⟩

/-- Claim C10. `CopyInto(dest, device)` throws `ErrorBadValue("ArrayHandle has
no data to copy into Iterator.")` if and only if `ControlArrayValid` and
`ExecutionArrayValid` are both false, and then the block is left as it was. In
particular it throws on a default-constructed handle, for which
`GetNumberOfValues()` is 0. -/
theorem CopyInto_no_data {U : Type} (P : Platform T) (s : InternalStruct T)
    (dest : Destination T U) (d : DeviceAdapterId) :
    ((CopyInto P s dest d).error? = some (.ErrorBadValue .NoDataToCopy) ↔
      (s.ControlArrayValid = false ∧ s.ExecutionArrayValid = false)) ∧
    ((CopyInto P s dest d).error? = some (.ErrorBadValue .NoDataToCopy) →
      (CopyInto P s dest d).state = s) ∧
    GetNumberOfValues (InternalStruct.default : InternalStruct T) = 0 ∧
    CopyInto P InternalStruct.default dest d =
      .throw (.ErrorBadValue .NoDataToCopy) InternalStruct.default := by
  have key : (CopyInto P s dest d).error? = some (.ErrorBadValue .NoDataToCopy) ↔
      (s.ControlArrayValid = false ∧ s.ExecutionArrayValid = false) := by
    obtain ⟨ca, cv, ei, ev, b, e, c, dm⟩ := s
    obtain ⟨isPointer, assign, reinterpret⟩ := dest
    rcases ei with _ | a
    · cases cv <;> cases ev <;> cases isPointer <;>
        simp [CopyInto, GetPortalConstControl, SyncControlArray, Result.error?]
    · by_cases ha : a = d <;> cases cv <;> cases ev <;> cases isPointer <;>
        simp [CopyInto, GetPortalConstControl, SyncControlArray, Result.error?, ha]
  refine ⟨key, ?_, rfl, rfl⟩
  intro he
  obtain ⟨hcv, hev⟩ := key.mp he
  simp [CopyInto, hcv, hev, Result.state]

/-- Claim C11. `Shrink` keeps the first `n` elements. From every reachable
block of current length `L` and for every `n` with `0 < n < L`, `Shrink(n)`
returns with both validity flags unchanged and `GetNumberOfValues() = n`; a
valid control buffer is truncated to its first `n` elements, and for a valid
execution array only the end pointer moves, to `ExecutionArray + n`, so that it
holds the first `n` of its previous elements. -/
theorem Shrink_keeps_first_elements (P : Platform T) (s : InternalStruct T) (n : Int)
    (hs : Reachable P s) (h0 : 0 < n) (hL : n < GetNumberOfValues s) :
    ∃ s', Shrink P s n = .ok () s' ∧
      s'.ControlArrayValid = s.ControlArrayValid ∧
      s'.ExecutionArrayValid = s.ExecutionArrayValid ∧
      GetNumberOfValues s' = n ∧
      LogicalContents s' = (LogicalContents s).take n.toNat ∧
      (s.ControlArrayValid = true →
        s'.ControlArray.Array = s.ControlArray.Array.take n.toNat) ∧
      (s.ExecutionArrayValid = true →
        s'.ExecutionArray = s.ExecutionArray ∧
        s'.ExecutionArrayEnd = s.ExecutionArray + n.toNat ∧
        s'.DeviceMemory = s.DeviceMemory ∧
        ExecutionValues s' = (ExecutionValues s).take n.toNat) := by
  have h := hs.invariant
  refine ⟨_, Shrink_lt_eq P s n h h0 hL, rfl, rfl, ?_, ?_, ?_, ?_⟩
  · obtain ⟨h1, h2, h3⟩ := h
    obtain ⟨ca, cv, ei, ev, b, e, c, dm⟩ := s
    cases cv <;> cases ev <;>
      simp_all [GetNumberOfValues, StorageBasic.GetNumberOfValues, StorageBasic.Shrink] <;>
      omega
  · obtain ⟨h1, h2, h3⟩ := h
    obtain ⟨ca, cv, ei, ev, b, e, c, dm⟩ := s
    cases cv <;> cases ev <;>
      simp_all [GetNumberOfValues, StorageBasic.GetNumberOfValues, StorageBasic.Shrink,
        LogicalContents, ExecutionValues, List.take_take]
    omega
  · intro hcv
    simp [hcv, StorageBasic.Shrink]
  · intro hev
    have hb := h.bounds hev
    have hlen : n.toNat ≤ s.ExecutionArrayEnd - s.ExecutionArray := by
      have hle := GetNumberOfValues_eq_length s h
      have hx := ExecutionValues_length s h hev
      obtain ⟨h1, h2, h3⟩ := h
      cases hcv : s.ControlArrayValid
      · simp only [GetNumberOfValues, hcv, hev, Bool.false_eq_true, if_false, if_true] at hL
        omega
      · have hc := h3 hcv hev
        simp only [GetNumberOfValues, StorageBasic.GetNumberOfValues, hcv, if_true, hc, hx] at hL
        omega
    refine ⟨rfl, by simp [hev], rfl, ?_⟩
    simp [ExecutionValues, hev, List.take_take, hlen]

theorem Shrink_keeps_first_elements_witness :
    Reachable samplePlatform sampleBothValid ∧ (0 : Int) < 3 ∧
    (3 : Int) < GetNumberOfValues sampleBothValid ∧
    LogicalContents sampleBothValid = [1, 2, 3, 4, 5] ∧
    ∃ s', Shrink samplePlatform sampleBothValid 3 = .ok () s' ∧
      s'.ControlArrayValid = true ∧ s'.ExecutionArrayValid = true ∧
      GetNumberOfValues s' = 3 ∧ LogicalContents s' = [1, 2, 3] ∧
      s'.ControlArray.Array = [1, 2, 3] ∧ ExecutionValues s' = [1, 2, 3] := by
  refine ⟨sampleBothValid_reachable, by decide, by decide, rfl, ?_⟩
  obtain ⟨s', he, hcv, hev, hn, hl, hc, hx⟩ :=
    Shrink_keeps_first_elements samplePlatform sampleBothValid 3 sampleBothValid_reachable
      (by decide) (by decide)
  exact ⟨s', he, hcv, hev, hn, hl, hc rfl, (hx rfl).2.2.2⟩

/-- Claim C12. For every block whose current length is not negative (every
reachable block is such) and every `n ≥ 0`, `Shrink(n)` throws
`ErrorBadValue("ArrayHandle::Shrink cannot be used to grow array.")` if and
only if `n > GetNumberOfValues()`, and then the block (both buffers, both flags
and the adapter) is left as it was; in particular for `n` the current length
plus one. -/
theorem Shrink_grow_error (P : Platform T) (s : InternalStruct T) (n : Int)
    (hL : 0 ≤ GetNumberOfValues s) (hn : 0 ≤ n) :
    ((Shrink P s n).error? = some (.ErrorBadValue .ShrinkCannotGrow) ↔
      GetNumberOfValues s < n) ∧
    (GetNumberOfValues s < n →
      Shrink P s n = .throw (.ErrorBadValue .ShrinkCannotGrow) s) ∧
    Shrink P s (GetNumberOfValues s + 1) = .throw (.ErrorBadValue .ShrinkCannotGrow) s := by
  have hthrow : ∀ m : Int, GetNumberOfValues s < m →
      Shrink P s m = .throw (.ErrorBadValue .ShrinkCannotGrow) s := by
    intro m hm
    have h1 : ¬ m < 0 := by omega
    have h2 : 0 < m := by omega
    have h3 : ¬ m < GetNumberOfValues s := by omega
    have h4 : ¬ m = GetNumberOfValues s := by omega
    simp [Shrink, ShrinkPositive, h1, h2, h3, h4]
  refine ⟨⟨fun he => ?_, fun hlt => ?_⟩, hthrow n, hthrow _ (by omega)⟩
  · by_contra hge
    have hle : n ≤ GetNumberOfValues s := by omega
    rcases eq_or_lt_of_le hn with h0 | h0
    · -- `n = 0`: the call is `Allocate(0)`
      subst h0
      simp only [Shrink, lt_irrefl, if_false, gt_iff_lt, Allocate] at he
      cases hr : ReleaseResourcesExecutionInternal s with
      | ok v s1 => rw [hr] at he; simp [Result.error?] at he
      | throw e s1 =>
        rw [hr] at he
        unfold ReleaseResourcesExecutionInternal at hr
        split at hr
        · split at hr
          · cases hr
            simp [Result.error?] at he
          · cases hr
        · cases hr
    · have h1 : ¬ n < 0 := by omega
      simp only [Shrink, h1, if_false, gt_iff_lt, h0, if_true] at he
      cases hr : ShrinkPositive s n with
      | ok v s1 =>
        rw [hr] at he
        by_cases hg : GetNumberOfValues s1 = n <;> simp [hg, Result.error?] at he
      | throw e s1 =>
        unfold ShrinkPositive at hr
        simp only [] at hr
        rcases eq_or_lt_of_le hle with heq | hlt
        · rw [if_neg (by omega), if_pos heq] at hr
          cases hr
        · rw [if_pos hlt] at hr
          cases hr
  · rw [hthrow n hlt]
    rfl

theorem Shrink_grow_error_witness :
    (0 : Int) ≤ GetNumberOfValues sampleBothValid ∧ (0 : Int) ≤ 6 ∧
    (((Shrink samplePlatform sampleBothValid 6).error? =
        some (.ErrorBadValue .ShrinkCannotGrow) ↔
      GetNumberOfValues sampleBothValid < 6) ∧
    (GetNumberOfValues sampleBothValid < 6 →
      Shrink samplePlatform sampleBothValid 6 =
        .throw (.ErrorBadValue .ShrinkCannotGrow) sampleBothValid) ∧
    Shrink samplePlatform sampleBothValid (GetNumberOfValues sampleBothValid + 1) =
      .throw (.ErrorBadValue .ShrinkCannotGrow) sampleBothValid) :=
  ⟨by decide, by decide,
    Shrink_grow_error samplePlatform sampleBothValid 6 (by decide) (by decide)⟩

/-- Claim C13, as stated, fails: on a default-constructed handle the current
length is 0 and `Shrink(0)` changes the block (it sets `ControlArrayValid`). -/
theorem Shrink_current_length_counterexample :
    ¬ ((Shrink samplePlatform (InternalStruct.default : InternalStruct Nat)
        (GetNumberOfValues (InternalStruct.default : InternalStruct Nat))).state =
      InternalStruct.default) := by
  decide

/-- Claim C13, amended. On a reachable block of current length `L`: when
`L > 0`, `Shrink(L)` returns and leaves the block exactly as it was; when
`L = 0`, `Shrink(0)` runs `Allocate(0)`: it returns a control-only block of
length 0, which is the block it started from exactly when that block was
already control-only. -/
theorem Shrink_current_length (P : Platform T) (s : InternalStruct T) (hs : Reachable P s) :
    (0 < GetNumberOfValues s → Shrink P s (GetNumberOfValues s) = .ok () s) ∧
    (GetNumberOfValues s = 0 →
      ∃ s', Shrink P s (GetNumberOfValues s) = .ok () s' ∧
        s'.ControlArrayValid = true ∧ s'.ExecutionArrayValid = false ∧
        GetNumberOfValues s' = 0 ∧
        (s' = s ↔ (s.ControlArrayValid = true ∧ s.ExecutionArrayValid = false))) := by
  have h := hs.invariant
  constructor
  · intro hpos
    have h1 : ¬ GetNumberOfValues s < 0 := by omega
    simp [Shrink, ShrinkPositive, h1, hpos]
  · intro hz
    rw [hz]
    simp only [Shrink, lt_irrefl, if_false, gt_iff_lt, Allocate,
      ReleaseResourcesExecutionInternal_eq s h.adapter]
    refine ⟨_, rfl, rfl, ?_, ?_, ?_⟩
    · cases hev : s.ExecutionArrayValid <;> simp [hev]
    · simp [GetNumberOfValues, StorageBasic.GetNumberOfValues, StorageBasic.Allocate]
    · obtain ⟨ca, cv, ei, ev, b, e, c, dm⟩ := s
      obtain ⟨ca⟩ := ca
      cases cv <;> cases ev <;>
        simp_all [GetNumberOfValues, StorageBasic.GetNumberOfValues, StorageBasic.Allocate,
          Free]

theorem Shrink_current_length_witness :
    Reachable samplePlatform sampleBothValid ∧
    ((0 < GetNumberOfValues sampleBothValid →
        Shrink samplePlatform sampleBothValid (GetNumberOfValues sampleBothValid) =
          .ok () sampleBothValid) ∧
      (GetNumberOfValues sampleBothValid = 0 →
        ∃ s', Shrink samplePlatform sampleBothValid (GetNumberOfValues sampleBothValid) =
            .ok () s' ∧
          s'.ControlArrayValid = true ∧ s'.ExecutionArrayValid = false ∧
          GetNumberOfValues s' = 0 ∧
          (s' = sampleBothValid ↔
            (sampleBothValid.ControlArrayValid = true ∧
              sampleBothValid.ExecutionArrayValid = false)))) :=
  ⟨sampleBothValid_reachable,
    Shrink_current_length samplePlatform sampleBothValid sampleBothValid_reachable⟩

/-- Claim C14, as stated, fails: after `Shrink(0)` on a default-constructed
handle the flags are not both false. -/
theorem Shrink_zero_counterexample :
    ¬ ((Shrink samplePlatform (InternalStruct.default : InternalStruct Nat) 0).state.ControlArrayValid
          = false ∧
        (Shrink samplePlatform (InternalStruct.default : InternalStruct Nat) 0).state.ExecutionArrayValid
          = false) := by
  decide

/-- Claim C14, amended. From every reachable block `Shrink(0)` returns with
`GetNumberOfValues() = 0` and the block control-only over an empty control
buffer: `ControlArrayValid` is true and `ExecutionArrayValid` is false. -/
theorem Shrink_zero (P : Platform T) (s : InternalStruct T) (hs : Reachable P s) :
    ∃ s', Shrink P s 0 = .ok () s' ∧ GetNumberOfValues s' = 0 ∧
      s'.ControlArrayValid = true ∧ s'.ExecutionArrayValid = false ∧
      s'.ControlArray.Array = [] := by
  have h := hs.invariant
  simp only [Shrink, lt_irrefl, if_false, gt_iff_lt, Allocate,
    ReleaseResourcesExecutionInternal_eq s h.adapter]
  refine ⟨_, rfl, ?_, rfl, ?_, ?_⟩
  · simp [GetNumberOfValues, StorageBasic.GetNumberOfValues, StorageBasic.Allocate]
  · cases hev : s.ExecutionArrayValid <;> simp [hev]
  · simp [StorageBasic.Allocate]

theorem Shrink_zero_witness :
    Reachable samplePlatform sampleExecutionOnly ∧
    ∃ s', Shrink samplePlatform sampleExecutionOnly 0 = .ok () s' ∧
      GetNumberOfValues s' = 0 ∧
      s'.ControlArrayValid = true ∧ s'.ExecutionArrayValid = false ∧
      s'.ControlArray.Array = [] :=
  ⟨sampleExecutionOnly_reachable,
    Shrink_zero samplePlatform sampleExecutionOnly sampleExecutionOnly_reachable⟩

/-- Claim C15. From every reachable block `ReleaseResourcesExecution()` returns
without losing data: afterwards `ControlArrayValid` is true,
`ExecutionArrayValid` is false, the control buffer holds the logical contents
the array had before the call, and `GetNumberOfValues()` is unchanged. -/
theorem ReleaseResourcesExecution_keeps_contents (P : Platform T) (s : InternalStruct T)
    (hs : Reachable P s) :
    ∃ s', ReleaseResourcesExecution P s = .ok () s' ∧
      s'.ControlArrayValid = true ∧ s'.ExecutionArrayValid = false ∧
      s'.ControlArray.Array = LogicalContents s ∧
      GetNumberOfValues s' = GetNumberOfValues s := by
  have h := hs.invariant
  have hs1 := Invariant_SyncControlArray P s h
  rw [SyncControlArray_eq P s h.adapter] at hs1
  simp only [Result.state] at hs1
  simp only [ReleaseResourcesExecution, SyncControlArray_eq P s h.adapter,
    ReleaseResourcesExecutionInternal_eq _ hs1.adapter]
  refine ⟨_, rfl, ?_, ?_, ?_, ?_⟩
  · cases hev : s.ExecutionArrayValid <;> simp [hev, Free]
  · cases hev : s.ExecutionArrayValid <;> simp [hev]
  · cases hev : s.ExecutionArrayValid <;> simp [hev, Free]
  · rw [GetNumberOfValues_eq_length s h]
    cases hev : s.ExecutionArrayValid <;>
      simp [hev, Free, GetNumberOfValues, StorageBasic.GetNumberOfValues]

theorem ReleaseResourcesExecution_keeps_contents_witness :
    Reachable samplePlatform sampleExecutionOnly ∧
    ∃ s', ReleaseResourcesExecution samplePlatform sampleExecutionOnly = .ok () s' ∧
      s'.ControlArrayValid = true ∧ s'.ExecutionArrayValid = false ∧
      s'.ControlArray.Array = [9, 9, 9, 9, 9] ∧
      GetNumberOfValues s' = 5 :=
  ⟨sampleExecutionOnly_reachable,
    ReleaseResourcesExecution_keeps_contents samplePlatform sampleExecutionOnly
      sampleExecutionOnly_reachable⟩

/-- Claim C16. From every reachable block `ReleaseResources()` returns with
both `ControlArrayValid` and `ExecutionArrayValid` false and
`GetNumberOfValues() = 0`. No flush is made: a control buffer that was not
valid is left untouched, so data held only by the execution buffer is gone. -/
theorem ReleaseResources_null_state (P : Platform T) (s : InternalStruct T)
    (hs : Reachable P s) :
    ∃ s', ReleaseResources s = .ok () s' ∧
      s'.ControlArrayValid = false ∧ s'.ExecutionArrayValid = false ∧
      GetNumberOfValues s' = 0 ∧ LogicalContents s' = [] ∧
      (s.ControlArrayValid = false → s'.ControlArray = s.ControlArray) := by
  have h := hs.invariant
  obtain ⟨h1, -, -⟩ := h
  obtain ⟨ca, cv, ei, ev, b, e, c, dm⟩ := s
  cases cv <;> cases ev <;> cases ei <;>
    simp_all [ReleaseResources, ReleaseResourcesExecutionInternal, Free, GetNumberOfValues,
      LogicalContents]

theorem ReleaseResources_null_state_witness :
    Reachable samplePlatform sampleExecutionOnly ∧
    ∃ s', ReleaseResources sampleExecutionOnly = .ok () s' ∧
      s'.ControlArrayValid = false ∧ s'.ExecutionArrayValid = false ∧
      GetNumberOfValues s' = 0 ∧ LogicalContents s' = [] ∧
      (sampleExecutionOnly.ControlArrayValid = false →
        s'.ControlArray = sampleExecutionOnly.ControlArray) :=
  ⟨sampleExecutionOnly_reachable,
    ReleaseResources_null_state samplePlatform sampleExecutionOnly
      sampleExecutionOnly_reachable⟩

/-- Claim C17. From every reachable block both `GetPortalControl()` and
`GetPortalConstControl()` return a portal that reads the logical contents the
array had before the call, over a control buffer holding them, with
`ControlArrayValid` true. After the mutable variant `ExecutionArrayValid` is
false; the const variant leaves `ExecutionArrayValid`, the adapter and the
execution buffer as they were. -/
theorem GetPortalControl_synchronizes (P : Platform T) (s : InternalStruct T)
    (hs : Reachable P s) :
    (∃ s', GetPortalControl P s = .ok (LogicalContents s) s' ∧
      s'.ControlArray.Array = LogicalContents s ∧
      s'.ControlArrayValid = true ∧ s'.ExecutionArrayValid = false) ∧
    (∃ s', GetPortalConstControl P s = .ok (LogicalContents s) s' ∧
      s'.ControlArray.Array = LogicalContents s ∧
      s'.ControlArrayValid = true ∧
      s'.ExecutionArrayValid = s.ExecutionArrayValid ∧
      s'.ExecutionInterface = s.ExecutionInterface ∧
      s'.ExecutionArray = s.ExecutionArray ∧
      s'.ExecutionArrayEnd = s.ExecutionArrayEnd ∧
      s'.ExecutionArrayCapacity = s.ExecutionArrayCapacity ∧
      s'.DeviceMemory = s.DeviceMemory) := by
  have h := hs.invariant
  have hs1 := Invariant_SyncControlArray P s h
  rw [SyncControlArray_eq P s h.adapter] at hs1
  simp only [Result.state] at hs1
  constructor
  · simp only [GetPortalControl, SyncControlArray_eq P s h.adapter, if_true,
      ReleaseResourcesExecutionInternal_eq _ hs1.adapter]
    cases hev : s.ExecutionArrayValid <;> simp [Free]
  · exact ⟨_, GetPortalConstControl_eq P s h.adapter, rfl, rfl, rfl, rfl, rfl, rfl, rfl, rfl⟩

theorem GetPortalControl_synchronizes_witness :
    Reachable samplePlatform sampleExecutionOnly ∧
    (∃ s', GetPortalControl samplePlatform sampleExecutionOnly = .ok [9, 9, 9, 9, 9] s' ∧
      s'.ControlArray.Array = [9, 9, 9, 9, 9] ∧
      s'.ControlArrayValid = true ∧ s'.ExecutionArrayValid = false) ∧
    (∃ s', GetPortalConstControl samplePlatform sampleExecutionOnly =
        .ok [9, 9, 9, 9, 9] s' ∧
      s'.ControlArrayValid = true ∧ s'.ExecutionArrayValid = true ∧
      ExecutionValues s' = [9, 9, 9, 9, 9]) := by
  obtain ⟨⟨s1, h1⟩, ⟨s2, he, hc, hcv, hev, -, hb, hend, -, hm⟩⟩ :=
    GetPortalControl_synchronizes samplePlatform sampleExecutionOnly
      sampleExecutionOnly_reachable
  refine ⟨sampleExecutionOnly_reachable, ⟨s1, h1⟩, s2, he, hcv, hev, ?_⟩
  simp only [ExecutionValues, hb, hend, hm]
  rfl

/-- Claim C18. Coherence. In every block reached from a constructor by public
operations, with writes made only through the writable portal of the side
that alone is valid, whenever `ControlArrayValid` and `ExecutionArrayValid` are
both true the control buffer and the execution buffer hold the same element
sequence. -/
theorem coherence_of_reachable (P : Platform T) (s : InternalStruct T) (hs : Reachable P s)
    (hcv : s.ControlArrayValid = true) (hev : s.ExecutionArrayValid = true) :
    s.ControlArray.Array = ExecutionValues s ∧
    (s.ControlArray.Array.length : Int) =
      (s.ExecutionArrayEnd : Int) - (s.ExecutionArray : Int) := by
  have h := hs.invariant
  have hc := h.coherent hcv hev
  have hlen := ExecutionValues_length s h hev
  have hb := (h.bounds hev).1
  refine ⟨hc, ?_⟩
  rw [hc, hlen]
  omega

theorem coherence_of_reachable_witness :
    Reachable samplePlatform sampleBothValid ∧
    sampleBothValid.ControlArrayValid = true ∧ sampleBothValid.ExecutionArrayValid = true ∧
    (sampleBothValid.ControlArray.Array = ExecutionValues sampleBothValid ∧
      (sampleBothValid.ControlArray.Array.length : Int) =
        (sampleBothValid.ExecutionArrayEnd : Int) - (sampleBothValid.ExecutionArray : Int)) :=
  ⟨sampleBothValid_reachable, rfl, rfl,
    coherence_of_reachable samplePlatform sampleBothValid sampleBothValid_reachable rfl rfl⟩

/-- Claim C19. Adapter identity. The block has one adapter pointer, so at most
one adapter is attached. For every program of public operations run from a
constructor, the adapter attached to the block it leaves is the one of the
device of the most recent `Prepare*` call (none when there was no such call);
on that block each of `PrepareForInput(d)`, `PrepareForOutput(n, d)` and
`PrepareForInPlace(d)` returns with the adapter bound to `d`, and every other
step leaves the adapter pointer as it was. -/
theorem adapter_identity (P : Platform T) (ops : List (Operation T)) (s : InternalStruct T)
    (h : Runs P ops s) :
    s.ExecutionInterface = lastPrepareDevice ops ∧
    (∀ d, ∃ portal s', PrepareForInput P s d = .ok portal s' ∧
      s'.ExecutionInterface = some d) ∧
    (∀ n d, ∃ portal s', PrepareForOutput P s n d = .ok portal s' ∧
      s'.ExecutionInterface = some d) ∧
    (∀ d, ∃ portal s', PrepareForInPlace P s d = .ok portal s' ∧
      s'.ExecutionInterface = some d) ∧
    (∀ op : Operation T, op.device? = none →
      (op.apply P s).ExecutionInterface = s.ExecutionInterface) := by
  have hinv := h.reachable.invariant
  refine ⟨h.interface, fun d => ?_, fun n d => ?_, fun d => ?_, fun op hop => ?_⟩
  · obtain ⟨portal, s', he, -, -, hi, -⟩ := PrepareForInput_spec P s d hinv
    exact ⟨portal, s', he, hi⟩
  · obtain ⟨portal, s', he, -, -, -, hi, -⟩ := PrepareForOutput_spec P s n d hinv
    exact ⟨portal, s', he, hi⟩
  · obtain ⟨portal, s', he, -, -, -, hi, -⟩ := PrepareForInPlace_spec P s d hinv
    exact ⟨portal, s', he, hi⟩
  · exact Operation.apply_ExecutionInterface P s op hop

theorem adapter_identity_witness :
    Runs samplePlatform sampleProgram
      (runProgram samplePlatform InternalStruct.default sampleProgram) ∧
    (runProgram samplePlatform InternalStruct.default sampleProgram).ExecutionInterface =
      some 2 ∧
    lastPrepareDevice sampleProgram = some 2 :=
  ⟨sampleProgram_runs,
    (adapter_identity samplePlatform sampleProgram _ sampleProgram_runs).1, rfl⟩

/-- Claim C20. Aliasing. A handle made from `handle1` by the copy constructor
or by copy assignment holds the same `Internals` pointer, so it compares equal
to `handle1` and any member function called through `handle1` is seen through
it; in particular, when `handle1` refers to a reachable block and `n ≥ 0`,
after `handle1.Allocate(n)` the call `handle2.GetNumberOfValues()` returns
`n`. -/
theorem Handle_copy_aliases (P : Platform T) (heap : Heap T) (handle1 target : Handle)
    (s : InternalStruct T) (n : Int) (hblock : heap[handle1.Internals]? = some s)
    (hs : Reachable P s) (hn : 0 ≤ n) :
    ∀ handle2 : Handle,
      (handle2 = Handle.copyConstruct handle1 ∨ handle2 = Handle.assign target handle1) →
      handle2.Internals = handle1.Internals ∧
      Handle.equals handle2 handle1 = true ∧
      (∃ heap', Handle.Allocate P heap handle1 n = .ok () heap' ∧
        Handle.GetNumberOfValues heap' handle2 = .ok n heap') ∧
      (∀ (α : Type) (f : InternalStruct T → Result (InternalStruct T) α),
        (Handle.call heap handle1 f).state[handle2.Internals]? = some (f s).state) := by
  intro handle2 h2
  have hp : handle2.Internals = handle1.Internals := by
    rcases h2 with h2 | h2 <;> rw [h2] <;> rfl
  obtain ⟨s', he, -, -, hcount⟩ := Allocate_spec P s n hs.invariant hn
  have hvis := Handle.call_visible heap handle1 handle2 s (fun s => Allocate P s n) hp hblock
  refine ⟨hp, by simp [Handle.equals, hp], ?_, fun α f =>
    Handle.call_visible heap handle1 handle2 s f hp hblock⟩
  simp only [he, Result.state] at hvis
  refine ⟨heap.set handle1.Internals s', ?_, ?_⟩
  · simp [Handle.Allocate, Handle.call, hblock, he]
  · have hvis' : (heap.set handle1.Internals s')[handle2.Internals]? = some s' := by
      simpa [Handle.call, hblock, he, Result.state] using hvis
    simp only [Handle.GetNumberOfValues, Handle.call, hvis', hcount]
    congr 1
    rw [hp, List.set_set]

theorem Handle_copy_aliases_witness :
    Handle.construct ([] : Heap Nat) = (⟨0⟩, [InternalStruct.default]) ∧
    ([InternalStruct.default] : Heap Nat)[(⟨0⟩ : Handle).Internals]? =
      some InternalStruct.default ∧
    Reachable samplePlatform (InternalStruct.default : InternalStruct Nat) ∧ (0 : Int) ≤ 7 ∧
    ∀ handle2 : Handle,
      (handle2 = Handle.copyConstruct ⟨0⟩ ∨ handle2 = Handle.assign ⟨5⟩ ⟨0⟩) →
      handle2.Internals = (⟨0⟩ : Handle).Internals ∧
      Handle.equals handle2 ⟨0⟩ = true ∧
      (∃ heap', Handle.Allocate samplePlatform [InternalStruct.default] ⟨0⟩ 7 = .ok () heap' ∧
        Handle.GetNumberOfValues heap' handle2 = .ok 7 heap') ∧
      (∀ (α : Type) (f : InternalStruct Nat → Result (InternalStruct Nat) α),
        (Handle.call [InternalStruct.default] ⟨0⟩ f).state[handle2.Internals]? =
          some (f InternalStruct.default).state) :=
  ⟨rfl, rfl, Reachable.default, by decide,
    Handle_copy_aliases samplePlatform [InternalStruct.default] ⟨0⟩ ⟨5⟩ InternalStruct.default 7
      rfl Reachable.default (by decide)⟩

/-- Claim C22. For every device `d`, when the adapter of the block is already
bound to `d` the device transition returns without changing the block; if
moreover `ExecutionArrayValid` is true, `PrepareForInput(d)` returns a portal
over the existing execution buffer and leaves the whole block as it was
(nothing is allocated or copied and `ControlArrayValid` keeps its value). -/
theorem PrepareForInput_same_device (P : Platform T) (s : InternalStruct T)
    (d : DeviceAdapterId) (hd : s.ExecutionInterface = some d) :
    PrepareForDevice P s d = .ok () s ∧
    (s.ExecutionArrayValid = true →
      PrepareForInput P s d = .ok ⟨s.ExecutionArray, s.ExecutionArrayEnd⟩ s) := by
  refine ⟨PrepareForDevice_same P s d hd, fun hev => ?_⟩
  simp [PrepareForInput, PrepareForDevice_same P s d hd, hev]

theorem PrepareForInput_same_device_witness :
    sampleExecutionOnly.ExecutionInterface = some 1 ∧
    PrepareForDevice samplePlatform sampleExecutionOnly 1 = .ok () sampleExecutionOnly ∧
    (sampleExecutionOnly.ExecutionArrayValid = true →
      PrepareForInput samplePlatform sampleExecutionOnly 1 =
        .ok ⟨sampleExecutionOnly.ExecutionArray, sampleExecutionOnly.ExecutionArrayEnd⟩
          sampleExecutionOnly) :=
  ⟨rfl, PrepareForInput_same_device samplePlatform sampleExecutionOnly 1 rfl⟩

/-- Claim C24, as stated, fails: after `Allocate(5)` and
`PrepareForOutput(3, 1)` the control buffer is allocated but stale, and
`ReleaseResources()` leaves its five elements in place. -/
theorem ReleaseResources_control_counterexample :
    ¬ ((ReleaseResources sampleStaleControl).state.ControlArray.Array.length = 0) := by
  decide

/-- Claim C24, amended. From every reachable block `ReleaseResources()`
returns; when `ControlArrayValid` was true the control buffer is freed (its
stored length is 0 afterwards), and when `ControlArrayValid` was false the
control buffer is left as it was. -/
theorem ReleaseResources_control (P : Platform T) (s : InternalStruct T)
    (hs : Reachable P s) :
    ∃ s', ReleaseResources s = .ok () s' ∧
      (s.ControlArrayValid = true → s'.ControlArray.Array.length = 0) ∧
      (s.ControlArrayValid = false → s'.ControlArray = s.ControlArray) := by
  obtain ⟨h1, -, -⟩ := hs.invariant
  obtain ⟨ca, cv, ei, ev, b, e, c, dm⟩ := s
  cases cv <;> cases ev <;> cases ei <;>
    simp_all [ReleaseResources, ReleaseResourcesExecutionInternal, Free,
      StorageBasic.ReleaseResources]

theorem ReleaseResources_control_witness :
    Reachable samplePlatform sampleBothValid ∧
    ∃ s', ReleaseResources sampleBothValid = .ok () s' ∧
      (sampleBothValid.ControlArrayValid = true → s'.ControlArray.Array.length = 0) ∧
      (sampleBothValid.ControlArrayValid = false →
        s'.ControlArray = sampleBothValid.ControlArray) :=
  ⟨sampleBothValid_reachable,
    ReleaseResources_control samplePlatform sampleBothValid sampleBothValid_reachable⟩

/-- Claim C25, as stated, fails: after `ReleaseResourcesExecution()` on a
block prepared on device 1 the adapter of device 1 is still attached. -/
theorem ReleaseResourcesExecution_adapter_counterexample :
    ¬ ((ReleaseResourcesExecution samplePlatform sampleExecutionOnly).state.ExecutionInterface
        = none) := by
  decide

/-- Claim C25, amended. From every reachable block
`ReleaseResourcesExecution()` returns with `ExecutionArrayValid` false, and an
execution buffer that was valid has been freed (its pointers are null); the
adapter association is kept: `ExecutionInterface` is what it was before the
call. -/
theorem ReleaseResourcesExecution_adapter (P : Platform T) (s : InternalStruct T)
    (hs : Reachable P s) :
    ∃ s', ReleaseResourcesExecution P s = .ok () s' ∧
      s'.ExecutionInterface = s.ExecutionInterface ∧
      s'.ExecutionArrayValid = false ∧
      (s.ExecutionArrayValid = true →
        s'.ExecutionArray = 0 ∧ s'.ExecutionArrayEnd = 0 ∧ s'.ExecutionArrayCapacity = 0 ∧
        s'.DeviceMemory = []) := by
  obtain ⟨s', he, -, hev, hfree⟩ := ReleaseResourcesExecution_spec P s hs.invariant
  have hi := ReleaseResourcesExecution_interface P s
  rw [he] at hi
  exact ⟨s', he, hi, hev, hfree⟩

theorem ReleaseResourcesExecution_adapter_witness :
    Reachable samplePlatform sampleExecutionOnly ∧
    ∃ s', ReleaseResourcesExecution samplePlatform sampleExecutionOnly = .ok () s' ∧
      s'.ExecutionInterface = some 1 ∧
      s'.ExecutionArrayValid = false ∧
      (sampleExecutionOnly.ExecutionArrayValid = true →
        s'.ExecutionArray = 0 ∧ s'.ExecutionArrayEnd = 0 ∧ s'.ExecutionArrayCapacity = 0 ∧
        s'.DeviceMemory = []) :=
  ⟨sampleExecutionOnly_reachable,
    ReleaseResourcesExecution_adapter samplePlatform sampleExecutionOnly
      sampleExecutionOnly_reachable⟩

/-- Claim C26. In every reachable block `ExecutionArrayValid = true` implies
that an adapter is attached. Hence `SyncControlArray` and
`ReleaseResourcesExecutionInternal` return, `CopyInto` fails only with its
"no data" error, never through a null adapter, and `PrepareForDevice` returns
for every device, so that its two assertions (no adapter, execution array not
valid, just before the new adapter is made) hold. -/
theorem adapter_attached (P : Platform T) (s : InternalStruct T) (hs : Reachable P s) :
    (s.ExecutionArrayValid = true → s.ExecutionInterface.isSome = true) ∧
    (SyncControlArray P s).error? = none ∧
    (ReleaseResourcesExecutionInternal s).error? = none ∧
    (∀ (U : Type) (dest : Destination T U) (d : DeviceAdapterId) (e : Error),
      (CopyInto P s dest d).error? = some e → e = .ErrorBadValue .NoDataToCopy) ∧
    (∀ d : DeviceAdapterId, (PrepareForDevice P s d).error? = none) := by
  have h := hs.invariant
  refine ⟨h.adapter, ?_, ?_, ?_, ?_⟩
  · rw [SyncControlArray_eq P s h.adapter]
    rfl
  · rw [ReleaseResourcesExecutionInternal_eq s h.adapter]
    rfl
  · intro U dest d e he
    by_cases hdata : s.ControlArrayValid = true ∨ s.ExecutionArrayValid = true
    · cases hdir : CopyIntoIsDirect s dest.IsPointer d
      · rw [CopyInto_portal P s dest d hdata hdir,
          GetPortalConstControl_eq P s h.adapter] at he
        simp [Result.error?, Result.map] at he
      · rw [CopyInto_direct P s dest d hdata hdir] at he
        simp [Result.error?] at he
    · have hcv : s.ControlArrayValid = false := by
        cases hc : s.ControlArrayValid
        · rfl
        · exact absurd (Or.inl hc) hdata
      have hev : s.ExecutionArrayValid = false := by
        cases hc : s.ExecutionArrayValid
        · rfl
        · exact absurd (Or.inr hc) hdata
      simp [CopyInto, hcv, hev, Result.error?] at he
      exact he.symm
  · intro d
    obtain ⟨s1, he, -⟩ := PrepareForDevice_spec P s d h
    rw [he]
    rfl

theorem adapter_attached_witness :
    Reachable samplePlatform sampleExecutionOnly ∧
    sampleExecutionOnly.ExecutionArrayValid = true ∧
    sampleExecutionOnly.ExecutionInterface.isSome = true ∧
    (PrepareForDevice samplePlatform sampleExecutionOnly 2).error? = none :=
  ⟨sampleExecutionOnly_reachable, rfl,
    (adapter_attached samplePlatform sampleExecutionOnly sampleExecutionOnly_reachable).1 rfl,
    (adapter_attached samplePlatform sampleExecutionOnly
      sampleExecutionOnly_reachable).2.2.2.2 2⟩

/-- Claim C27. The closing assertion of `Shrink`. On every reachable block and
for every `n > 0` not above the current length, `Shrink(n)` returns and
`GetNumberOfValues() = n` holds where it is asserted, whichever flags are
set; in the null state every `n > 0` takes the throwing branch, so the
assertion is not reached. In no case does the assertion fail. -/
theorem Shrink_assertion (P : Platform T) (s : InternalStruct T) (n : Int)
    (hs : Reachable P s) (h0 : 0 < n) :
    (n ≤ GetNumberOfValues s →
      ∃ s', Shrink P s n = .ok () s' ∧ GetNumberOfValues s' = n) ∧
    (s.ControlArrayValid = false → s.ExecutionArrayValid = false →
      Shrink P s n = .throw (.ErrorBadValue .ShrinkCannotGrow) s) ∧
    (Shrink P s n).error? ≠ some .AssertionFailure := by
  have h := hs.invariant
  have hneg : ¬ n < 0 := by omega
  have hle : n ≤ GetNumberOfValues s →
      ∃ s', Shrink P s n = .ok () s' ∧ GetNumberOfValues s' = n := by
    intro hn
    rcases eq_or_lt_of_le hn with heq | hlt
    · refine ⟨s, ?_, heq.symm⟩
      simp [Shrink, ShrinkPositive, hneg, h0, ← heq]
    · refine ⟨_, Shrink_lt_eq P s n h h0 hlt, ?_⟩
      obtain ⟨h1, h2, h3⟩ := h
      obtain ⟨ca, cv, ei, ev, b, e, c, dm⟩ := s
      cases cv <;> cases ev <;>
        simp_all [GetNumberOfValues, StorageBasic.GetNumberOfValues, StorageBasic.Shrink]
      omega
  have hgt : GetNumberOfValues s < n →
      Shrink P s n = .throw (.ErrorBadValue .ShrinkCannotGrow) s := by
    intro hm
    have h3 : ¬ n < GetNumberOfValues s := by omega
    have h4 : ¬ n = GetNumberOfValues s := by omega
    simp [Shrink, ShrinkPositive, hneg, h0, h3, h4]
  refine ⟨hle, fun hcv hev => ?_, ?_⟩
  · apply hgt
    simp only [GetNumberOfValues, hcv, hev, Bool.false_eq_true, if_false]
    exact h0
  · rcases le_or_lt n (GetNumberOfValues s) with hn | hn
    · obtain ⟨s', he, -⟩ := hle hn
      rw [he]
      simp [Result.error?]
    · rw [hgt hn]
      simp [Result.error?]

theorem Shrink_assertion_witness :
    Reachable samplePlatform sampleBothValid ∧ (0 : Int) < 3 ∧
    (3 : Int) ≤ GetNumberOfValues sampleBothValid ∧
    (∃ s', Shrink samplePlatform sampleBothValid 3 = .ok () s' ∧ GetNumberOfValues s' = 3) ∧
    (Shrink samplePlatform sampleBothValid 3).error? ≠ some .AssertionFailure :=
  ⟨sampleBothValid_reachable, by decide, by decide,
    (Shrink_assertion samplePlatform sampleBothValid 3 sampleBothValid_reachable
      (by decide)).1 (by decide),
    (Shrink_assertion samplePlatform sampleBothValid 3 sampleBothValid_reachable
      (by decide)).2.2⟩

end ArrayHandle

end cont

namespace cont
namespace internal
namespace variant

/-- Claim C21. Checked downcast. For every container pointer `c`, null or not,
and every value type `T` with a non-virtual storage tag `S`,
`Cast<ArrayHandle<T, S>>(c)` throws the failed-dynamic-cast error, made from
`TypeName(c)` and `TypeName<ArrayHandle<T, S>>()`, if and only if
`IsType<ArrayHandle<T, S>>(c)` is false, which is the case for the null
pointer; when `IsType` is true the cast returns the handle held by the
container's storage descriptor: a handle with the same `Internals` pointer, so
one that refers to the same shared block. -/
theorem Cast_checked (T S : TypeTag) (c : Option VariantArrayHandleContainer) :
    (Cast T S c = .error (.FailedDynamicCast (.ofContainer c) (.ofArrayHandle T S)) ↔
      IsType T S c = false) ∧
    IsType T S none = false ∧
    (IsType T S c = true →
      ∃ container handle, c = some container ∧
        container.GetStorage = .StorageAny T S handle ∧
        ∃ result, Cast T S c = .ok result ∧ result.Internals = handle.Internals ∧
          ArrayHandle.Handle.equals result handle = true) := by
  rcases c with _ | ⟨vt, storage⟩
  · simp [Cast, Caster, IsType]
  · cases storage with
    | Other tag =>
      simp [Cast, Caster, IsType, VariantArrayHandleContainer.GetStorage,
        StorageVirtual.IsTypeStorageAny]
    | StorageAny VT ST handle =>
      by_cases h : VT = T ∧ ST = S
      · obtain ⟨rfl, rfl⟩ := h
        simp [Cast, Caster, IsType, VariantArrayHandleContainer.GetStorage,
          StorageVirtual.IsTypeStorageAny, ArrayHandle.Handle.moveConstruct,
          ArrayHandle.Handle.copyConstruct, ArrayHandle.Handle.equals]
      · have h' : (VT == T && ST == S) = false := by
          rcases not_and_or.mp h with h1 | h1 <;> simp [h1]
        simp [Cast, Caster, IsType, VariantArrayHandleContainer.GetStorage,
          StorageVirtual.IsTypeStorageAny, h']

theorem Cast_checked_witness :
    Cast sampleInt32 sampleStorageTagBasic (some sampleFloatContainer) =
      .error (.FailedDynamicCast (.ofContainer (some sampleFloatContainer))
        (.ofArrayHandle sampleInt32 sampleStorageTagBasic)) ∧
    (∃ result, Cast sampleFloat32 sampleStorageTagBasic (some sampleFloatContainer) =
        .ok result ∧ result.Internals = 0) := by
  refine ⟨(Cast_checked sampleInt32 sampleStorageTagBasic (some sampleFloatContainer)).1.2
    rfl, ?_⟩
  obtain ⟨container, handle, hc, hst, result, hr, hi, -⟩ :=
    (Cast_checked sampleFloat32 sampleStorageTagBasic (some sampleFloatContainer)).2.2 rfl
  refine ⟨result, hr, ?_⟩
  cases hc
  cases hst
  exact hi

end variant
end internal
end cont

namespace filter

/-- Claim C30. The field-permutation worklet is total and never reads the
input portal out of range: for every input portal of length `n`, every invalid
value and every permutation index `p`, negative or not below `n` included, the
output is `inputPortal.Get(p)`, an element of the portal, when `0 ≤ p < n`, and
the invalid value otherwise. -/
theorem MapPermutationWorklet_call (T : Type) (this : MapPermutationWorklet T) (p : Int)
    (inputPortal : List T) :
    (this.call p inputPortal).isSome = true ∧
    ((0 ≤ p ∧ p < (inputPortal.length : Int)) →
      this.call p inputPortal = ArrayPortalGet inputPortal p ∧
      this.call p inputPortal = inputPortal[p.toNat]?) ∧
    (¬ (0 ≤ p ∧ p < (inputPortal.length : Int)) →
      this.call p inputPortal = some this.InvalidValue) := by
  by_cases h : 0 ≤ p ∧ p < (inputPortal.length : Int)
  · have hlt : p.toNat < inputPortal.length := by omega
    have hc : this.call p inputPortal = inputPortal[p.toNat]? := by
      simp [MapPermutationWorklet.call, ArrayPortalGetNumberOfValues, ArrayPortalGet, h.1, h.2]
    refine ⟨?_, fun _ => ⟨?_, hc⟩, fun hn => absurd h hn⟩
    · rw [hc]
      simp [hlt]
    · rw [hc]
      simp [ArrayPortalGet, h.1]
  · have hc : this.call p inputPortal = some this.InvalidValue := by
      have h' : ¬ (p ≥ 0 ∧ p < (inputPortal.length : Int)) := h
      simp only [MapPermutationWorklet.call, ArrayPortalGetNumberOfValues,
        ← Bool.decide_and, decide_eq_true_eq, h', if_false]
    refine ⟨?_, fun hp => absurd hp h, fun _ => hc⟩
    rw [hc]
    rfl

end filter

namespace worklet
namespace zfp

/-- A loop whose every pass appends the calls `W offset q` and advances
`offset` by `a` and `q` by `b`: its effect after `n` passes. -/
theorem foldl_range_steps {Scalar : Type} (step : ScatterState Scalar → Nat → ScatterState Scalar)
    (W : Int → Int → List (Int × Scalar)) (a b : Int)
    (h : ∀ st i, step st i =
      { Sets := st.Sets ++ W st.offset st.q, offset := st.offset + a, q := st.q + b })
    (n : Nat) (st : ScatterState Scalar) :
    (List.range n).foldl step st =
      { Sets := st.Sets ++
          (List.range n).flatMap fun i => W (st.offset + a * i) (st.q + b * i)
        offset := st.offset + a * n
        q := st.q + b * n } := by
  induction n with
  | zero => simp
  | succ n ih =>
    rw [List.range_succ, List.foldl_append, ih]
    simp only [List.foldl_cons, List.foldl_nil, h, List.flatMap_append, List.flatMap_singleton,
      List.append_assoc, Nat.cast_add, Nat.cast_one, List.flatMap_cons, List.flatMap_nil,
      List.append_nil]
    congr 1 <;> ring

theorem flatMap_singleton_eq_map {α β : Type} (f : α → β) (l : List α) :
    (l.flatMap fun x => [f x]) = l.map f := by
  induction l with
  | nil => rfl
  | cons a l ih => simp [ih]

/-- `ScatterPartial3` makes the calls of `ScatterSpec`, in the same order. -/
theorem ScatterPartial3_eq_spec {Scalar : Type} (fblock : Int → Scalar) (dims : Id3)
    (offset : Int) (nx ny nz : Nat) :
    ScatterPartial3 fblock dims offset nx ny nz = ScatterSpec fblock dims offset nx ny nz := by
  let stepX : ScatterState Scalar → Nat → ScatterState Scalar := fun st _ =>
    { Sets := st.Sets ++ [(st.offset, fblock st.q)]
      offset := st.offset + 1
      q := st.q + 1 }
  let rowX : Int → Int → List (Int × Scalar) := fun o q =>
    (List.range nx).flatMap fun x => [(o + 1 * (x : Int), fblock (q + 1 * (x : Int)))]
  have hX : ∀ st, (List.range nx).foldl stepX st =
      { Sets := st.Sets ++ rowX st.offset st.q
        offset := st.offset + 1 * nx
        q := st.q + 1 * nx } := fun st =>
    foldl_range_steps stepX (fun o q => [(o, fblock q)]) 1 1 (fun _ _ => rfl) nx st
  let stepY : ScatterState Scalar → Nat → ScatterState Scalar := fun st _ =>
    let st := (List.range nx).foldl stepX st
    { st with offset := st.offset + (dims.c0 - nx), q := st.q + (4 - nx) }
  let rowY : Int → Int → List (Int × Scalar) := fun o q =>
    (List.range ny).flatMap fun y => rowX (o + dims.c0 * (y : Int)) (q + 4 * (y : Int))
  have hYstep : ∀ st i, stepY st i =
      { Sets := st.Sets ++ rowX st.offset st.q
        offset := st.offset + dims.c0
        q := st.q + 4 } := by
    intro st i
    show ({ (List.range nx).foldl stepX st with
      offset := ((List.range nx).foldl stepX st).offset + (dims.c0 - nx)
      q := ((List.range nx).foldl stepX st).q + (4 - nx) } : ScatterState Scalar) = _
    rw [hX]
    simp only [ScatterState.mk.injEq, true_and]
    constructor <;> ring
  have hY : ∀ st, (List.range ny).foldl stepY st =
      { Sets := st.Sets ++ rowY st.offset st.q
        offset := st.offset + dims.c0 * ny
        q := st.q + 4 * ny } := fun st =>
    foldl_range_steps stepY rowX dims.c0 4 hYstep ny st
  let stepZ : ScatterState Scalar → Nat → ScatterState Scalar := fun st _ =>
    let st := (List.range ny).foldl stepY st
    { st with
      offset := st.offset + (dims.c0 * dims.c1 - ny * dims.c0)
      q := st.q + 4 * (4 - ny) }
  have hZstep : ∀ st i, stepZ st i =
      { Sets := st.Sets ++ rowY st.offset st.q
        offset := st.offset + dims.c0 * dims.c1
        q := st.q + 16 } := by
    intro st i
    show ({ (List.range ny).foldl stepY st with
      offset := ((List.range ny).foldl stepY st).offset + (dims.c0 * dims.c1 - ny * dims.c0)
      q := ((List.range ny).foldl stepY st).q + 4 * (4 - ny) } : ScatterState Scalar) = _
    rw [hY]
    simp only [ScatterState.mk.injEq, true_and]
    constructor <;> ring
  have hZ := foldl_range_steps stepZ rowY (dims.c0 * dims.c1) 16 hZstep nz
    { Sets := [], offset := offset, q := 0 }
  show ((List.range nz).foldl stepZ { Sets := [], offset := offset, q := 0 }).Sets = _
  rw [hZ]
  have key : ∀ z y x : Nat,
      (offset + dims.c0 * dims.c1 * (z : Int) + dims.c0 * (y : Int) + 1 * (x : Int),
        fblock (0 + 16 * (z : Int) + 4 * (y : Int) + 1 * (x : Int))) =
      (offset + (x : Int) + dims.c0 * (y : Int) + dims.c0 * dims.c1 * (z : Int),
        fblock ((x : Int) + 4 * (y : Int) + 16 * (z : Int))) := by
    intro z y x
    have h1 : offset + dims.c0 * dims.c1 * (z : Int) + dims.c0 * (y : Int) + 1 * (x : Int) =
        offset + (x : Int) + dims.c0 * (y : Int) + dims.c0 * dims.c1 * (z : Int) := by ring
    have h2 : (0 : Int) + 16 * (z : Int) + 4 * (y : Int) + 1 * (x : Int) =
        (x : Int) + 4 * (y : Int) + 16 * (z : Int) := by ring
    rw [h1, h2]
  simp only [List.nil_append, ScatterSpec, rowY, rowX, key, flatMap_singleton_eq_map]

/-- `Scatter3` makes the calls of `ScatterSpec` for a full block, in the same
order. -/
theorem Scatter3_eq_spec {Scalar : Type} (fblock : Int → Scalar) (dims : Id3) (offset : Int) :
    Scatter3 fblock dims offset = ScatterSpec fblock dims offset 4 4 4 := by
  let stepX : ScatterState Scalar → Nat → ScatterState Scalar := fun st _ =>
    { Sets := st.Sets ++ [(st.offset, fblock st.q)]
      offset := st.offset + 1
      q := st.q + 1 }
  let rowX : Int → Int → List (Int × Scalar) := fun o q =>
    (List.range 4).flatMap fun x => [(o + 1 * (x : Int), fblock (q + 1 * (x : Int)))]
  have hX : ∀ st, (List.range 4).foldl stepX st =
      { Sets := st.Sets ++ rowX st.offset st.q
        offset := st.offset + 1 * (4 : Nat)
        q := st.q + 1 * (4 : Nat) } := fun st =>
    foldl_range_steps stepX (fun o q => [(o, fblock q)]) 1 1 (fun _ _ => rfl) 4 st
  let stepY : ScatterState Scalar → Nat → ScatterState Scalar := fun st _ =>
    let st := (List.range 4).foldl stepX st
    { st with offset := st.offset + (dims.c0 - 4) }
  let rowY : Int → Int → List (Int × Scalar) := fun o q =>
    (List.range 4).flatMap fun y => rowX (o + dims.c0 * (y : Int)) (q + 4 * (y : Int))
  have hYstep : ∀ st i, stepY st i =
      { Sets := st.Sets ++ rowX st.offset st.q
        offset := st.offset + dims.c0
        q := st.q + 4 } := by
    intro st i
    show ({ (List.range 4).foldl stepX st with
      offset := ((List.range 4).foldl stepX st).offset + (dims.c0 - 4) } :
        ScatterState Scalar) = _
    rw [hX]
    simp only [ScatterState.mk.injEq, true_and, Nat.cast_ofNat]
    constructor <;> ring
  have hY : ∀ st, (List.range 4).foldl stepY st =
      { Sets := st.Sets ++ rowY st.offset st.q
        offset := st.offset + dims.c0 * (4 : Nat)
        q := st.q + 4 * (4 : Nat) } := fun st =>
    foldl_range_steps stepY rowX dims.c0 4 hYstep 4 st
  let stepZ : ScatterState Scalar → Nat → ScatterState Scalar := fun st _ =>
    let st := (List.range 4).foldl stepY st
    { st with offset := st.offset + (dims.c0 * dims.c1 - 4 * dims.c0) }
  have hZstep : ∀ st i, stepZ st i =
      { Sets := st.Sets ++ rowY st.offset st.q
        offset := st.offset + dims.c0 * dims.c1
        q := st.q + 16 } := by
    intro st i
    show ({ (List.range 4).foldl stepY st with
      offset := ((List.range 4).foldl stepY st).offset + (dims.c0 * dims.c1 - 4 * dims.c0) } :
        ScatterState Scalar) = _
    rw [hY]
    simp only [ScatterState.mk.injEq, true_and, Nat.cast_ofNat]
    constructor <;> ring
  have hZ := foldl_range_steps stepZ rowY (dims.c0 * dims.c1) 16 hZstep 4
    { Sets := [], offset := offset, q := 0 }
  show ((List.range 4).foldl stepZ { Sets := [], offset := offset, q := 0 }).Sets = _
  rw [hZ]
  have key : ∀ z y x : Nat,
      (offset + dims.c0 * dims.c1 * (z : Int) + dims.c0 * (y : Int) + 1 * (x : Int),
        fblock (0 + 16 * (z : Int) + 4 * (y : Int) + 1 * (x : Int))) =
      (offset + (x : Int) + dims.c0 * (y : Int) + dims.c0 * dims.c1 * (z : Int),
        fblock ((x : Int) + 4 * (y : Int) + 16 * (z : Int))) := by
    intro z y x
    have h1 : offset + dims.c0 * dims.c1 * (z : Int) + dims.c0 * (y : Int) + 1 * (x : Int) =
        offset + (x : Int) + dims.c0 * (y : Int) + dims.c0 * dims.c1 * (z : Int) := by ring
    have h2 : (0 : Int) + 16 * (z : Int) + 4 * (y : Int) + 1 * (x : Int) =
        (x : Int) + 4 * (y : Int) + 16 * (z : Int) := by ring
    rw [h1, h2]
  simp only [List.nil_append, ScatterSpec, rowY, rowX, key, flatMap_singleton_eq_map]

theorem length_flatMap_const {α β : Type} (l : List α) (f : α → List β) (c : Nat)
    (h : ∀ a, (f a).length = c) : (l.flatMap f).length = l.length * c := by
  induction l with
  | nil => simp
  | cons a l ih =>
    simp only [List.flatMap_cons, List.length_append, List.length_cons, ih, h]
    ring

theorem length_ScatterSpec {Scalar : Type} (fblock : Int → Scalar) (dims : Id3) (offset : Int)
    (nx ny nz : Nat) : (ScatterSpec fblock dims offset nx ny nz).length = nx * ny * nz := by
  unfold ScatterSpec
  rw [length_flatMap_const _ _ (ny * nx)]
  · simp only [List.length_range]
    ring
  · intro z
    rw [length_flatMap_const _ _ nx]
    · simp only [List.length_range]
    · intro y
      simp only [List.length_map, List.length_range]

/-- The calls of `ScatterSpec`, one for each triple. -/
theorem mem_ScatterSpec {Scalar : Type} (fblock : Int → Scalar) (dims : Id3) (offset : Int)
    (nx ny nz : Nat) (idx : Int) (v : Scalar) :
    (idx, v) ∈ ScatterSpec fblock dims offset nx ny nz ↔
      ∃ x y z : Nat, x < nx ∧ y < ny ∧ z < nz ∧
        idx = offset + (x : Int) + dims.c0 * (y : Int) + dims.c0 * dims.c1 * (z : Int) ∧
        v = fblock ((x : Int) + 4 * (y : Int) + 16 * (z : Int)) := by
  simp only [ScatterSpec, List.mem_flatMap, List.mem_map, List.mem_range, Prod.mk.injEq]
  constructor
  · rintro ⟨z, hz, y, hy, x, hx, h1, h2⟩
    exact ⟨x, y, z, hx, hy, hz, h1.symm, h2.symm⟩
  · rintro ⟨x, y, z, hx, hy, hz, h1, h2⟩
    exact ⟨z, hz, y, hy, x, hx, h1.symm, h2.symm⟩

/-! ### Flat indices -/

theorem flatIndex_mod (d0 d1 x y z : Nat) (hx : x < d0) : flatIndex d0 d1 x y z % d0 = x := by
  unfold flatIndex
  rw [Nat.add_comm, Nat.add_mul_mod_self_right, Nat.mod_eq_of_lt hx]

theorem flatIndex_div (d0 d1 x y z : Nat) (hx : x < d0) :
    flatIndex d0 d1 x y z / d0 = z * d1 + y := by
  unfold flatIndex
  have hpos : 0 < d0 := by omega
  rw [Nat.add_comm, Nat.add_mul_div_right _ _ hpos, Nat.div_eq_of_lt hx, Nat.zero_add]

theorem flatIndex_y (d0 d1 x y z : Nat) (hx : x < d0) (hy : y < d1) :
    flatIndex d0 d1 x y z / d0 % d1 = y := by
  rw [flatIndex_div d0 d1 x y z hx, Nat.add_comm, Nat.add_mul_mod_self_right,
    Nat.mod_eq_of_lt hy]

theorem flatIndex_z (d0 d1 x y z : Nat) (hx : x < d0) (hy : y < d1) :
    flatIndex d0 d1 x y z / d0 / d1 = z := by
  have hpos : 0 < d1 := by omega
  rw [flatIndex_div d0 d1 x y z hx, Nat.add_comm, Nat.add_mul_div_right _ _ hpos,
    Nat.div_eq_of_lt hy, Nat.zero_add]

theorem flatIndex_lt (d0 d1 d2 x y z : Nat) (hx : x < d0) (hy : y < d1) (hz : z < d2) :
    flatIndex d0 d1 x y z < d0 * d1 * d2 := by
  unfold flatIndex
  have h1 : (z * d1 + y) * d0 + x < (z * d1 + y + 1) * d0 := by
    rw [Nat.add_mul (z * d1 + y) 1 d0]
    omega
  have h2 : z * d1 + y + 1 ≤ d2 * d1 := by
    have h3 : (z + 1) * d1 ≤ d2 * d1 := Nat.mul_le_mul_right d1 hz
    rw [Nat.add_mul] at h3
    omega
  calc (z * d1 + y) * d0 + x < (z * d1 + y + 1) * d0 := h1
    _ ≤ (d2 * d1) * d0 := Nat.mul_le_mul_right d0 h2
    _ = d0 * d1 * d2 := by ring

theorem flatIndex_decompose (d0 d1 n : Nat) :
    flatIndex d0 d1 (n % d0) (n / d0 % d1) (n / d0 / d1) = n := by
  unfold flatIndex
  have h1 := Nat.div_add_mod (n / d0) d1
  have h2 := Nat.div_add_mod n d0
  rw [Nat.mul_comm (n / d0 / d1) d1, h1, Nat.mul_comm (n / d0) d0, h2]

/-! ### The indices written by one block and by the whole run -/

theorem mem_blockIndices (d0 d1 d2 b0 b1 b2 n : Nat) :
    n ∈ blockIndices d0 d1 d2 b0 b1 b2 ↔
      ∃ i j k : Nat, i < 4 ∧ j < 4 ∧ k < 4 ∧
        4 * b0 + i < d0 ∧ 4 * b1 + j < d1 ∧ 4 * b2 + k < d2 ∧
        n = flatIndex d0 d1 (4 * b0 + i) (4 * b1 + j) (4 * b2 + k) := by
  simp only [blockIndices, List.mem_flatMap, List.mem_map, List.mem_range]
  constructor
  · rintro ⟨k, hk, j, hj, i, hi, rfl⟩
    exact ⟨i, j, k, by omega, by omega, by omega, by omega, by omega, by omega, rfl⟩
  · rintro ⟨i, j, k, hi, hj, hk, hx, hy, hz, rfl⟩
    exact ⟨k, by omega, j, by omega, i, by omega, rfl⟩

/-- A list made block by block has no duplicates when the blocks have none and
every element tells which block it belongs to. -/
theorem nodup_flatMap_of_key {α β : Type} (l : List α) (f : α → List β) (key : β → α)
    (hl : l.Nodup) (hf : ∀ a ∈ l, (f a).Nodup) (hk : ∀ a ∈ l, ∀ y ∈ f a, key y = a) :
    (l.flatMap f).Nodup := by
  rw [List.nodup_flatMap]
  refine ⟨hf, ?_⟩
  have hne : l.Pairwise (fun a b => a ≠ b) := hl
  refine List.Pairwise.imp_of_mem ?_ hne
  intro a b ha hb hab
  intro y hya hyb
  exact hab ((hk a ha y hya).symm.trans (hk b hb y hyb))

theorem nodup_blockIndices (d0 d1 d2 b0 b1 b2 : Nat) :
    (blockIndices d0 d1 d2 b0 b1 b2).Nodup := by
  unfold blockIndices
  refine nodup_flatMap_of_key _ _ (fun n => n / d0 / d1 - 4 * b2) (List.nodup_range _) ?_ ?_
  · intro k hk
    refine nodup_flatMap_of_key _ _ (fun n => n / d0 % d1 - 4 * b1) (List.nodup_range _) ?_ ?_
    · intro j hj
      refine List.Nodup.map_on ?_ (List.nodup_range _)
      intro i hi i' hi' h
      simp only [flatIndex] at h
      omega
    · intro j hj n hn
      simp only [List.mem_map, List.mem_range] at hn hj
      obtain ⟨i, hi, rfl⟩ := hn
      show flatIndex d0 d1 (4 * b0 + i) (4 * b1 + j) (4 * b2 + k) / d0 % d1 - 4 * b1 = j
      rw [flatIndex_y d0 d1 _ _ _ (by omega) (by omega)]
      omega
  · intro k hk n hn
    simp only [List.mem_flatMap, List.mem_map, List.mem_range] at hn hk
    obtain ⟨j, hj, i, hi, rfl⟩ := hn
    show flatIndex d0 d1 (4 * b0 + i) (4 * b1 + j) (4 * b2 + k) / d0 / d1 - 4 * b2 = k
    rw [flatIndex_z d0 d1 _ _ _ (by omega) (by omega)]
    omega

theorem nodup_runIndices (d0 d1 d2 : Nat) : (runIndices d0 d1 d2).Nodup := by
  unfold runIndices
  refine nodup_flatMap_of_key _ _
    (fun n => flatIndex ((d0 + 3) / 4) ((d1 + 3) / 4) (n % d0 / 4) (n / d0 % d1 / 4)
      (n / d0 / d1 / 4))
    (List.nodup_range _) (fun b _ => nodup_blockIndices _ _ _ _ _ _) ?_
  intro b _ n hn
  obtain ⟨i, j, k, hi, hj, hk, hx, hy, hz, rfl⟩ := (mem_blockIndices _ _ _ _ _ _ _).mp hn
  show flatIndex _ _ (flatIndex d0 d1 _ _ _ % d0 / 4) (flatIndex d0 d1 _ _ _ / d0 % d1 / 4)
    (flatIndex d0 d1 _ _ _ / d0 / d1 / 4) = b
  rw [flatIndex_mod d0 d1 _ _ _ hx, flatIndex_y d0 d1 _ _ _ hx hy,
    flatIndex_z d0 d1 _ _ _ hx hy]
  have e0 : (4 * (b % ((d0 + 3) / 4)) + i) / 4 = b % ((d0 + 3) / 4) := by omega
  have e1 : (4 * (b / ((d0 + 3) / 4) % ((d1 + 3) / 4)) + j) / 4 =
      b / ((d0 + 3) / 4) % ((d1 + 3) / 4) := by omega
  have e2 : (4 * (b / (((d0 + 3) / 4) * ((d1 + 3) / 4))) + k) / 4 =
      b / (((d0 + 3) / 4) * ((d1 + 3) / 4)) := by omega
  rw [e0, e1, e2, ← Nat.div_div_eq_div_mul]
  exact flatIndex_decompose _ _ b

theorem mem_runIndices (d0 d1 d2 n : Nat) : n ∈ runIndices d0 d1 d2 ↔ n < d0 * d1 * d2 := by
  simp only [runIndices, List.mem_flatMap, List.mem_range]
  constructor
  · rintro ⟨b, _, hn⟩
    obtain ⟨i, j, k, -, -, -, hx, hy, hz, rfl⟩ := (mem_blockIndices _ _ _ _ _ _ _).mp hn
    exact flatIndex_lt d0 d1 d2 _ _ _ hx hy hz
  · intro hn
    have hd0 : 0 < d0 := by
      rcases Nat.eq_zero_or_pos d0 with h | h
      · simp [h] at hn
      · exact h
    have hd1 : 0 < d1 := by
      rcases Nat.eq_zero_or_pos d1 with h | h
      · simp [h] at hn
      · exact h
    have hX : n % d0 < d0 := Nat.mod_lt _ hd0
    have hY : n / d0 % d1 < d1 := Nat.mod_lt _ hd1
    have hZ : n / d0 / d1 < d2 := by
      rw [Nat.div_div_eq_div_mul]
      exact Nat.div_lt_of_lt_mul hn
    have hb0 : n % d0 / 4 < (d0 + 3) / 4 := by omega
    have hb1 : n / d0 % d1 / 4 < (d1 + 3) / 4 := by omega
    have hb2 : n / d0 / d1 / 4 < (d2 + 3) / 4 := by omega
    refine ⟨flatIndex ((d0 + 3) / 4) ((d1 + 3) / 4) (n % d0 / 4) (n / d0 % d1 / 4)
      (n / d0 / d1 / 4), flatIndex_lt _ _ _ _ _ _ hb0 hb1 hb2, ?_⟩
    rw [flatIndex_mod _ _ _ _ _ hb0, flatIndex_y _ _ _ _ _ hb0 hb1, ← Nat.div_div_eq_div_mul,
      flatIndex_z _ _ _ _ _ hb0 hb1]
    refine (mem_blockIndices _ _ _ _ _ _ _).mpr
      ⟨n % d0 % 4, n / d0 % d1 % 4, n / d0 / d1 % 4, by omega, by omega, by omega, by omega,
        by omega, by omega, ?_⟩
    have e0 : 4 * (n % d0 / 4) + n % d0 % 4 = n % d0 := by omega
    have e1 : 4 * (n / d0 % d1 / 4) + n / d0 % d1 % 4 = n / d0 % d1 := by omega
    have e2 : 4 * (n / d0 / d1 / 4) + n / d0 / d1 % 4 = n / d0 / d1 := by omega
    rw [e0, e1, e2]
    exact (flatIndex_decompose d0 d1 n).symm

/-- The run writes every index below `d0 * d1 * d2` once, and no other. -/
theorem runIndices_perm (d0 d1 d2 : Nat) :
    (runIndices d0 d1 d2).Perm (List.range (d0 * d1 * d2)) := by
  refine (List.perm_ext_iff_of_nodup (nodup_runIndices d0 d1 d2) (List.nodup_range _)).mpr ?_
  intro n
  rw [mem_runIndices, List.mem_range]

/-! ### One call of the worklet -/

/-- The choice between `ScatterPartial3` and `Scatter3` made by `Decode3`, for a
block that starts inside the field. -/
theorem scatter_choice_eq {Scalar : Type} (fblock : Int → Scalar) (d0 d1 d2 b0 b1 b2 : Nat)
    (offset : Int) (h0 : 4 * b0 < d0) (h1 : 4 * b1 < d1) (h2 : 4 * b2 < d2) :
    (if (decide ((b0 : Int) * 4 + 4 > (d0 : Int)) || decide ((b1 : Int) * 4 + 4 > (d1 : Int)) ||
          decide ((b2 : Int) * 4 + 4 > (d2 : Int))) = true then
        ScatterPartial3 fblock ⟨d0, d1, d2⟩ offset
          (if (b0 : Int) * 4 + 4 > (d0 : Int) then (d0 : Int) - (b0 : Int) * 4 else 4)
          (if (b1 : Int) * 4 + 4 > (d1 : Int) then (d1 : Int) - (b1 : Int) * 4 else 4)
          (if (b2 : Int) * 4 + 4 > (d2 : Int) then (d2 : Int) - (b2 : Int) * 4 else 4)
      else Scatter3 fblock ⟨d0, d1, d2⟩ offset) =
      ScatterSpec fblock ⟨d0, d1, d2⟩ offset (min 4 (d0 - 4 * b0)) (min 4 (d1 - 4 * b1))
        (min 4 (d2 - 4 * b2)) := by
  have e0 : (if (b0 : Int) * 4 + 4 > (d0 : Int) then (d0 : Int) - (b0 : Int) * 4 else 4) =
      ((min 4 (d0 - 4 * b0) : Nat) : Int) := by
    split <;> omega
  have e1 : (if (b1 : Int) * 4 + 4 > (d1 : Int) then (d1 : Int) - (b1 : Int) * 4 else 4) =
      ((min 4 (d1 - 4 * b1) : Nat) : Int) := by
    split <;> omega
  have e2 : (if (b2 : Int) * 4 + 4 > (d2 : Int) then (d2 : Int) - (b2 : Int) * 4 else 4) =
      ((min 4 (d2 - 4 * b2) : Nat) : Int) := by
    split <;> omega
  rw [e0, e1, e2]
  split
  · exact ScatterPartial3_eq_spec _ _ _ _ _ _
  · rename_i hfull
    simp only [Bool.or_eq_true, decide_eq_true_eq, not_or, not_lt, gt_iff_lt] at hfull
    obtain ⟨⟨f0, f1⟩, f2⟩ := hfull
    have m0 : min 4 (d0 - 4 * b0) = 4 := by omega
    have m1 : min 4 (d1 - 4 * b1) = 4 := by omega
    have m2 : min 4 (d2 - 4 * b2) = 4 := by omega
    rw [m0, m1, m2]
    exact Scatter3_eq_spec _ _ _

/-- One call of `Decode3` for a field of `d0` by `d1` by `d2` values padded to
the next multiples of 4: the calls `Set` it makes for block `b`. -/
theorem Decode3_call_eq {Scalar : Type} (d0 d1 d2 : Nat) (padded : Id3) (maxbits : Nat)
    (zfp_decode : Nat → Nat → Int → Scalar) (b : Nat)
    (hd0 : 1 ≤ d0) (hd1 : 1 ≤ d1) (hd2 : 1 ≤ d2)
    (hp0 : padded.c0 % 4 = 0 ∧ (d0 : Int) ≤ padded.c0 ∧ padded.c0 < (d0 : Int) + 4)
    (hp1 : padded.c1 % 4 = 0 ∧ (d1 : Int) ≤ padded.c1 ∧ padded.c1 < (d1 : Int) + 4)
    (hp2 : padded.c2 % 4 = 0 ∧ (d2 : Int) ≤ padded.c2 ∧ padded.c2 < (d2 : Int) + 4)
    (hb : b < ((d0 + 3) / 4) * ((d1 + 3) / 4) * ((d2 + 3) / 4)) :
    (Decode3.new ⟨d0, d1, d2⟩ padded maxbits).call zfp_decode b =
      ScatterSpec (zfp_decode maxbits (b % 4294967296)) ⟨d0, d1, d2⟩
        ((flatIndex d0 d1 (4 * (b % ((d0 + 3) / 4)))
          (4 * (b / ((d0 + 3) / 4) % ((d1 + 3) / 4)))
          (4 * (b / (((d0 + 3) / 4) * ((d1 + 3) / 4)))) : Nat) : Int)
        (min 4 (d0 - 4 * (b % ((d0 + 3) / 4))))
        (min 4 (d1 - 4 * (b / ((d0 + 3) / 4) % ((d1 + 3) / 4))))
        (min 4 (d2 - 4 * (b / (((d0 + 3) / 4) * ((d1 + 3) / 4))))) := by
  have hz0 : padded.c0.tdiv 4 = (((d0 + 3) / 4 : Nat) : Int) := by
    rw [Int.tdiv_eq_ediv (by omega) (by decide)]
    omega
  have hz1 : padded.c1.tdiv 4 = (((d1 + 3) / 4 : Nat) : Int) := by
    rw [Int.tdiv_eq_ediv (by omega) (by decide)]
    omega
  have hz2 : padded.c2.tdiv 4 = (((d2 + 3) / 4 : Nat) : Int) := by
    rw [Int.tdiv_eq_ediv (by omega) (by decide)]
    omega
  have hpos0 : 0 < (d0 + 3) / 4 := by omega
  have hpos1 : 0 < (d1 + 3) / 4 := by omega
  have hb0 : b % ((d0 + 3) / 4) < (d0 + 3) / 4 := Nat.mod_lt _ hpos0
  have hb1 : b / ((d0 + 3) / 4) % ((d1 + 3) / 4) < (d1 + 3) / 4 := Nat.mod_lt _ hpos1
  have hb2 : b / (((d0 + 3) / 4) * ((d1 + 3) / 4)) < (d2 + 3) / 4 :=
    Nat.div_lt_of_lt_mul hb
  have hblock : (((b : Nat) : Int) % 4294967296).toNat = b % 4294967296 := by omega
  have c0 : ((b : Int)).tmod (((d0 + 3) / 4 : Nat) : Int) = ((b % ((d0 + 3) / 4) : Nat) : Int) :=
    (Int.ofNat_tmod b ((d0 + 3) / 4)).symm
  have c1 : (((b : Int)).tdiv (((d0 + 3) / 4 : Nat) : Int)).tmod (((d1 + 3) / 4 : Nat) : Int) =
      ((b / ((d0 + 3) / 4) % ((d1 + 3) / 4) : Nat) : Int) := by
    rw [← Int.ofNat_tdiv, ← Int.ofNat_tmod]
  have c2 : ((b : Int)).tdiv ((((d0 + 3) / 4 : Nat) : Int) * (((d1 + 3) / 4 : Nat) : Int)) =
      ((b / (((d0 + 3) / 4) * ((d1 + 3) / 4)) : Nat) : Int) := by
    rw [← Nat.cast_mul, ← Int.ofNat_tdiv]
  have hoff : (((b / (((d0 + 3) / 4) * ((d1 + 3) / 4)) : Nat) : Int) * 4 * (d1 : Int) +
        ((b / ((d0 + 3) / 4) % ((d1 + 3) / 4) : Nat) : Int) * 4) * (d0 : Int) +
        ((b % ((d0 + 3) / 4) : Nat) : Int) * 4 =
      ((flatIndex d0 d1 (4 * (b % ((d0 + 3) / 4)))
          (4 * (b / ((d0 + 3) / 4) % ((d1 + 3) / 4)))
          (4 * (b / (((d0 + 3) / 4) * ((d1 + 3) / 4)))) : Nat) : Int) := by
    unfold flatIndex
    push_cast
    ring
  simp only [Decode3.call, Decode3.new, hz0, hz1, hz2, hblock, c0, c1, c2, hoff]
  exact scatter_choice_eq _ d0 d1 d2 _ _ _ _ (by omega) (by omega) (by omega)

/-- The indices of the calls of one block are the flat indices of its
positions in the field. -/
theorem ScatterSpec_indices {Scalar : Type} (fblock : Int → Scalar)
    (d0 d1 d2 b0 b1 b2 : Nat) :
    (ScatterSpec fblock ⟨d0, d1, d2⟩
        ((flatIndex d0 d1 (4 * b0) (4 * b1) (4 * b2) : Nat) : Int)
        (min 4 (d0 - 4 * b0)) (min 4 (d1 - 4 * b1)) (min 4 (d2 - 4 * b2))).map Prod.fst =
      (blockIndices d0 d1 d2 b0 b1 b2).map Nat.cast := by
  have key : ∀ i j k : Nat,
      ((flatIndex d0 d1 (4 * b0) (4 * b1) (4 * b2) : Nat) : Int) + (i : Int) +
          (d0 : Int) * (j : Int) + (d0 : Int) * (d1 : Int) * (k : Int) =
        ((flatIndex d0 d1 (4 * b0 + i) (4 * b1 + j) (4 * b2 + k) : Nat) : Int) := by
    intro i j k
    unfold flatIndex
    push_cast
    ring
  simp only [ScatterSpec, blockIndices, List.map_flatMap, List.map_map, Function.comp_def, key]

/-- The calls of one block: which index gets which element of the decoded
block. -/
theorem mem_ScatterSpec_block {Scalar : Type} (fblock : Int → Scalar)
    (d0 d1 d2 b0 b1 b2 : Nat) (idx : Int) (v : Scalar) :
    (idx, v) ∈ ScatterSpec fblock ⟨d0, d1, d2⟩
        ((flatIndex d0 d1 (4 * b0) (4 * b1) (4 * b2) : Nat) : Int)
        (min 4 (d0 - 4 * b0)) (min 4 (d1 - 4 * b1)) (min 4 (d2 - 4 * b2)) ↔
      ∃ i j k : Nat, i < 4 ∧ j < 4 ∧ k < 4 ∧
        4 * b0 + i < d0 ∧ 4 * b1 + j < d1 ∧ 4 * b2 + k < d2 ∧
        idx = ((flatIndex d0 d1 (4 * b0 + i) (4 * b1 + j) (4 * b2 + k) : Nat) : Int) ∧
        v = fblock ((i : Int) + 4 * (j : Int) + 16 * (k : Int)) := by
  have key : ∀ i j k : Nat,
      ((flatIndex d0 d1 (4 * b0) (4 * b1) (4 * b2) : Nat) : Int) + (i : Int) +
          (d0 : Int) * (j : Int) + (d0 : Int) * (d1 : Int) * (k : Int) =
        ((flatIndex d0 d1 (4 * b0 + i) (4 * b1 + j) (4 * b2 + k) : Nat) : Int) := by
    intro i j k
    unfold flatIndex
    push_cast
    ring
  rw [mem_ScatterSpec]
  constructor
  · rintro ⟨i, j, k, hi, hj, hk, h1, h2⟩
    refine ⟨i, j, k, by omega, by omega, by omega, by omega, by omega, by omega, ?_, h2⟩
    rw [h1]
    exact key i j k
  · rintro ⟨i, j, k, hi, hj, hk, hx, hy, hz, h1, h2⟩
    refine ⟨i, j, k, by omega, by omega, by omega, ?_, h2⟩
    rw [h1]
    exact (key i j k).symm

/-- The indices written by the whole run, for a field of `d0` by `d1` by `d2`
values padded to the next multiples of 4. -/
theorem Decode3_run_indices {Scalar : Type} (d0 d1 d2 : Nat) (padded : Id3) (maxbits : Nat)
    (zfp_decode : Nat → Nat → Int → Scalar)
    (hd0 : 1 ≤ d0) (hd1 : 1 ≤ d1) (hd2 : 1 ≤ d2)
    (hp0 : padded.c0 % 4 = 0 ∧ (d0 : Int) ≤ padded.c0 ∧ padded.c0 < (d0 : Int) + 4)
    (hp1 : padded.c1 % 4 = 0 ∧ (d1 : Int) ≤ padded.c1 ∧ padded.c1 < (d1 : Int) + 4)
    (hp2 : padded.c2 % 4 = 0 ∧ (d2 : Int) ≤ padded.c2 ∧ padded.c2 < (d2 : Int) + 4) :
    ((Decode3.new ⟨d0, d1, d2⟩ padded maxbits).run zfp_decode).map Prod.fst =
      (runIndices d0 d1 d2).map Nat.cast := by
  have hz0 : padded.c0.tdiv 4 = (((d0 + 3) / 4 : Nat) : Int) := by
    rw [Int.tdiv_eq_ediv (by omega) (by decide)]
    omega
  have hz1 : padded.c1.tdiv 4 = (((d1 + 3) / 4 : Nat) : Int) := by
    rw [Int.tdiv_eq_ediv (by omega) (by decide)]
    omega
  have hz2 : padded.c2.tdiv 4 = (((d2 + 3) / 4 : Nat) : Int) := by
    rw [Int.tdiv_eq_ediv (by omega) (by decide)]
    omega
  have hN : ((Decode3.new ⟨d0, d1, d2⟩ padded maxbits).ZFPDims.c0 *
      (Decode3.new ⟨d0, d1, d2⟩ padded maxbits).ZFPDims.c1 *
      (Decode3.new ⟨d0, d1, d2⟩ padded maxbits).ZFPDims.c2).toNat =
      ((d0 + 3) / 4) * ((d1 + 3) / 4) * ((d2 + 3) / 4) := by
    simp only [Decode3.new, hz0, hz1, hz2]
    rw [← Nat.cast_mul, ← Nat.cast_mul, Int.toNat_ofNat]
  unfold Decode3.run runIndices
  rw [hN, List.map_flatMap, List.map_flatMap]
  refine List.flatMap_congr ?_
  intro b hb
  rw [List.mem_range] at hb
  rw [Decode3_call_eq d0 d1 d2 padded maxbits zfp_decode b hd0 hd1 hd2 hp0 hp1 hp2 hb]
  exact ScatterSpec_indices _ d0 d1 d2 _ _ _

end zfp
end worklet

namespace worklet
namespace zfp

/-- Claim C29. The scatter of a full block is the partial scatter at full
extent: for every block `q`, every `dims` and every `offset`,
`Scatter3(q, scalars, dims, offset)` makes the same calls `Set(index, value)`,
in the same order, as `ScatterPartial3(q, scalars, dims, offset, 4, 4, 4)`;
and for all `nx`, `ny`, `nz` (those in `[0, 4]` included) `ScatterPartial3`
makes one call `Set(offset + x + dims[0]*y + dims[0]*dims[1]*z,
q[x + 4*y + 16*z])` for each triple `x < nx`, `y < ny`, `z < nz`, and no
other. -/
theorem Scatter3_eq_ScatterPartial3 {Scalar : Type} (fblock : Int → Scalar) (dims : Id3)
    (offset : Int) :
    Scatter3 fblock dims offset = ScatterPartial3 fblock dims offset 4 4 4 ∧
    ∀ nx ny nz : Nat,
      ScatterPartial3 fblock dims offset nx ny nz = ScatterSpec fblock dims offset nx ny nz ∧
      (ScatterPartial3 fblock dims offset nx ny nz).length = nx * ny * nz ∧
      ∀ (idx : Int) (v : Scalar),
        (idx, v) ∈ ScatterPartial3 fblock dims offset nx ny nz ↔
          ∃ x y z : Nat, x < nx ∧ y < ny ∧ z < nz ∧
            idx = offset + (x : Int) + dims.c0 * (y : Int) + dims.c0 * dims.c1 * (z : Int) ∧
            v = fblock ((x : Int) + 4 * (y : Int) + 16 * (z : Int)) := by
  refine ⟨?_, fun nx ny nz => ⟨ScatterPartial3_eq_spec fblock dims offset nx ny nz, ?_, ?_⟩⟩
  · rw [Scatter3_eq_spec]
    exact (ScatterPartial3_eq_spec fblock dims offset 4 4 4).symm
  · rw [ScatterPartial3_eq_spec]
    exact length_ScatterSpec fblock dims offset nx ny nz
  · intro idx v
    rw [ScatterPartial3_eq_spec]
    exact mem_ScatterSpec fblock dims offset nx ny nz idx v

/-- Claim C28. The scatter of the 3-D decoder partitions the output field. Let
every component of `Dims` be at least 1 and `PaddedDims` be the smallest
multiples of 4 not below `Dims`. Running `Decode3` for every block index `b`
in `[0, ZFPDims[0] * ZFPDims[1] * ZFPDims[2])` writes every index of
`[0, Dims[0] * Dims[1] * Dims[2])` exactly once and no other index; and the
calls of block `b`, with `bx = b mod ZFPDims[0]`,
`by = (b / ZFPDims[0]) mod ZFPDims[1]`, `bz = b / (ZFPDims[0] * ZFPDims[1])`,
are exactly: for `i, j, k < 4` with `(4*bx + i, 4*by + j, 4*bz + k)` inside the
field, the index `((4*bz + k) * Dims[1] + 4*by + j) * Dims[0] + 4*bx + i` gets
element `i + 4*j + 16*k` of the block decoded for `b`, the decoder receiving
`b` converted to `vtkm::UInt32`. -/
theorem Decode3_run_partition {Scalar : Type} (dims padded : Id3) (maxbits : Nat)
    (zfp_decode : Nat → Nat → Int → Scalar)
    (hd0 : 1 ≤ dims.c0) (hd1 : 1 ≤ dims.c1) (hd2 : 1 ≤ dims.c2)
    (hp0 : padded.c0 % 4 = 0 ∧ dims.c0 ≤ padded.c0 ∧ padded.c0 < dims.c0 + 4)
    (hp1 : padded.c1 % 4 = 0 ∧ dims.c1 ≤ padded.c1 ∧ padded.c1 < dims.c1 + 4)
    (hp2 : padded.c2 % 4 = 0 ∧ dims.c2 ≤ padded.c2 ∧ padded.c2 < dims.c2 + 4) :
    (((Decode3.new dims padded maxbits).run zfp_decode).map Prod.fst).Perm
      ((List.range (dims.c0 * dims.c1 * dims.c2).toNat).map Nat.cast) ∧
    ∀ b : Nat,
      (b : Int) < (Decode3.new dims padded maxbits).ZFPDims.c0 *
        (Decode3.new dims padded maxbits).ZFPDims.c1 *
        (Decode3.new dims padded maxbits).ZFPDims.c2 →
      ∀ (idx : Int) (v : Scalar),
        (idx, v) ∈ (Decode3.new dims padded maxbits).call zfp_decode b ↔
          ∃ i j k : Nat, i < 4 ∧ j < 4 ∧ k < 4 ∧
            4 * ((b : Int) % (Decode3.new dims padded maxbits).ZFPDims.c0) + i < dims.c0 ∧
            4 * ((b : Int) / (Decode3.new dims padded maxbits).ZFPDims.c0 %
              (Decode3.new dims padded maxbits).ZFPDims.c1) + j < dims.c1 ∧
            4 * ((b : Int) / ((Decode3.new dims padded maxbits).ZFPDims.c0 *
              (Decode3.new dims padded maxbits).ZFPDims.c1)) + k < dims.c2 ∧
            idx =
              ((4 * ((b : Int) / ((Decode3.new dims padded maxbits).ZFPDims.c0 *
                    (Decode3.new dims padded maxbits).ZFPDims.c1)) + k) * dims.c1 +
                  (4 * ((b : Int) / (Decode3.new dims padded maxbits).ZFPDims.c0 %
                    (Decode3.new dims padded maxbits).ZFPDims.c1) + j)) * dims.c0 +
                (4 * ((b : Int) % (Decode3.new dims padded maxbits).ZFPDims.c0) + i) ∧
            v = zfp_decode maxbits (b % 4294967296) ((i : Int) + 4 * (j : Int) + 16 * (k : Int)) := by
  obtain ⟨D0, D1, D2⟩ := dims
  simp only at hd0 hd1 hd2 hp0 hp1 hp2
  lift D0 to Nat using (by omega) with d0
  lift D1 to Nat using (by omega) with d1
  lift D2 to Nat using (by omega) with d2
  have hz0 : padded.c0.tdiv 4 = (((d0 + 3) / 4 : Nat) : Int) := by
    rw [Int.tdiv_eq_ediv (by omega) (by decide)]
    omega
  have hz1 : padded.c1.tdiv 4 = (((d1 + 3) / 4 : Nat) : Int) := by
    rw [Int.tdiv_eq_ediv (by omega) (by decide)]
    omega
  have hz2 : padded.c2.tdiv 4 = (((d2 + 3) / 4 : Nat) : Int) := by
    rw [Int.tdiv_eq_ediv (by omega) (by decide)]
    omega
  constructor
  · rw [Decode3_run_indices d0 d1 d2 padded maxbits zfp_decode (by omega) (by omega) (by omega)
      hp0 hp1 hp2]
    have ht : ((d0 : Int) * (d1 : Int) * (d2 : Int)).toNat = d0 * d1 * d2 := by
      rw [← Nat.cast_mul, ← Nat.cast_mul, Int.toNat_ofNat]
    simp only [ht]
    exact (runIndices_perm d0 d1 d2).map _
  · intro b hb idx v
    simp only [Decode3.new, hz0, hz1, hz2] at hb ⊢
    have hb' : b < ((d0 + 3) / 4) * ((d1 + 3) / 4) * ((d2 + 3) / 4) := by
      exact_mod_cast hb
    have hcall := Decode3_call_eq d0 d1 d2 padded maxbits zfp_decode b (by omega) (by omega)
      (by omega) hp0 hp1 hp2 hb'
    simp only [Decode3.new, hz0, hz1, hz2] at hcall
    rw [hcall, mem_ScatterSpec_block]
    have e0 : (b : Int) % (((d0 + 3) / 4 : Nat) : Int) = ((b % ((d0 + 3) / 4) : Nat) : Int) :=
      (Int.natCast_mod b _).symm
    have e1 : (b : Int) / (((d0 + 3) / 4 : Nat) : Int) % (((d1 + 3) / 4 : Nat) : Int) =
        ((b / ((d0 + 3) / 4) % ((d1 + 3) / 4) : Nat) : Int) := by
      norm_cast
    have e2 : (b : Int) / ((((d0 + 3) / 4 : Nat) : Int) * (((d1 + 3) / 4 : Nat) : Int)) =
        ((b / (((d0 + 3) / 4) * ((d1 + 3) / 4)) : Nat) : Int) := by
      norm_cast
    simp only [e0, e1, e2]
    constructor
    · rintro ⟨i, j, k, hi, hj, hk, hx, hy, hz, h1, h2⟩
      refine ⟨i, j, k, hi, hj, hk, by exact_mod_cast hx, by exact_mod_cast hy,
        by exact_mod_cast hz, ?_, h2⟩
      rw [h1]
      unfold flatIndex
      push_cast
      ring
    · rintro ⟨i, j, k, hi, hj, hk, hx, hy, hz, h1, h2⟩
      refine ⟨i, j, k, hi, hj, hk, by exact_mod_cast hx, by exact_mod_cast hy,
        by exact_mod_cast hz, ?_, h2⟩
      rw [h1]
      unfold flatIndex
      push_cast
      ring

theorem Decode3_run_partition_witness :
    (1 : Int) ≤ sampleDecode3.Dims.c0 ∧ (1 : Int) ≤ sampleDecode3.Dims.c1 ∧
    (1 : Int) ≤ sampleDecode3.Dims.c2 ∧
    (sampleDecode3.PaddedDims.c0 % 4 = 0 ∧ sampleDecode3.Dims.c0 ≤ sampleDecode3.PaddedDims.c0 ∧
      sampleDecode3.PaddedDims.c0 < sampleDecode3.Dims.c0 + 4) ∧
    (sampleDecode3.PaddedDims.c1 % 4 = 0 ∧ sampleDecode3.Dims.c1 ≤ sampleDecode3.PaddedDims.c1 ∧
      sampleDecode3.PaddedDims.c1 < sampleDecode3.Dims.c1 + 4) ∧
    (sampleDecode3.PaddedDims.c2 % 4 = 0 ∧ sampleDecode3.Dims.c2 ≤ sampleDecode3.PaddedDims.c2 ∧
      sampleDecode3.PaddedDims.c2 < sampleDecode3.Dims.c2 + 4) ∧
    ((sampleDecode3.run sampleDecode).map Prod.fst).Perm
      ((List.range 30).map Nat.cast) :=
  ⟨by decide, by decide, by decide, by decide, by decide, by decide,
    (Decode3_run_partition ⟨5, 3, 2⟩ ⟨8, 4, 4⟩ 16 sampleDecode (by decide) (by decide)
      (by decide) (by decide) (by decide) (by decide)).1⟩

end zfp
end worklet

end vtkm
